import Mathlib

/-!
The commit driver of `src/ostree/ot-builtin-commit.c`.

A shallow embedding of the three functions of the file

* `parse_statoverride_file` (lines 55-106),
* `commit_filter` (lines 108-132),
* `ostree_builtin_commit` (lines 134-357),

followed by theorems about them.

C strings are `String` (or `List Char` inside the line parser), `guint`
values are `Nat`, `gint` values are `Int`.  The repository, the file
system and the mutable tree are collaborators that live outside the file:
they are the fields of `Env`, deterministic functions of a world state
`σ` that is threaded through the driver.  Every call the driver makes is
appended to a trace together with its result, so that statements about
the order of calls are statements about a list.
-/

namespace OstreeCommit

/-! ## Errors, hash table, file info -/

/-- The message of a `GError` (the driver only uses `G_IO_ERROR_FAILED`). -/
abbrev GError := String

deriving instance DecidableEq for Except

/-- The `GHashTable` of `--statoverride`: string keys (`g_str_hash`,
`g_str_equal`), `guint` values stored with `GUINT_TO_POINTER`.  It is kept
as a list of entries with pairwise distinct keys; the iteration order of
the real table is unspecified. -/
abbrev Table := List (String × Nat)

/-- Lookup, as in `g_hash_table_lookup_extended`. -/
def Table.lookup (t : Table) (key : String) : Option Nat :=
  match t with
  | [] => none
  | (k, v) :: rest => if k = key then some v else Table.lookup rest key

/-- Insertion, as in `g_hash_table_insert`: the value of a key that is
already present is replaced, otherwise a new entry is added. -/
def Table.insert (t : Table) (key : String) (value : Nat) : Table :=
  match t with
  | [] => [(key, value)]
  | (k, v) :: rest =>
    if k = key then (k, value) :: rest else (k, v) :: Table.insert rest key value

/-- Removal, as in `g_hash_table_remove`. -/
def Table.remove (t : Table) (key : String) : Table :=
  t.filter (fun e => e.1 ≠ key)

/-- The keys, in iteration order. -/
def Table.keys (t : Table) : List String := t.map Prod.fst

/-- A `GFileInfo`, restricted to its `uint32` attributes: attribute name
and value. -/
abbrev GFileInfo := List (String × Nat)

/-- Reading with `g_file_info_get_attribute_uint32`: an attribute that is
not set reads as 0. -/
def GFileInfo.get_attribute_uint32 (info : GFileInfo) (attr : String) : Nat :=
  match info with
  | [] => 0
  | (k, v) :: rest =>
    if k = attr then v else GFileInfo.get_attribute_uint32 rest attr

/-- Writing with `g_file_info_set_attribute_uint32`: the attribute is
overwritten, or created when it is not set. -/
def GFileInfo.set_attribute_uint32 (info : GFileInfo) (attr : String) (value : Nat) :
    GFileInfo :=
  match info with
  | [] => [(attr, value)]
  | (k, v) :: rest =>
    if k = attr then (k, value) :: rest
    else (k, v) :: GFileInfo.set_attribute_uint32 rest attr value

/-- The conversion `(guint32) x` of a `gint`. -/
def guint32_of_gint (x : Int) : Nat := (x % 4294967296).toNat

/-! ## `commit_filter` (lines 108-132) -/

/-- The enumeration `OstreeRepoCommitFilterResult`. -/
inductive OstreeRepoCommitFilterResult
  | OSTREE_REPO_COMMIT_FILTER_ALLOW
  | OSTREE_REPO_COMMIT_FILTER_SKIP
  deriving DecidableEq, Repr

/-- What one call of `commit_filter` leaves behind: the returned verdict,
the file info and the table passed as `user_data` (both are mutated in
place by the C function). -/
structure FilterOut where
  verdict : OstreeRepoCommitFilterResult
  file_info : GFileInfo
  mode_adds : Option Table
  deriving DecidableEq, Repr

/-- The function `commit_filter`.  `opt_owner_uid` and `opt_owner_gid` are
the two globals it reads, `mode_adds` is `user_data` (`none` is `NULL`). -/
def commit_filter (opt_owner_uid opt_owner_gid : Int) (path : String)
    (file_info : GFileInfo) (mode_adds : Option Table) : FilterOut :=
  let info1 :=
    if opt_owner_uid ≥ 0 then
      file_info.set_attribute_uint32 "unix::uid" (guint32_of_gint opt_owner_uid)
    else file_info
  let info2 :=
    if opt_owner_gid ≥ 0 then
      info1.set_attribute_uint32 "unix::gid" (guint32_of_gint opt_owner_gid)
    else info1
  match mode_adds with
  | none => ⟨.OSTREE_REPO_COMMIT_FILTER_ALLOW, info2, none⟩
  | some table =>
    match table.lookup path with
    | none => ⟨.OSTREE_REPO_COMMIT_FILTER_ALLOW, info2, some table⟩
    | some mode_add =>
      let current_mode := info2.get_attribute_uint32 "unix::mode"
      ⟨.OSTREE_REPO_COMMIT_FILTER_ALLOW,
        info2.set_attribute_uint32 "unix::mode" (current_mode ||| mode_add),
        some (table.remove path)⟩

/-! ## `parse_statoverride_file` (lines 55-106) -/

/-- The pieces of a non-empty string between the occurrences of a newline,
the last piece included even when it is empty. -/
def split_newline : List Char → List (List Char)
  | [] => [[]]
  | c :: cs =>
    if c = '\n' then [] :: split_newline cs
    else
      match split_newline cs with
      | [] => [[c]]
      | l :: ls => (c :: l) :: ls

/-- The C string that starts at a buffer: the characters before the first
NUL.  `g_file_load_contents` hands back the whole file and its length, but
the length is not used: `g_strsplit`, `strchr` and `g_strdup` all stop at
the first NUL. -/
def c_string (buffer : List Char) : List Char :=
  buffer.takeWhile (fun c => c ≠ Char.ofNat 0)

/-- The call `g_strsplit (contents, "\n", -1)` on the loaded buffer: only
the C string is split, and an empty string gives an empty vector. -/
def g_strsplit_newline (contents : List Char) : List (List Char) :=
  if c_string contents = [] then [] else split_newline (c_string contents)

/-- The value of a run of ASCII decimal digits read in base ten. -/
def decimal_value (digits : List Char) : Nat :=
  digits.foldl (fun acc c => 10 * acc + (c.toNat - 48)) 0

/-- The expression `(guint32)(gint32) g_ascii_strtod (s, NULL)` of line 94.
`g_ascii_strtod` is the C-locale `strtod` of GLib: its subject is a decimal
floating-point number (there is no octal form).  When the string starts
with a run of decimal digits that is not continued by a fraction, an
exponent or a hexadecimal prefix and whose value is below 2^31, the double
is that integer exactly and the two casts keep it.  For every other string
(white space, sign, fraction, exponent, hexadecimal, infinity, NaN, no
digits, a value out of the range of `gint32`) the result depends on the
floating-point conversion and is left to the parameter `fp`. -/
def strtod_guint32 (fp : List Char → Nat) (s : List Char) : Nat :=
  let digits := s.takeWhile Char.isDigit
  let rest := s.dropWhile Char.isDigit
  if digits ≠ [] ∧ rest.head? ∉ [some '.', some 'e', some 'E', some 'x', some 'X']
      ∧ decimal_value digits < 2147483648 then
    decimal_value digits
  else fp s % 4294967296

/-- The remainder of a string after its first space (`spc + 1` with
`spc = strchr (s, ' ')`), for a string that has one. -/
def after_first_space (s : List Char) : List Char :=
  (s.dropWhile (fun c => c ≠ ' ')).tail

/-- The loop of lines 77-99 over the split lines, with the table built so
far. -/
def parse_statoverride_lines (fp : List Char → Nat) :
    List (List Char) → Table → Except GError Table
  | [], ret_hash => .ok ret_hash
  | line :: lines, ret_hash =>
    match line with
    | '+' :: after_plus =>
      if ' ' ∈ after_plus then
        let mode_add := strtod_guint32 fp after_plus
        parse_statoverride_lines fp lines
          (ret_hash.insert (String.mk (after_first_space after_plus)) mode_add)
      else .error "Malformed statoverride file"
    | _ => parse_statoverride_lines fp lines ret_hash

/-- The function `parse_statoverride_file`, given the result of
`g_file_load_contents` on the file named by `--statoverride`. -/
def parse_statoverride_file (fp : List Char → Nat)
    (load : Except GError (List Char)) : Except GError Table :=
  match load with
  | .error e => .error e
  | .ok contents => parse_statoverride_lines fp (g_strsplit_newline contents) []

/-! ## The driver `ostree_builtin_commit` (lines 134-357) -/

/-- The file-level option variables (lines 28-38) as `g_option_context_parse`
leaves them, the error of that call when it fails, and `argc` after it
(1 plus the number of positional arguments).  `opt_trees` is `none` for
`NULL`, which is what GOption leaves when `--tree` is not given. -/
structure Cmdline where
  parse_error : Option GError
  argc : Nat
  opt_subject : Option String
  opt_body : Option String
  opt_branch : Option String
  opt_statoverride_file : Option String
  opt_link_checkout_speedup : Bool
  opt_skip_if_unchanged : Bool
  opt_tar_autocreate_parents : Bool
  opt_no_xattrs : Bool
  opt_trees : Option (List String)
  opt_owner_uid : Int
  opt_owner_gid : Int

/-- A `GFile`: made by `g_file_new_for_path`, or the root of a commit
handed out by `ostree_repo_read_commit` (named by an identifier that the
repository chooses). -/
inductive GFile
  | for_path (path : String)
  | commit_root (id : String)
  deriving DecidableEq, Repr

/-- The `OstreeRepoCommitModifier` built at lines 189-192.  Its `filter` is
always `commit_filter` and its `user_data` is always the table `mode_adds`
of the driver, so only `skip_xattrs` is stored. -/
structure OstreeRepoCommitModifier where
  skip_xattrs : Bool
  deriving DecidableEq, Repr

/-- Children 6 and 7 of a commit `GVariant`, after
`ostree_checksum_from_bytes_v`: the checksums of the root contents and of
the root metadata. -/
structure CommitVariant where
  content_checksum : String
  metadata_checksum : String
  deriving DecidableEq, Repr

/-- What a staging call of the repository does: the entries it passes to
the filter of the modifier, in order, its result, and the new world. -/
structure StageOut (σ : Type) where
  visited : List (String × GFileInfo)
  result : Except GError Unit
  world : σ

/-- The collaborators of the driver.  None of them is defined in the file;
each is a deterministic function of the world state `σ` (repository, file
system, mutable tree), returning its result and the new world.  The
staging calls also see the modifier and the table it points to. -/
structure Env (σ : Type) where
  fp : List Char → Nat
  g_file_load_contents : String → σ → Except GError (List Char) × σ
  ostree_repo_check : σ → Except GError Unit × σ
  ostree_repo_resolve_rev : String → σ → Except GError (Option String) × σ
  ostree_repo_load_variant : String → σ → Except GError CommitVariant × σ
  ostree_repo_prepare_transaction : Bool → σ → Except GError Unit × σ
  g_get_current_dir : σ → String
  ostree_repo_stage_directory_to_mtree :
    GFile → Option OstreeRepoCommitModifier → Option Table → σ → StageOut σ
  ostree_repo_stage_archive_to_mtree :
    GFile → Option OstreeRepoCommitModifier → Option Table → Bool → σ → StageOut σ
  ostree_repo_read_commit : String → σ → Except GError String × σ
  ostree_repo_stage_mtree : σ → Except GError String × σ
  ostree_mutable_tree_get_metadata_checksum : σ → Option String
  ostree_repo_stage_commit :
    String → Option String → String → Option String → String → String → σ →
      Except GError String × σ
  ostree_repo_commit_transaction : σ → Except GError Unit × σ
  ostree_repo_write_ref : String → String → σ → Except GError Unit × σ
  ostree_repo_abort_transaction : σ → Except GError Unit × σ

/-- The calls recorded in the trace, with their arguments. -/
inductive Call
  | g_option_context_parse
  | g_file_load_contents (path : String)
  | ostree_repo_check
  | ostree_repo_resolve_rev (rev : String)
  | ostree_repo_load_variant (checksum : String)
  | ostree_repo_prepare_transaction (link_speedup : Bool)
  | commit_filter (path : String) (file_info : GFileInfo)
  | ostree_repo_stage_directory_to_mtree (arg : GFile)
      (modifier : Option OstreeRepoCommitModifier)
  | ostree_repo_stage_archive_to_mtree (arg : GFile)
      (modifier : Option OstreeRepoCommitModifier) (autocreate_parents : Bool)
  | ostree_repo_read_commit (rev : String)
  | ostree_repo_stage_mtree
  | ostree_repo_stage_commit (branch : String) (parent : Option String)
      (subject : String) (body : Option String) (contents_checksum : String)
      (root_metadata : String)
  | ostree_repo_commit_transaction
  | ostree_repo_write_ref (branch : String) (checksum : String)
  | ostree_repo_abort_transaction
  | g_set_error (message : String)
  | g_print (line : String)
  | g_printerr (line : String)
  deriving DecidableEq, Repr

/-- The result of a recorded call: success, with the string it hands back
when it has one, or the error it sets. -/
inductive Res
  | ok (value : Option String)
  | err (e : GError)
  deriving DecidableEq, Repr

/-- One entry of the trace. -/
structure Event where
  call : Call
  res : Res
  deriving DecidableEq, Repr

/-- The local state of the driver that matters after a call: the world,
the trace so far, the table `mode_adds` and the flag `in_transaction`. -/
structure St (σ : Type) where
  world : σ
  trace : List Event
  mode_adds : Option Table
  in_transaction : Bool

/-- Where control is after a piece of the driver: it goes on with a value,
it jumps to `out` with `ret = FALSE` and the error set, or it has
dereferenced a `NULL` pointer (undefined behaviour, the function does not
return). -/
inductive Flow (σ : Type) (α : Type)
  | next (a : α) (st : St σ)
  | goto_out (e : GError) (st : St σ)
  | null_deref (st : St σ)

/-- Sequencing: the continuation runs only when control goes on. -/
def Flow.bind {σ α β : Type} (f : Flow σ α) (k : α → St σ → Flow σ β) : Flow σ β :=
  match f with
  | .next a st => k a st
  | .goto_out e st => .goto_out e st
  | .null_deref st => .null_deref st

/-- Append a call and its result to the trace and move to the new world. -/
def St.record {σ : Type} (st : St σ) (c : Call) (r : Res) (w : σ) : St σ :=
  { st with world := w, trace := st.trace ++ [⟨c, r⟩] }

/-- The assignment `in_transaction = value`. -/
def St.set_in_transaction {σ : Type} (st : St σ) (value : Bool) : St σ :=
  { st with in_transaction := value }

/-- A collaborator call that hands nothing back. -/
def call_unit {σ : Type} (c : Call) (r : Except GError Unit × σ) (st : St σ) :
    Flow σ Unit :=
  match r with
  | (.error e, w) => .goto_out e (st.record c (.err e) w)
  | (.ok _, w) => .next () (st.record c (.ok none) w)

/-- A collaborator call that hands back a string. -/
def call_string {σ : Type} (c : Call) (r : Except GError String × σ) (st : St σ) :
    Flow σ String :=
  match r with
  | (.error e, w) => .goto_out e (st.record c (.err e) w)
  | (.ok v, w) => .next v (st.record c (.ok (some v)) w)

/-- The statement `g_set_error (error, ...); goto out;`. -/
def fail_with {σ α : Type} (message : String) (st : St σ) : Flow σ α :=
  .goto_out message (st.record (.g_set_error message) (.err message) st.world)

/-- The values fixed before the transaction is opened that the rest of the
driver reads. -/
structure Ctx where
  branch : String
  subject : String
  modifier : Option OstreeRepoCommitModifier
  parent : Option String
  parent_commit : Option CommitVariant
  deriving DecidableEq, Repr

/-- Lines 162-166: load the table when `--statoverride` is given. -/
def load_statoverride {σ : Type} (E : Env σ) (cl : Cmdline) (st : St σ) : Flow σ Unit :=
  match cl.opt_statoverride_file with
  | none => .next () st
  | some file =>
    match E.g_file_load_contents file st.world with
    | (.error e, w) => .goto_out e (st.record (.g_file_load_contents file) (.err e) w)
    | (.ok contents, w) =>
      let st1 := st.record (.g_file_load_contents file) (.ok none) w
      match parse_statoverride_file E.fp (.ok contents) with
      | .error e => fail_with e st1
      | .ok table => .next () { st1 with mode_adds := some table }

/-- Lines 186-193: the modifier is made only when one of the four options
asks for it. -/
def make_modifier (cl : Cmdline) : Option OstreeRepoCommitModifier :=
  if cl.opt_owner_uid ≥ 0 ∨ cl.opt_owner_gid ≥ 0 ∨ cl.opt_statoverride_file ≠ none
      ∨ cl.opt_no_xattrs = true then
    some ⟨cl.opt_no_xattrs⟩
  else none

/-- Lines 195-203: resolve the branch (a missing branch is allowed) and,
under `--skip-if-unchanged`, load the parent commit. -/
def resolve_parent {σ : Type} (E : Env σ) (cl : Cmdline) (branch : String) (st : St σ) :
    Flow σ (Option String × Option CommitVariant) :=
  match E.ostree_repo_resolve_rev branch st.world with
  | (.error e, w) => .goto_out e (st.record (.ostree_repo_resolve_rev branch) (.err e) w)
  | (.ok parent, w) =>
    let st1 := st.record (.ostree_repo_resolve_rev branch) (.ok parent) w
    match parent with
    | none => .next (none, none) st1
    | some p =>
      if cl.opt_skip_if_unchanged = true then
        match E.ostree_repo_load_variant p st1.world with
        | (.error e, w1) =>
          .goto_out e (st1.record (.ostree_repo_load_variant p) (.err e) w1)
        | (.ok parent_commit, w1) =>
          .next (some p, some parent_commit)
            (st1.record (.ostree_repo_load_variant p) (.ok none) w1)
      else .next (some p, none) st1

/-- Lines 156-210, from the option parser to `in_transaction = TRUE`. -/
def preamble {σ : Type} (E : Env σ) (cl : Cmdline) (s : σ) : Flow σ Ctx :=
  let st0 : St σ := ⟨s, [], none, false⟩
  match cl.parse_error with
  | some e => .goto_out e (st0.record .g_option_context_parse (.err e) s)
  | none =>
    (load_statoverride E cl (st0.record .g_option_context_parse (.ok none) s)).bind
      fun _ st1 =>
    (call_unit .ostree_repo_check (E.ostree_repo_check st1.world) st1).bind
      fun _ st2 =>
    match cl.opt_branch with
    | none => fail_with "A branch must be specified with --branch" st2
    | some branch =>
      match cl.opt_subject with
      | none => fail_with "A subject must be specified with --subject" st2
      | some subject =>
        (resolve_parent E cl branch st2).bind fun pp st3 =>
        (call_unit (.ostree_repo_prepare_transaction cl.opt_link_checkout_speedup)
          (E.ostree_repo_prepare_transaction cl.opt_link_checkout_speedup st3.world)
          st3).bind fun _ st4 =>
        .next ⟨branch, subject, make_modifier cl, pp.1, pp.2⟩
          (st4.set_in_transaction true)

/-- The trace entries of the filter calls on a list of visited entries. -/
def filter_events (visited : List (String × GFileInfo)) : List Event :=
  visited.map fun v => ⟨.commit_filter v.1 v.2, .ok none⟩

/-- The filter calls made during one staging call: each visited entry goes
through `commit_filter`, which may take its path out of the table. -/
def run_filters {σ : Type} (cl : Cmdline) :
    List (String × GFileInfo) → St σ → St σ
  | [], st => st
  | (path, info) :: rest, st =>
    let out := commit_filter cl.opt_owner_uid cl.opt_owner_gid path info st.mode_adds
    run_filters cl rest
      { st with
        mode_adds := out.mode_adds
        trace := st.trace ++ [⟨.commit_filter path info, .ok none⟩] }

/-- A staging call and what it leaves in the driver: without a modifier
the filter is never called. -/
def stage_call {σ : Type} (cl : Cmdline) (ctx : Ctx) (c : Call) (out : StageOut σ)
    (st : St σ) : Flow σ Unit :=
  let st1 := match ctx.modifier with
    | none => st
    | some _ => run_filters cl out.visited st
  call_unit c (out.result, out.world) st1

/-- The body of the loop of lines 228-274 for one `--tree` value. -/
def stage_tree {σ : Type} (E : Env σ) (cl : Cmdline) (ctx : Ctx) (tree : String)
    (st : St σ) : Flow σ Unit :=
  if '=' ∈ tree.data then
    let tree_type := String.mk (tree.data.takeWhile (fun c => c ≠ '='))
    let value := String.mk ((tree.data.dropWhile (fun c => c ≠ '=')).tail)
    if tree_type = "dir" then
      stage_call cl ctx
        (.ostree_repo_stage_directory_to_mtree (.for_path value) ctx.modifier)
        (E.ostree_repo_stage_directory_to_mtree (.for_path value) ctx.modifier
          st.mode_adds st.world) st
    else if tree_type = "tar" then
      stage_call cl ctx
        (.ostree_repo_stage_archive_to_mtree (.for_path value) ctx.modifier
          cl.opt_tar_autocreate_parents)
        (E.ostree_repo_stage_archive_to_mtree (.for_path value) ctx.modifier
          st.mode_adds cl.opt_tar_autocreate_parents st.world) st
    else if tree_type = "ref" then
      match E.ostree_repo_read_commit value st.world with
      | (.error e, w) =>
        .goto_out e (st.record (.ostree_repo_read_commit value) (.err e) w)
      | (.ok root, w) =>
        let st1 := st.record (.ostree_repo_read_commit value) (.ok (some root)) w
        stage_call cl ctx
          (.ostree_repo_stage_directory_to_mtree (.commit_root root) ctx.modifier)
          (E.ostree_repo_stage_directory_to_mtree (.commit_root root) ctx.modifier
            st1.mode_adds st1.world) st1
    else fail_with ("Invalid tree type specification \x27" ++ tree_type ++ "\x27") st
  else fail_with ("Missing type in tree specification \x27" ++ tree ++ "\x27") st

/-- The loop of lines 228-274 over the `--tree` values. -/
def stage_trees {σ : Type} (E : Env σ) (cl : Cmdline) (ctx : Ctx) :
    List String → St σ → Flow σ Unit
  | [], st => .next () st
  | tree :: rest, st =>
    (stage_tree E cl ctx tree st).bind fun _ st1 => stage_trees E cl ctx rest st1

/-- Lines 212-275.  The first branch is taken when there is no positional
argument and `opt_trees` is `NULL` or empty; the loop of the second branch
reads `*tree_iter` at once, which is a `NULL` dereference when `opt_trees`
is `NULL`. -/
def stage_inputs {σ : Type} (E : Env σ) (cl : Cmdline) (ctx : Ctx) (st : St σ) :
    Flow σ Unit :=
  if cl.argc = 1 ∧ (cl.opt_trees = none ∨ cl.opt_trees = some []) then
    stage_call cl ctx
      (.ostree_repo_stage_directory_to_mtree (.for_path (E.g_get_current_dir st.world))
        ctx.modifier)
      (E.ostree_repo_stage_directory_to_mtree (.for_path (E.g_get_current_dir st.world))
        ctx.modifier st.mode_adds st.world) st
  else
    match cl.opt_trees with
    | none => .null_deref st
    | some trees => stage_trees E cl ctx trees st

/-- The `g_printerr` calls of the loop of lines 284-287, one for each entry
of the table. -/
def printerr_unmatched {σ : Type} : List String → St σ → St σ
  | [], st => st
  | key :: rest, st =>
    printerr_unmatched rest
      (st.record (.g_printerr ("Unmatched statoverride path: " ++ key ++ "\n"))
        (.ok none) st.world)

/-- Lines 277-291: entries left in the table are reported and fatal. -/
def check_statoverride {σ : Type} (st : St σ) : Flow σ Unit :=
  match st.mode_adds with
  | none => .next () st
  | some table =>
    if table.length > 0 then
      fail_with "Unmatched statoverride paths" (printerr_unmatched table.keys st)
    else .next () st

/-- Lines 296-308: the value of `skip_commit`.  The second `strcmp` is
evaluated only when the first one gives 0, and its first argument is the
metadata checksum of the root, which is `NULL` for a tree without
metadata. -/
def skip_check {σ : Type} (E : Env σ) (cl : Cmdline) (ctx : Ctx)
    (contents_checksum : String) (st : St σ) : Flow σ Bool :=
  if cl.opt_skip_if_unchanged = true then
    match ctx.parent_commit with
    | none => .next false st
    | some parent_commit =>
      if contents_checksum = parent_commit.content_checksum then
        match E.ostree_mutable_tree_get_metadata_checksum st.world with
        | none => .null_deref st
        | some root => .next (decide (root = parent_commit.metadata_checksum)) st
      else .next false st
  else .next false st

/-- Lines 310-335: record the commit, commit the transaction, write the
ref, print the checksum. -/
def record_commit {σ : Type} (E : Env σ) (cl : Cmdline) (ctx : Ctx)
    (contents_checksum : String)
    (st : St σ) : Flow σ Unit :=
  match E.ostree_mutable_tree_get_metadata_checksum st.world with
  | none => fail_with "Can\x27t commit an empty tree" st
  | some root_metadata =>
    (call_string
      (.ostree_repo_stage_commit ctx.branch ctx.parent ctx.subject cl.opt_body
        contents_checksum root_metadata)
      (E.ostree_repo_stage_commit ctx.branch ctx.parent ctx.subject cl.opt_body
        contents_checksum root_metadata st.world) st).bind fun commit_checksum st1 =>
    (call_unit .ostree_repo_commit_transaction
      (E.ostree_repo_commit_transaction st1.world) st1).bind fun _ st2 =>
    (call_unit (.ostree_repo_write_ref ctx.branch commit_checksum)
      (E.ostree_repo_write_ref ctx.branch commit_checksum st2.world)
      (st2.set_in_transaction false)).bind fun _ st4 =>
    .next () (st4.record (.g_print (commit_checksum ++ "\n")) (.ok none) st4.world)

/-- Lines 336-344: the skip path.  `parent` is printed with `%s`. -/
def skip_commit_path {σ : Type} (E : Env σ) (ctx : Ctx) (st : St σ) : Flow σ Unit :=
  (call_unit .ostree_repo_abort_transaction
    (E.ostree_repo_abort_transaction st.world) st).bind fun _ st1 =>
  .next ()
    ((st1.set_in_transaction false).record (.g_print (ctx.parent.getD "(null)" ++ "\n"))
      (.ok none) st1.world)

/-- Lines 277-346, from the check of the table to `ret = TRUE`. -/
def finish {σ : Type} (E : Env σ) (cl : Cmdline) (ctx : Ctx) (st : St σ) : Flow σ Unit :=
  (check_statoverride st).bind fun _ st1 =>
  (call_string .ostree_repo_stage_mtree (E.ostree_repo_stage_mtree st1.world) st1).bind
    fun contents_checksum st2 =>
  (skip_check E cl ctx contents_checksum st2).bind fun skip_commit st3 =>
  if skip_commit = true then skip_commit_path E ctx st3
  else record_commit E cl ctx contents_checksum st3

/-- How a run ends: `TRUE`, `FALSE` with the error, or no return at all
after a `NULL` dereference. -/
inductive Outcome
  | success
  | failure (e : GError)
  | null_deref
  deriving DecidableEq, Repr

/-- A finished run of the driver. -/
structure Run (σ : Type) where
  outcome : Outcome
  trace : List Event
  world : σ

/-- The label `out` (lines 347-356): an open transaction is aborted, and
the result of that abort is dropped. -/
def out_label {σ : Type} (E : Env σ) (outcome : Outcome) (st : St σ) : Run σ :=
  if st.in_transaction = true then
    match E.ostree_repo_abort_transaction st.world with
    | (.error e, w) =>
      ⟨outcome, st.trace ++ [⟨.ostree_repo_abort_transaction, .err e⟩], w⟩
    | (.ok _, w) =>
      ⟨outcome, st.trace ++ [⟨.ostree_repo_abort_transaction, .ok none⟩], w⟩
  else ⟨outcome, st.trace, st.world⟩

/-- The end of a run, from where control is. -/
def finish_run {σ : Type} (E : Env σ) : Flow σ Unit → Run σ
  | .next _ st => out_label E .success st
  | .goto_out e st => out_label E (.failure e) st
  | .null_deref st => ⟨.null_deref, st.trace, st.world⟩

/-- Everything between the option parser and the label `out`. -/
def driver_body {σ : Type} (E : Env σ) (cl : Cmdline) (s : σ) : Flow σ Unit :=
  (preamble E cl s).bind fun ctx st =>
  (stage_inputs E cl ctx st).bind fun _ st1 => finish E cl ctx st1

/-- The function `ostree_builtin_commit`. -/
def ostree_builtin_commit {σ : Type} (E : Env σ) (cl : Cmdline) (s : σ) : Run σ :=
  finish_run E (driver_body E cl s)

/-! ## A small concrete world, used to run the driver -/

/-- A world in which every collaborator succeeds: the stat-override file
has the two lines `+0111 /bin/sh` and `+0700 /nope`, the branch has the tip
`"p0"` whose commit records `("c0", "m0")`, a staging call visits
`/bin/sh` (mode 420) and the staged root is `("c1", "m1")`. -/
def demo_env : Env Unit where
  fp := fun _ => 0
  g_file_load_contents := fun _ s => (.ok "+0111 /bin/sh\n+0700 /nope\n".toList, s)
  ostree_repo_check := fun s => (.ok (), s)
  ostree_repo_resolve_rev := fun _ s => (.ok (some "p0"), s)
  ostree_repo_load_variant := fun _ s => (.ok ⟨"c0", "m0"⟩, s)
  ostree_repo_prepare_transaction := fun _ s => (.ok (), s)
  g_get_current_dir := fun _ => "/cwd"
  ostree_repo_stage_directory_to_mtree := fun _ _ _ s =>
    ⟨[("/bin/sh", [("unix::mode", 420)])], .ok (), s⟩
  ostree_repo_stage_archive_to_mtree := fun _ _ _ _ s =>
    ⟨[("/bin/sh", [("unix::mode", 420)])], .ok (), s⟩
  ostree_repo_read_commit := fun rev s => (.ok ("root of " ++ rev), s)
  ostree_repo_stage_mtree := fun s => (.ok "c1", s)
  ostree_mutable_tree_get_metadata_checksum := fun _ => some "m1"
  ostree_repo_stage_commit := fun _ _ _ _ _ _ s => (.ok "k1", s)
  ostree_repo_commit_transaction := fun s => (.ok (), s)
  ostree_repo_write_ref := fun _ _ s => (.ok (), s)
  ostree_repo_abort_transaction := fun s => (.ok (), s)

/-- The command line `commit -b main -s first`, with no other option and
no positional argument. -/
def demo_cmdline : Cmdline where
  parse_error := none
  argc := 1
  opt_subject := some "first"
  opt_body := none
  opt_branch := some "main"
  opt_statoverride_file := none
  opt_link_checkout_speedup := false
  opt_skip_if_unchanged := false
  opt_tar_autocreate_parents := false
  opt_no_xattrs := false
  opt_trees := none
  opt_owner_uid := -1
  opt_owner_gid := -1

/-- The world of `demo_env` in which the staged root is the one of the
parent commit, `("c0", "m0")`. -/
def unchanged_env : Env Unit :=
  { demo_env with
    ostree_repo_stage_mtree := fun s => (.ok "c0", s)
    ostree_mutable_tree_get_metadata_checksum := fun _ => some "m0" }

/-- The world of `unchanged_env` in which `ostree_repo_abort_transaction`
fails. -/
def abort_fails_env : Env Unit :=
  { unchanged_env with
    ostree_repo_abort_transaction := fun s => (.error "abort failed", s) }

/-- The world of `demo_env` in which the root of the mutable tree has no
metadata checksum after staging. -/
def empty_tree_env : Env Unit :=
  { demo_env with ostree_mutable_tree_get_metadata_checksum := fun _ => none }

/-- The world of `empty_tree_env` in which the contents checksum of the
staged root is the one of the parent commit, `"c0"`. -/
def empty_unchanged_env : Env Unit :=
  { empty_tree_env with ostree_repo_stage_mtree := fun s => (.ok "c0", s) }

/-- The command line `commit -b main -s first --skip-if-unchanged`. -/
def skip_cmdline : Cmdline :=
  { demo_cmdline with opt_skip_if_unchanged := true }

/-- The command line `commit -b main -s first --statoverride=overrides`. -/
def statoverride_cmdline : Cmdline :=
  { demo_cmdline with opt_statoverride_file := some "overrides" }

/-- The command line
`commit -b main -s first --tree=dir=/a --tree=tar=b.tar --tree=ref=main`. -/
def trees_cmdline : Cmdline :=
  { demo_cmdline with opt_trees := some ["dir=/a", "tar=b.tar", "ref=main"] }

/-- The command line `commit -b main -s first --tree=dir=/a --tree=bogus`. -/
def bogus_cmdline : Cmdline :=
  { demo_cmdline with opt_trees := some ["dir=/a", "bogus"] }

/-- The command line `commit -b main -s first /some/dir`: one positional
argument and no `--tree`. -/
def positional_cmdline : Cmdline :=
  { demo_cmdline with argc := 2 }

/-- The trace of the preamble in `demo_env` for `demo_cmdline`. -/
def demo_setup_trace : List Event :=
  [⟨.g_option_context_parse, .ok none⟩, ⟨.ostree_repo_check, .ok none⟩,
    ⟨.ostree_repo_resolve_rev "main", .ok (some "p0")⟩,
    ⟨.ostree_repo_prepare_transaction false, .ok none⟩]

/-- The state after the preamble in `demo_env` for `demo_cmdline`. -/
def demo_st : St Unit := ⟨(), demo_setup_trace, none, true⟩

/-- The values the preamble hands on in `demo_env` for `demo_cmdline`. -/
def demo_ctx : Ctx := ⟨"main", "first", none, some "p0", none⟩

/-- The state after the preamble in `demo_env` for `skip_cmdline`. -/
def skip_st : St Unit :=
  ⟨(), [⟨.g_option_context_parse, .ok none⟩, ⟨.ostree_repo_check, .ok none⟩,
    ⟨.ostree_repo_resolve_rev "main", .ok (some "p0")⟩,
    ⟨.ostree_repo_load_variant "p0", .ok none⟩,
    ⟨.ostree_repo_prepare_transaction false, .ok none⟩], none, true⟩

/-- The values the preamble hands on in `demo_env` for `skip_cmdline`. -/
def skip_ctx : Ctx := ⟨"main", "first", none, some "p0", some ⟨"c0", "m0"⟩⟩

/-- The state `skip_st` after the staging of the current directory. -/
def skip_st1 : St Unit :=
  { skip_st with
    trace := skip_st.trace ++
      [⟨.ostree_repo_stage_directory_to_mtree (.for_path "/cwd") none, .ok none⟩] }

/-- The state after the preamble in `demo_env` for `statoverride_cmdline`:
the table of the two lines is loaded. -/
def statoverride_st : St Unit :=
  ⟨(), [⟨.g_option_context_parse, .ok none⟩, ⟨.g_file_load_contents "overrides", .ok none⟩,
    ⟨.ostree_repo_check, .ok none⟩, ⟨.ostree_repo_resolve_rev "main", .ok (some "p0")⟩,
    ⟨.ostree_repo_prepare_transaction false, .ok none⟩],
    some [("/bin/sh", 111), ("/nope", 700)], true⟩

/-- The values the preamble hands on in `demo_env` for
`statoverride_cmdline`. -/
def statoverride_ctx : Ctx := ⟨"main", "first", some ⟨false⟩, some "p0", none⟩

/-- The state `statoverride_st` after the staging of the current directory:
`/bin/sh` went through the filter and left the table. -/
def statoverride_st1 : St Unit :=
  ⟨(), statoverride_st.trace ++
    [⟨.commit_filter "/bin/sh" [("unix::mode", 420)], .ok none⟩,
      ⟨.ostree_repo_stage_directory_to_mtree (.for_path "/cwd") (some ⟨false⟩), .ok none⟩],
    some [("/nope", 700)], true⟩

/-- The state `demo_st` after the three `--tree` values of `trees_cmdline`
are staged. -/
def trees_st1 : St Unit :=
  { demo_st with
    trace := demo_st.trace ++
      [⟨.ostree_repo_stage_directory_to_mtree (.for_path "/a") none, .ok none⟩,
        ⟨.ostree_repo_stage_archive_to_mtree (.for_path "b.tar") none false, .ok none⟩,
        ⟨.ostree_repo_read_commit "main", .ok (some "root of main")⟩,
        ⟨.ostree_repo_stage_directory_to_mtree (.commit_root "root of main") none,
          .ok none⟩] }

/-- The world of `demo_env` in which `ostree_repo_stage_commit` fails. -/
def stage_commit_fails_env : Env Unit :=
  { demo_env with
    ostree_repo_stage_commit := fun _ _ _ _ _ _ s => (.error "stage failed", s) }

/-! ## Vocabulary of the statements -/

/-- An event whose call succeeded. -/
def Event.is_ok (ev : Event) : Bool :=
  match ev.res with
  | .ok _ => true
  | .err _ => false

/-- The calls made before the transaction is opened. -/
def Call.is_setup : Call → Bool
  | .g_option_context_parse => true
  | .g_file_load_contents _ => true
  | .ostree_repo_check => true
  | .ostree_repo_resolve_rev _ => true
  | .ostree_repo_load_variant _ => true
  | _ => false

/-- The calls made while the inputs are staged. -/
def Call.is_staging : Call → Bool
  | .commit_filter _ _ => true
  | .ostree_repo_stage_directory_to_mtree _ _ => true
  | .ostree_repo_stage_archive_to_mtree _ _ _ => true
  | .ostree_repo_read_commit _ => true
  | _ => false

/-- The table (when there is one) lists the path. -/
def has_key (mode_adds : Option Table) (p : String) : Prop :=
  ∃ table, mode_adds = some table ∧ p ∈ table.keys

/-- The keys of the table (when there is one) are pairwise distinct. -/
def distinct_keys (mode_adds : Option Table) : Prop :=
  ∀ table, mode_adds = some table → table.keys.Nodup

/-- The state `st1` is `st` after the events `evs` of the staging phase:
the trace has grown by `evs`, the transaction flag is the same, a path of
the table that no filter call of `evs` was made with is still there, and
the keys of the table stay pairwise distinct. -/
structure Staged {σ : Type} (st : St σ) (evs : List Event) (st1 : St σ) : Prop where
  trace : st1.trace = st.trace ++ evs
  in_transaction : st1.in_transaction = st.in_transaction
  keys : ∀ p, has_key st.mode_adds p →
    (∀ ev ∈ evs, ∀ info, ev.call ≠ .commit_filter p info) → has_key st1.mode_adds p
  distinct : distinct_keys st.mode_adds → distinct_keys st1.mode_adds

/-- The kind of a `--tree` value: what stands before its first `=`. -/
def tree_kind (tree : String) : String :=
  String.mk (tree.data.takeWhile (fun c => c ≠ '='))

/-- The events of a pass of the loop body for one `--tree` value after
which the loop goes on: the filter calls of the staging call, then the
staging call itself; for `ref=` the commit is read first and its root is
what is staged. -/
inductive TreeStaged (cl : Cmdline) (ctx : Ctx) : String → List Event → Prop
  | dir (value : String) (vs : List (String × GFileInfo)) :
    TreeStaged cl ctx ("dir=" ++ value)
      (filter_events vs ++
        [⟨.ostree_repo_stage_directory_to_mtree (.for_path value) ctx.modifier, .ok none⟩])
  | tar (value : String) (vs : List (String × GFileInfo)) :
    TreeStaged cl ctx ("tar=" ++ value)
      (filter_events vs ++
        [⟨.ostree_repo_stage_archive_to_mtree (.for_path value) ctx.modifier
            cl.opt_tar_autocreate_parents, .ok none⟩])
  | ref (value root : String) (vs : List (String × GFileInfo)) :
    TreeStaged cl ctx ("ref=" ++ value)
      (⟨.ostree_repo_read_commit value, .ok (some root)⟩ :: filter_events vs ++
        [⟨.ostree_repo_stage_directory_to_mtree (.commit_root root) ctx.modifier,
          .ok none⟩])

/-- The events of a pass of the loop body that jumps to `out` with the
error `e`. -/
inductive TreeFailed (cl : Cmdline) (ctx : Ctx) : String → GError → List Event → Prop
  | dir (value : String) (vs : List (String × GFileInfo)) (e : GError) :
    TreeFailed cl ctx ("dir=" ++ value) e
      (filter_events vs ++
        [⟨.ostree_repo_stage_directory_to_mtree (.for_path value) ctx.modifier, .err e⟩])
  | tar (value : String) (vs : List (String × GFileInfo)) (e : GError) :
    TreeFailed cl ctx ("tar=" ++ value) e
      (filter_events vs ++
        [⟨.ostree_repo_stage_archive_to_mtree (.for_path value) ctx.modifier
            cl.opt_tar_autocreate_parents, .err e⟩])
  | read_commit (value : String) (e : GError) :
    TreeFailed cl ctx ("ref=" ++ value) e [⟨.ostree_repo_read_commit value, .err e⟩]
  | ref (value root : String) (vs : List (String × GFileInfo)) (e : GError) :
    TreeFailed cl ctx ("ref=" ++ value) e
      (⟨.ostree_repo_read_commit value, .ok (some root)⟩ :: filter_events vs ++
        [⟨.ostree_repo_stage_directory_to_mtree (.commit_root root) ctx.modifier,
          .err e⟩])
  | missing_type (tree : String) (h : '=' ∉ tree.data) :
    TreeFailed cl ctx tree ("Missing type in tree specification \x27" ++ tree ++ "\x27")
      [⟨.g_set_error ("Missing type in tree specification \x27" ++ tree ++ "\x27"),
        .err ("Missing type in tree specification \x27" ++ tree ++ "\x27")⟩]
  | invalid_type (tree : String) (h : '=' ∈ tree.data)
      (hk : tree_kind tree ∉ ["dir", "tar", "ref"]) :
    TreeFailed cl ctx tree
      ("Invalid tree type specification \x27" ++ tree_kind tree ++ "\x27")
      [⟨.g_set_error ("Invalid tree type specification \x27" ++ tree_kind tree ++ "\x27"),
        .err ("Invalid tree type specification \x27" ++ tree_kind tree ++ "\x27")⟩]

/-- Every event of the list is a successful call of the staging phase. -/
def StagingOk (evs : List Event) : Prop :=
  ∀ ev ∈ evs, ev.is_ok = true ∧ ev.call.is_staging = true

/-- The list is made of successful calls of the staging phase followed by
one last event that sets the error `e`: a failed staging call or a
`g_set_error`. -/
def StagingFail (e : GError) (evs : List Event) : Prop :=
  ∃ init c, evs = init ++ [⟨c, .err e⟩] ∧ StagingOk init
    ∧ (c.is_staging = true ∨ c = .g_set_error e)

/-- Every event of the list is a successful call of the steps that come
before the transaction is opened. -/
def SetupOk (evs : List Event) : Prop :=
  ∀ ev ∈ evs, ev.is_ok = true ∧ ev.call.is_setup = true

/-- The trace entries of the diagnostics of lines 284-287, one line for
each key. -/
def unmatched_events (keys : List String) : List Event :=
  keys.map fun key =>
    ⟨.g_printerr ("Unmatched statoverride path: " ++ key ++ "\n"), .ok none⟩

/-- The driver takes the skip path: `--skip-if-unchanged` is set, a parent
commit was loaded, and the staged pair (contents checksum, root metadata
checksum) is the pair recorded in the parent commit. -/
def skip_condition (cl : Cmdline) (ctx : Ctx) (contents_checksum : String)
    (root_metadata : Option String) : Prop :=
  cl.opt_skip_if_unchanged = true ∧
    ∃ pc, ctx.parent_commit = some pc ∧ contents_checksum = pc.content_checksum
      ∧ root_metadata = some pc.metadata_checksum

/-- The second `strcmp` of line 305 is reached: `--skip-if-unchanged` is
set, a parent commit was loaded and the contents checksums are equal. -/
def metadata_compared (cl : Cmdline) (ctx : Ctx) (contents_checksum : String) : Prop :=
  cl.opt_skip_if_unchanged = true ∧
    ∃ pc, ctx.parent_commit = some pc ∧ contents_checksum = pc.content_checksum

/-- What a run does from line 277 on, starting in the state `st` with the
transaction open: its outcome and the events it adds to the trace, the
abort of the label `out` included.  One constructor for each way through
lines 277-351; `w` is the world after `ostree_repo_stage_mtree`. -/
inductive RunTail {σ : Type} (E : Env σ) (cl : Cmdline) (ctx : Ctx) (st : St σ) :
    Outcome → List Event → Prop
  | unmatched (table : Table) (r : Res) (ht : st.mode_adds = some table)
      (hne : table ≠ []) :
    RunTail E cl ctx st (.failure "Unmatched statoverride paths")
      (unmatched_events table.keys ++
        [⟨.g_set_error "Unmatched statoverride paths", .err "Unmatched statoverride paths"⟩,
          ⟨.ostree_repo_abort_transaction, r⟩])
  | stage_mtree_failed (e : GError) (r : Res)
      (ht : st.mode_adds = none ∨ st.mode_adds = some [])
      (hm : (E.ostree_repo_stage_mtree st.world).1 = .error e) :
    RunTail E cl ctx st (.failure e)
      [⟨.ostree_repo_stage_mtree, .err e⟩, ⟨.ostree_repo_abort_transaction, r⟩]
  | null_metadata_compared (c : String) (w : σ)
      (ht : st.mode_adds = none ∨ st.mode_adds = some [])
      (hm : E.ostree_repo_stage_mtree st.world = (.ok c, w))
      (hcmp : metadata_compared cl ctx c)
      (hroot : E.ostree_mutable_tree_get_metadata_checksum w = none) :
    RunTail E cl ctx st .null_deref [⟨.ostree_repo_stage_mtree, .ok (some c)⟩]
  | skip_abort_failed (c : String) (w : σ) (e : GError) (r : Res)
      (ht : st.mode_adds = none ∨ st.mode_adds = some [])
      (hm : E.ostree_repo_stage_mtree st.world = (.ok c, w))
      (hskip : skip_condition cl ctx c (E.ostree_mutable_tree_get_metadata_checksum w)) :
    RunTail E cl ctx st (.failure e)
      [⟨.ostree_repo_stage_mtree, .ok (some c)⟩,
        ⟨.ostree_repo_abort_transaction, .err e⟩, ⟨.ostree_repo_abort_transaction, r⟩]
  | skipped (c : String) (w : σ)
      (ht : st.mode_adds = none ∨ st.mode_adds = some [])
      (hm : E.ostree_repo_stage_mtree st.world = (.ok c, w))
      (hskip : skip_condition cl ctx c (E.ostree_mutable_tree_get_metadata_checksum w)) :
    RunTail E cl ctx st .success
      [⟨.ostree_repo_stage_mtree, .ok (some c)⟩,
        ⟨.ostree_repo_abort_transaction, .ok none⟩,
        ⟨.g_print (ctx.parent.getD "(null)" ++ "\n"), .ok none⟩]
  | empty_tree (c : String) (w : σ) (r : Res)
      (ht : st.mode_adds = none ∨ st.mode_adds = some [])
      (hm : E.ostree_repo_stage_mtree st.world = (.ok c, w))
      (hcmp : ¬ metadata_compared cl ctx c)
      (hroot : E.ostree_mutable_tree_get_metadata_checksum w = none) :
    RunTail E cl ctx st (.failure "Can\x27t commit an empty tree")
      [⟨.ostree_repo_stage_mtree, .ok (some c)⟩,
        ⟨.g_set_error "Can\x27t commit an empty tree", .err "Can\x27t commit an empty tree"⟩,
        ⟨.ostree_repo_abort_transaction, r⟩]
  | stage_commit_failed (c root : String) (w : σ) (e : GError) (r : Res)
      (ht : st.mode_adds = none ∨ st.mode_adds = some [])
      (hm : E.ostree_repo_stage_mtree st.world = (.ok c, w))
      (hroot : E.ostree_mutable_tree_get_metadata_checksum w = some root)
      (hskip : ¬ skip_condition cl ctx c (some root)) :
    RunTail E cl ctx st (.failure e)
      [⟨.ostree_repo_stage_mtree, .ok (some c)⟩,
        ⟨.ostree_repo_stage_commit ctx.branch ctx.parent ctx.subject cl.opt_body c root,
          .err e⟩,
        ⟨.ostree_repo_abort_transaction, r⟩]
  | commit_transaction_failed (c root k : String) (w : σ) (e : GError) (r : Res)
      (ht : st.mode_adds = none ∨ st.mode_adds = some [])
      (hm : E.ostree_repo_stage_mtree st.world = (.ok c, w))
      (hroot : E.ostree_mutable_tree_get_metadata_checksum w = some root)
      (hskip : ¬ skip_condition cl ctx c (some root)) :
    RunTail E cl ctx st (.failure e)
      [⟨.ostree_repo_stage_mtree, .ok (some c)⟩,
        ⟨.ostree_repo_stage_commit ctx.branch ctx.parent ctx.subject cl.opt_body c root,
          .ok (some k)⟩,
        ⟨.ostree_repo_commit_transaction, .err e⟩,
        ⟨.ostree_repo_abort_transaction, r⟩]
  | write_ref_failed (c root k : String) (w : σ) (e : GError)
      (ht : st.mode_adds = none ∨ st.mode_adds = some [])
      (hm : E.ostree_repo_stage_mtree st.world = (.ok c, w))
      (hroot : E.ostree_mutable_tree_get_metadata_checksum w = some root)
      (hskip : ¬ skip_condition cl ctx c (some root)) :
    RunTail E cl ctx st (.failure e)
      [⟨.ostree_repo_stage_mtree, .ok (some c)⟩,
        ⟨.ostree_repo_stage_commit ctx.branch ctx.parent ctx.subject cl.opt_body c root,
          .ok (some k)⟩,
        ⟨.ostree_repo_commit_transaction, .ok none⟩,
        ⟨.ostree_repo_write_ref ctx.branch k, .err e⟩]
  | committed (c root k : String) (w : σ)
      (ht : st.mode_adds = none ∨ st.mode_adds = some [])
      (hm : E.ostree_repo_stage_mtree st.world = (.ok c, w))
      (hroot : E.ostree_mutable_tree_get_metadata_checksum w = some root)
      (hskip : ¬ skip_condition cl ctx c (some root)) :
    RunTail E cl ctx st .success
      [⟨.ostree_repo_stage_mtree, .ok (some c)⟩,
        ⟨.ostree_repo_stage_commit ctx.branch ctx.parent ctx.subject cl.opt_body c root,
          .ok (some k)⟩,
        ⟨.ostree_repo_commit_transaction, .ok none⟩,
        ⟨.ostree_repo_write_ref ctx.branch k, .ok none⟩,
        ⟨.g_print (k ++ "\n"), .ok none⟩]

/-- The values the preamble hands on agree with the command line: branch
and subject are the options, the modifier is the one of lines 186-193, and
a parent commit is loaded exactly when `--skip-if-unchanged` is set and the
branch resolves to a parent. -/
structure CtxOk (cl : Cmdline) (ctx : Ctx) : Prop where
  branch : cl.opt_branch = some ctx.branch
  subject : cl.opt_subject = some ctx.subject
  modifier : ctx.modifier = make_modifier cl
  parent_of_commit : ∀ pc, ctx.parent_commit = some pc →
    cl.opt_skip_if_unchanged = true ∧ ∃ p, ctx.parent = some p
  commit_of_parent : ∀ p, ctx.parent = some p → cl.opt_skip_if_unchanged = true →
    ∃ pc, ctx.parent_commit = some pc

/-- The trace entry of the successful `ostree_repo_prepare_transaction`. -/
def prepare_ok (cl : Cmdline) : Event :=
  ⟨.ostree_repo_prepare_transaction cl.opt_link_checkout_speedup, .ok none⟩

/-- The calls of lines 277-351: diagnostics, finalisation, recording the
commit, the transaction's end, the ref update, the final print, and the
driver's own errors. -/
def Call.is_wrapup : Call → Bool
  | .g_printerr _ => true
  | .ostree_repo_stage_mtree => true
  | .ostree_repo_stage_commit _ _ _ _ _ _ => true
  | .ostree_repo_commit_transaction => true
  | .ostree_repo_write_ref _ _ => true
  | .ostree_repo_abort_transaction => true
  | .g_print _ => true
  | .g_set_error _ => true
  | _ => false

/-- The three calls that record a commit: `ostree_repo_stage_commit`,
`ostree_repo_commit_transaction` and `ostree_repo_write_ref`. -/
def Call.records_commit : Call → Bool
  | .ostree_repo_stage_commit _ _ _ _ _ _ => true
  | .ostree_repo_commit_transaction => true
  | .ostree_repo_write_ref _ _ => true
  | _ => false

/-- The lines printed on stdout, in order. -/
def stdout_lines : List Event → List String
  | [] => []
  | ⟨.g_print line, _⟩ :: rest => line :: stdout_lines rest
  | _ :: rest => stdout_lines rest

/-- A well-formed `--tree` value: `KIND=VALUE` with `KIND` one of `dir`,
`tar` and `ref`. -/
def well_formed_tree (tree : String) : Prop :=
  ∃ value, tree = "dir=" ++ value ∨ tree = "tar=" ++ value ∨ tree = "ref=" ++ value

/-- A `--tree` value without `=`, or whose kind is none of `dir`, `tar`
and `ref`. -/
def bad_tree (tree : String) : Prop :=
  '=' ∉ tree.data ∨ tree_kind tree ∉ ["dir", "tar", "ref"]

/-- The error the driver sets for a bad `--tree` value (lines 235-236 and
270-271). -/
def invalid_tree_error (tree : String) : GError :=
  if '=' ∈ tree.data then
    "Invalid tree type specification \x27" ++ tree_kind tree ++ "\x27"
  else "Missing type in tree specification \x27" ++ tree ++ "\x27"

/-- The call is `ostree_repo_write_ref`. -/
def Call.is_write_ref : Call → Bool
  | .ostree_repo_write_ref _ _ => true
  | _ => false

/-- The paths that `commit_filter` was called with, in order. -/
def filtered_paths : List Event → List String
  | [] => []
  | ⟨.commit_filter path _, _⟩ :: rest => path :: filtered_paths rest
  | _ :: rest => filtered_paths rest

/-! ## Lemmas -/

theorem split_newline_ne_nil (s : List Char) : split_newline s ≠ [] := by
  cases s with
  | nil => simp [split_newline]
  | cons c cs =>
    simp only [split_newline]
    split
    · simp
    · split <;> simp

/-- The split loses nothing: the pieces joined by newlines are the
content, and no piece holds a newline. -/
theorem split_newline_spec (s : List Char) :
    List.intercalate ['\n'] (split_newline s) = s
    ∧ ∀ line ∈ split_newline s, '\n' ∉ line := by
  induction s with
  | nil => simp [split_newline, List.intercalate]
  | cons c cs ih =>
    obtain ⟨h1, h2⟩ := ih
    simp only [split_newline]
    by_cases hc : c = '\n'
    · subst hc
      simp only [if_true]
      refine ⟨?_, ?_⟩
      · cases hs : split_newline cs with
        | nil => exact absurd hs (split_newline_ne_nil cs)
        | cons l ls =>
          rw [hs] at h1
          simp only [List.intercalate, List.intersperse, List.flatten, List.nil_append,
            List.singleton_append] at h1 ⊢
          rw [h1]
      · intro line hl
        rcases List.mem_cons.1 hl with rfl | hl
        · simp
        · exact h2 line hl
    · simp only [hc, if_false]
      cases hs : split_newline cs with
      | nil => exact absurd hs (split_newline_ne_nil cs)
      | cons l ls =>
        rw [hs] at h1 h2
        refine ⟨?_, ?_⟩
        · cases ls with
          | nil =>
            simp only [List.intercalate, List.intersperse, List.flatten,
              List.append_nil] at h1 ⊢
            rw [h1]
          | cons l1 ls1 =>
            simp only [List.intercalate, List.intersperse, List.flatten,
              List.cons_append] at h1 ⊢
            rw [h1]
        · intro line hl
          rcases List.mem_cons.1 hl with rfl | hl
          · intro hm
            rcases List.mem_cons.1 hm with hm | hm
            · exact hc hm.symm
            · exact h2 l (List.mem_cons_self _ _) hm
          · exact h2 line (List.mem_cons_of_mem _ hl)

theorem GFileInfo.get_set (info : GFileInfo) (a b : String) (v : Nat) :
    (GFileInfo.set_attribute_uint32 info a v).get_attribute_uint32 b
      = if a = b then v else info.get_attribute_uint32 b := by
  induction info with
  | nil =>
    simp only [GFileInfo.set_attribute_uint32, GFileInfo.get_attribute_uint32]
  | cons e rest ih =>
    obtain ⟨k, w⟩ := e
    simp only [GFileInfo.set_attribute_uint32]
    by_cases hk : k = a
    · subst hk
      simp only [if_true, GFileInfo.get_attribute_uint32]
      split <;> rfl
    · simp only [hk, if_false, GFileInfo.get_attribute_uint32, ih]
      by_cases hb : k = b
      · subst hb
        simp [Ne.symm hk]
      · simp [hb]

theorem Table.lookup_remove (t : Table) (key q : String) :
    (Table.remove t key).lookup q = if q = key then none else t.lookup q := by
  induction t with
  | nil => simp [Table.remove, Table.lookup]
  | cons e rest ih =>
    obtain ⟨k, v⟩ := e
    simp only [Table.remove] at ih ⊢
    by_cases hk : k = key
    · subst hk
      simp only [List.filter, ne_eq, not_true_eq_false, decide_False, ih, Table.lookup]
      by_cases hq : q = k
      · simp [hq]
      · simp [hq, Ne.symm hq]
    · simp only [List.filter, ne_eq, hk, not_false_eq_true, decide_True, Table.lookup, ih]
      by_cases hq : k = q
      · subst hq
        simp [hk]
      · simp [hq]

theorem guint32_of_gint_eq (x : Int) (h0 : 0 ≤ x) (h1 : x < 2147483648) :
    guint32_of_gint x = x.toNat := by
  unfold guint32_of_gint
  rw [Int.emod_eq_of_lt h0 (by omega)]

theorem Table.lookup_insert (t : Table) (k q : String) (v : Nat) :
    (Table.insert t k v).lookup q = if q = k then some v else t.lookup q := by
  induction t with
  | nil =>
    simp only [Table.insert, Table.lookup]
    by_cases h : k = q
    · simp [h]
    · simp [h, Ne.symm h]
  | cons e rest ih =>
    obtain ⟨k1, v1⟩ := e
    simp only [Table.insert]
    by_cases hk : k1 = k
    · subst hk
      simp only [if_true, Table.lookup]
      by_cases hq : k1 = q
      · simp [hq]
      · simp [hq, Ne.symm hq]
    · simp only [hk, if_false, Table.lookup, ih]
      by_cases hq : k1 = q
      · subst hq
        simp [hk]
      · simp [hq]

theorem Table.mem_keys_insert (t : Table) (k q : String) (v : Nat) :
    q ∈ (Table.insert t k v).keys ↔ q = k ∨ q ∈ t.keys := by
  induction t with
  | nil => simp [Table.insert, Table.keys]
  | cons e rest ih =>
    obtain ⟨k1, v1⟩ := e
    simp only [Table.insert]
    by_cases hk : k1 = k
    · subst hk
      simp [Table.keys]
    · simp only [hk, if_false]
      simp only [Table.keys, List.map_cons, List.mem_cons] at ih ⊢
      rw [ih]
      tauto

theorem parse_lines_cons_plus (fp : List Char → Nat) (after : List Char)
    (lines : List (List Char)) (t : Table) :
    parse_statoverride_lines fp (('+' :: after) :: lines) t =
      if ' ' ∈ after then
        parse_statoverride_lines fp lines
          (t.insert (String.mk (after_first_space after)) (strtod_guint32 fp after))
      else .error "Malformed statoverride file" := by
  rw [parse_statoverride_lines]

theorem parse_lines_cons_other (fp : List Char → Nat) (line : List Char)
    (lines : List (List Char)) (t : Table) (h : ∀ after, line ≠ '+' :: after) :
    parse_statoverride_lines fp (line :: lines) t
      = parse_statoverride_lines fp lines t := by
  rw [parse_statoverride_lines]
  exact fun a ha => h a ha

theorem parse_lines_append (fp : List Char → Nat) (pre rest : List (List Char))
    (t : Table) :
    parse_statoverride_lines fp (pre ++ rest) t =
      match parse_statoverride_lines fp pre t with
      | .ok t1 => parse_statoverride_lines fp rest t1
      | .error e => .error e := by
  induction pre generalizing t with
  | nil => simp [parse_statoverride_lines]
  | cons line lines ih =>
    simp only [List.cons_append]
    by_cases hl : ∃ after, line = '+' :: after
    · obtain ⟨after, rfl⟩ := hl
      rw [parse_lines_cons_plus, parse_lines_cons_plus]
      by_cases hs : ' ' ∈ after
      · simp only [hs, if_true]
        exact ih _
      · simp only [hs, if_false]
    · have hl1 : ∀ after, line ≠ '+' :: after := fun a ha => hl ⟨a, ha⟩
      rw [parse_lines_cons_other _ _ _ _ hl1, parse_lines_cons_other _ _ _ _ hl1]
      exact ih _

theorem parse_lines_ok (fp : List Char → Nat) (lines : List (List Char)) (t : Table)
    (h : ∀ line ∈ lines, ∀ rest, line = '+' :: rest → ' ' ∈ rest) :
    ∃ t1, parse_statoverride_lines fp lines t = .ok t1 := by
  induction lines generalizing t with
  | nil => exact ⟨t, rfl⟩
  | cons line lines ih =>
    have ih1 := fun t => ih t (fun l hl => h l (List.mem_cons_of_mem _ hl))
    by_cases hl : ∃ after, line = '+' :: after
    · obtain ⟨after, rfl⟩ := hl
      have := h _ (List.mem_cons_self _ _) after rfl
      rw [parse_lines_cons_plus]
      simp only [this, if_true]
      exact ih1 _
    · have hl1 : ∀ after, line ≠ '+' :: after := fun a ha => hl ⟨a, ha⟩
      rw [parse_lines_cons_other _ _ _ _ hl1]
      exact ih1 _

theorem parse_lines_lookup (fp : List Char → Nat) (lines : List (List Char))
    (t t1 : Table) (P : List Char)
    (hp : parse_statoverride_lines fp lines t = .ok t1)
    (h : ∀ line ∈ lines, ∀ rest, line = '+' :: rest → after_first_space rest ≠ P) :
    t1.lookup (String.mk P) = t.lookup (String.mk P) := by
  induction lines generalizing t with
  | nil =>
    simp only [parse_statoverride_lines, Except.ok.injEq] at hp
    rw [hp]
  | cons line lines ih =>
    have ih1 := fun t hp => ih t hp (fun l hl => h l (List.mem_cons_of_mem _ hl))
    by_cases hl : ∃ after, line = '+' :: after
    · obtain ⟨after, rfl⟩ := hl
      rw [parse_lines_cons_plus] at hp
      by_cases hs : ' ' ∈ after
      · simp only [hs, if_true] at hp
        rw [ih1 _ hp, Table.lookup_insert]
        have := h _ (List.mem_cons_self _ _) after rfl
        have hne : String.mk P ≠ String.mk (after_first_space after) := by
          intro hh
          exact this (congrArg String.data hh).symm
        simp [hne]
      · simp only [hs, if_false] at hp
        cases hp
    · have hl1 : ∀ after, line ≠ '+' :: after := fun a ha => hl ⟨a, ha⟩
      rw [parse_lines_cons_other _ _ _ _ hl1] at hp
      exact ih1 _ hp

theorem parse_lines_keys (fp : List Char → Nat) (lines : List (List Char))
    (t t1 : Table) (hp : parse_statoverride_lines fp lines t = .ok t1) :
    ∀ key ∈ t1.keys, key ∈ t.keys ∨
      ∃ rest, ('+' :: rest) ∈ lines ∧ key = String.mk (after_first_space rest) := by
  induction lines generalizing t with
  | nil =>
    simp only [parse_statoverride_lines, Except.ok.injEq] at hp
    subst hp
    intro key hk
    exact Or.inl hk
  | cons line lines ih =>
    intro key hk
    by_cases hl : ∃ after, line = '+' :: after
    · obtain ⟨after, rfl⟩ := hl
      rw [parse_lines_cons_plus] at hp
      by_cases hs : ' ' ∈ after
      · simp only [hs, if_true] at hp
        rcases ih _ hp key hk with h1 | ⟨r, hr, hkey⟩
        · rw [Table.mem_keys_insert] at h1
          rcases h1 with h1 | h1
          · exact Or.inr ⟨after, List.mem_cons_self _ _, h1⟩
          · exact Or.inl h1
        · exact Or.inr ⟨r, List.mem_cons_of_mem _ hr, hkey⟩
      · simp only [hs, if_false] at hp
        cases hp
    · have hl1 : ∀ after, line ≠ '+' :: after := fun a ha => hl ⟨a, ha⟩
      rw [parse_lines_cons_other _ _ _ _ hl1] at hp
      rcases ih _ hp key hk with h1 | ⟨r, hr, hkey⟩
      · exact Or.inl h1
      · exact Or.inr ⟨r, List.mem_cons_of_mem _ hr, hkey⟩

theorem strtod_guint32_decimal (fp : List Char → Nat) (D P : List Char)
    (hne : D ≠ []) (hd : ∀ c ∈ D, c.isDigit = true)
    (hv : decimal_value D < 2147483648) :
    strtod_guint32 fp (D ++ ' ' :: P) = decimal_value D := by
  have h1 : (D ++ ' ' :: P).takeWhile Char.isDigit = D := by
    rw [List.takeWhile_append_of_pos hd]
    simp [List.takeWhile, show Char.isDigit ' ' = false from by decide]
  have h2 : (D ++ ' ' :: P).dropWhile Char.isDigit = ' ' :: P := by
    rw [List.dropWhile_append_of_pos hd]
    simp [List.dropWhile, show Char.isDigit ' ' = false from by decide]
  unfold strtod_guint32
  simp only [h1, h2]
  rw [if_pos]
  refine ⟨hne, ?_, hv⟩
  simp only [List.head?_cons]
  decide

theorem after_first_space_digits (D P : List Char) (hd : ∀ c ∈ D, c.isDigit = true) :
    after_first_space (D ++ ' ' :: P) = P := by
  unfold after_first_space
  have : ∀ c ∈ D, (fun c => decide (c ≠ ' ')) c = true := by
    intro c hc
    have := hd c hc
    simp only [ne_eq, decide_not, Bool.not_eq_eq_eq_not, Bool.not_true, decide_eq_false_iff_not]
    intro h
    subst h
    exact absurd this (by decide)
  rw [List.dropWhile_append_of_pos this]
  simp [List.dropWhile]

theorem Table.mem_keys_remove (t : Table) (key q : String) :
    q ∈ (Table.remove t key).keys ↔ q ∈ t.keys ∧ q ≠ key := by
  simp only [Table.remove, Table.keys, List.mem_map, List.mem_filter, ne_eq,
    decide_not, Bool.not_eq_eq_eq_not, Bool.not_true, decide_eq_false_iff_not]
  constructor
  · rintro ⟨e, ⟨he, hne⟩, rfl⟩
    exact ⟨⟨e, he, rfl⟩, hne⟩
  · rintro ⟨⟨e, he, rfl⟩, hne⟩
    exact ⟨e, ⟨he, hne⟩, rfl⟩

theorem Table.keys_insert_nodup (t : Table) (k : String) (v : Nat) (h : t.keys.Nodup) :
    (Table.insert t k v).keys.Nodup := by
  induction t with
  | nil => simp [Table.insert, Table.keys]
  | cons e rest ih =>
    obtain ⟨k1, v1⟩ := e
    have h1 : k1 ∉ Table.keys rest ∧ (Table.keys rest).Nodup := by
      simpa [Table.keys] using h
    simp only [Table.insert]
    by_cases hk : k1 = k
    · simp only [hk, if_true]
      subst hk
      simpa [Table.keys] using h
    · simp only [hk, if_false]
      have h2 : k1 ∉ (Table.insert rest k v).keys := by
        rw [Table.mem_keys_insert]
        rintro (h3 | h3)
        · exact hk h3
        · exact h1.1 h3
      have h3 := ih h1.2
      simp only [Table.keys, List.map_cons, List.nodup_cons] at h2 h3 ⊢
      exact ⟨h2, h3⟩

theorem Table.keys_remove_nodup (t : Table) (k : String) (h : t.keys.Nodup) :
    (Table.remove t k).keys.Nodup := by
  unfold Table.remove Table.keys
  exact h.sublist (List.Sublist.map _ (List.filter_sublist _))

theorem parse_lines_nodup (fp : List Char → Nat) (lines : List (List Char))
    (t t1 : Table) (hp : parse_statoverride_lines fp lines t = .ok t1)
    (h : t.keys.Nodup) : t1.keys.Nodup := by
  induction lines generalizing t with
  | nil =>
    simp only [parse_statoverride_lines, Except.ok.injEq] at hp
    subst hp
    exact h
  | cons line lines ih =>
    by_cases hl : ∃ after, line = '+' :: after
    · obtain ⟨after, rfl⟩ := hl
      rw [parse_lines_cons_plus] at hp
      by_cases hs : ' ' ∈ after
      · simp only [hs, if_true] at hp
        exact ih _ hp (Table.keys_insert_nodup _ _ _ h)
      · simp only [hs, if_false] at hp
        cases hp
    · have hl1 : ∀ after, line ≠ '+' :: after := fun a ha => hl ⟨a, ha⟩
      rw [parse_lines_cons_other _ _ _ _ hl1] at hp
      exact ih _ hp h

theorem commit_filter_distinct (uid gid : Int) (path : String) (info : GFileInfo)
    (mode_adds : Option Table) (h : distinct_keys mode_adds) :
    distinct_keys (commit_filter uid gid path info mode_adds).mode_adds := by
  unfold commit_filter
  cases mode_adds with
  | none => exact h
  | some t =>
    cases hl : t.lookup path with
    | none => simpa [hl] using h
    | some m =>
      intro t1 ht1
      simp only [hl, Option.some.injEq] at ht1
      subst ht1
      exact Table.keys_remove_nodup t path (h t rfl)

theorem commit_filter_has_key (uid gid : Int) (path : String) (info : GFileInfo)
    (mode_adds : Option Table) (p : String) (hp : has_key mode_adds p) (hne : path ≠ p) :
    has_key (commit_filter uid gid path info mode_adds).mode_adds p := by
  obtain ⟨t, rfl, hk⟩ := hp
  unfold commit_filter
  cases h : t.lookup path with
  | none => exact ⟨t, by simp [h], hk⟩
  | some m =>
    exact ⟨Table.remove t path, by simp [h],
      (Table.mem_keys_remove t path p).2 ⟨hk, Ne.symm hne⟩⟩

theorem filter_events_ok (vs : List (String × GFileInfo)) :
    ∀ ev ∈ filter_events vs, ev.is_ok = true ∧ ev.call.is_staging = true := by
  intro ev hev
  simp only [filter_events, List.mem_map] at hev
  obtain ⟨v, _, rfl⟩ := hev
  exact ⟨rfl, rfl⟩

theorem run_filters_spec {σ : Type} (cl : Cmdline) (vs : List (String × GFileInfo))
    (st : St σ) :
    (run_filters cl vs st).trace = st.trace ++ filter_events vs
    ∧ (run_filters cl vs st).world = st.world
    ∧ (run_filters cl vs st).in_transaction = st.in_transaction
    ∧ (∀ p, has_key st.mode_adds p → (∀ v ∈ vs, v.1 ≠ p) →
        has_key (run_filters cl vs st).mode_adds p)
    ∧ (distinct_keys st.mode_adds → distinct_keys (run_filters cl vs st).mode_adds) := by
  induction vs generalizing st with
  | nil => simp [run_filters, filter_events]
  | cons v vs ih =>
    obtain ⟨path, info⟩ := v
    simp only [run_filters]
    obtain ⟨h1, h2, h3, h4, h5⟩ := ih
      { st with
        mode_adds :=
          (commit_filter cl.opt_owner_uid cl.opt_owner_gid path info st.mode_adds).mode_adds
        trace := st.trace ++ [⟨.commit_filter path info, .ok none⟩] }
    refine ⟨?_, h2, h3, ?_, ?_⟩
    · rw [h1]
      simp [filter_events]
    · intro p hp hv
      apply h4 p
      · exact commit_filter_has_key _ _ _ _ _ _ hp (hv _ (List.mem_cons_self _ _))
      · intro v hv1
        exact hv v (List.mem_cons_of_mem _ hv1)
    · intro hd
      exact h5 (commit_filter_distinct _ _ _ _ _ hd)

theorem Staged.refl {σ : Type} (st : St σ) : Staged st [] st :=
  ⟨by simp, rfl, fun _ h _ => h, fun h => h⟩

theorem Staged.trans {σ : Type} {st st1 st2 : St σ} {evs evs1 : List Event}
    (h : Staged st evs st1) (h1 : Staged st1 evs1 st2) : Staged st (evs ++ evs1) st2 := by
  refine ⟨?_, ?_, ?_, fun hd => h1.distinct (h.distinct hd)⟩
  · rw [h1.trace, h.trace, List.append_assoc]
  · rw [h1.in_transaction, h.in_transaction]
  · intro p hp hno
    apply h1.keys p
    · exact h.keys p hp (fun ev hev => hno ev (List.mem_append_left _ hev))
    · exact fun ev hev => hno ev (List.mem_append_right _ hev)

theorem Staged.record {σ : Type} (st : St σ) (c : Call) (r : Res) (w : σ) :
    Staged st [⟨c, r⟩] (st.record c r w) :=
  ⟨rfl, rfl, fun _ h _ => h, fun h => h⟩

theorem Staged.filters {σ : Type} (cl : Cmdline) (vs : List (String × GFileInfo))
    (st : St σ) : Staged st (filter_events vs) (run_filters cl vs st) := by
  obtain ⟨h1, _, h3, h4, h5⟩ := run_filters_spec cl vs st
  refine ⟨h1, h3, ?_, h5⟩
  intro p hp hno
  apply h4 p hp
  intro v hv hpv
  refine hno ⟨.commit_filter v.1 v.2, .ok none⟩ ?_ v.2 (by rw [hpv])
  simp only [filter_events, List.mem_map]
  exact ⟨v, hv, rfl⟩

theorem call_unit_next {σ : Type} (c : Call) (r : Except GError Unit × σ) (st st1 : St σ)
    (u : Unit) (h : call_unit c r st = .next u st1) :
    st1 = st.record c (.ok none) r.2 ∧ r.1 = .ok () := by
  obtain ⟨r1, w⟩ := r
  cases r1 with
  | error e => simp [call_unit] at h
  | ok v =>
    simp only [call_unit, Flow.next.injEq] at h
    exact ⟨h.2.symm, rfl⟩

theorem call_unit_out {σ : Type} (c : Call) (r : Except GError Unit × σ) (st st1 : St σ)
    (e : GError) (h : call_unit c r st = .goto_out e st1) :
    st1 = st.record c (.err e) r.2 ∧ r.1 = .error e := by
  obtain ⟨r1, w⟩ := r
  cases r1 with
  | error e1 =>
    simp only [call_unit, Flow.goto_out.injEq] at h
    obtain ⟨rfl, rfl⟩ := h
    exact ⟨rfl, rfl⟩
  | ok v => simp [call_unit] at h

theorem call_unit_next_fields {σ : Type} (c : Call) (r : Except GError Unit × σ)
    (st st1 : St σ) (u : Unit) (h : call_unit c r st = .next u st1) :
    st1.trace = st.trace ++ [⟨c, .ok none⟩] ∧ st1.in_transaction = st.in_transaction
      ∧ st1.world = r.2 ∧ st1.mode_adds = st.mode_adds := by
  obtain ⟨rfl, _⟩ := call_unit_next _ _ _ _ _ h
  exact ⟨rfl, rfl, rfl, rfl⟩

theorem call_unit_out_fields {σ : Type} (c : Call) (r : Except GError Unit × σ)
    (st st1 : St σ) (e : GError) (h : call_unit c r st = .goto_out e st1) :
    st1.trace = st.trace ++ [⟨c, .err e⟩] ∧ st1.in_transaction = st.in_transaction
      ∧ st1.world = r.2 ∧ st1.mode_adds = st.mode_adds := by
  obtain ⟨rfl, _⟩ := call_unit_out _ _ _ _ _ h
  exact ⟨rfl, rfl, rfl, rfl⟩

theorem call_unit_not_null {σ : Type} (c : Call) (r : Except GError Unit × σ)
    (st st1 : St σ) : call_unit c r st ≠ .null_deref st1 := by
  obtain ⟨r1, w⟩ := r
  cases r1 <;> simp [call_unit]

theorem call_string_next {σ : Type} (c : Call) (r : Except GError String × σ)
    (st st1 : St σ) (v : String) (h : call_string c r st = .next v st1) :
    st1 = st.record c (.ok (some v)) r.2 ∧ r.1 = .ok v := by
  obtain ⟨r1, w⟩ := r
  cases r1 with
  | error e => simp [call_string] at h
  | ok v1 =>
    simp only [call_string, Flow.next.injEq] at h
    obtain ⟨rfl, rfl⟩ := h
    exact ⟨rfl, rfl⟩

theorem call_string_out {σ : Type} (c : Call) (r : Except GError String × σ)
    (st st1 : St σ) (e : GError) (h : call_string c r st = .goto_out e st1) :
    st1 = st.record c (.err e) r.2 ∧ r.1 = .error e := by
  obtain ⟨r1, w⟩ := r
  cases r1 with
  | error e1 =>
    simp only [call_string, Flow.goto_out.injEq] at h
    obtain ⟨rfl, rfl⟩ := h
    exact ⟨rfl, rfl⟩
  | ok v => simp [call_string] at h

theorem call_string_next_fields {σ : Type} (c : Call) (r : Except GError String × σ)
    (st st1 : St σ) (v : String) (h : call_string c r st = .next v st1) :
    st1.trace = st.trace ++ [⟨c, .ok (some v)⟩] ∧ st1.in_transaction = st.in_transaction
      ∧ st1.world = r.2 ∧ st1.mode_adds = st.mode_adds ∧ r.1 = .ok v := by
  obtain ⟨rfl, h1⟩ := call_string_next _ _ _ _ _ h
  exact ⟨rfl, rfl, rfl, rfl, h1⟩

theorem call_string_out_fields {σ : Type} (c : Call) (r : Except GError String × σ)
    (st st1 : St σ) (e : GError) (h : call_string c r st = .goto_out e st1) :
    st1.trace = st.trace ++ [⟨c, .err e⟩] ∧ st1.in_transaction = st.in_transaction
      ∧ st1.world = r.2 ∧ st1.mode_adds = st.mode_adds ∧ r.1 = .error e := by
  obtain ⟨rfl, h1⟩ := call_string_out _ _ _ _ _ h
  exact ⟨rfl, rfl, rfl, rfl, h1⟩

theorem call_string_not_null {σ : Type} (c : Call) (r : Except GError String × σ)
    (st st1 : St σ) : call_string c r st ≠ .null_deref st1 := by
  obtain ⟨r1, w⟩ := r
  cases r1 <;> simp [call_string]

/-- The state in which a staging call is made, after its filter calls. -/
theorem stage_call_filters {σ : Type} (cl : Cmdline) (ctx : Ctx) (out : StageOut σ)
    (st : St σ) :
    ∃ vs, Staged st (filter_events vs)
      (match ctx.modifier with
        | none => st
        | some _ => run_filters cl out.visited st) := by
  cases ctx.modifier with
  | none => exact ⟨[], Staged.refl st⟩
  | some m => exact ⟨out.visited, Staged.filters cl out.visited st⟩

theorem stage_call_next {σ : Type} (cl : Cmdline) (ctx : Ctx) (c : Call) (out : StageOut σ)
    (st st1 : St σ) (u : Unit) (h : stage_call cl ctx c out st = .next u st1) :
    ∃ vs, Staged st (filter_events vs ++ [⟨c, .ok none⟩]) st1 := by
  obtain ⟨vs, hvs⟩ := stage_call_filters cl ctx out st
  obtain ⟨h1, _⟩ := call_unit_next _ _ _ _ _ h
  subst h1
  exact ⟨vs, hvs.trans (Staged.record _ _ _ _)⟩

theorem stage_call_out {σ : Type} (cl : Cmdline) (ctx : Ctx) (c : Call) (out : StageOut σ)
    (st st1 : St σ) (e : GError) (h : stage_call cl ctx c out st = .goto_out e st1) :
    ∃ vs, Staged st (filter_events vs ++ [⟨c, .err e⟩]) st1 := by
  obtain ⟨vs, hvs⟩ := stage_call_filters cl ctx out st
  obtain ⟨h1, _⟩ := call_unit_out _ _ _ _ _ h
  subst h1
  exact ⟨vs, hvs.trans (Staged.record _ _ _ _)⟩

theorem stage_call_not_null {σ : Type} (cl : Cmdline) (ctx : Ctx) (c : Call)
    (out : StageOut σ) (st st1 : St σ) : stage_call cl ctx c out st ≠ .null_deref st1 :=
  call_unit_not_null _ _ _ _

theorem list_split_at_eq (l : List Char) (h : '=' ∈ l) :
    l = l.takeWhile (fun c => c ≠ '=') ++ '=' :: (l.dropWhile (fun c => c ≠ '=')).tail := by
  induction l with
  | nil => simp at h
  | cons c cs ih =>
    by_cases hc : c = '='
    · subst hc
      simp [List.takeWhile, List.dropWhile]
    · have hmem : '=' ∈ cs := by
        rcases List.mem_cons.1 h with h1 | h1
        · exact absurd h1.symm hc
        · exact h1
      have := ih hmem
      simp only [List.takeWhile, List.dropWhile, ne_eq, hc, not_false_eq_true, decide_True,
        List.cons_append, List.cons.injEq, true_and]
      exact this

theorem tree_split (tree : String) (h : '=' ∈ tree.data) :
    tree = tree_kind tree ++ "=" ++
      String.mk ((tree.data.dropWhile (fun c => c ≠ '=')).tail) := by
  apply String.ext
  simp only [String.data_append, tree_kind]
  rw [List.append_assoc]
  exact list_split_at_eq tree.data h

theorem fail_with_staged {σ α : Type} (msg : String) (st st1 : St σ) (e : GError)
    (h : (fail_with msg st : Flow σ α) = .goto_out e st1) :
    e = msg ∧ Staged st [⟨.g_set_error msg, .err msg⟩] st1 := by
  simp only [fail_with, Flow.goto_out.injEq] at h
  obtain ⟨rfl, rfl⟩ := h
  exact ⟨rfl, Staged.record _ _ _ _⟩

theorem stage_tree_next {σ : Type} (E : Env σ) (cl : Cmdline) (ctx : Ctx) (tree : String)
    (st st1 : St σ) (u : Unit) (h : stage_tree E cl ctx tree st = .next u st1) :
    ∃ evs, Staged st evs st1 ∧ TreeStaged cl ctx tree evs := by
  unfold stage_tree at h
  by_cases heq : '=' ∈ tree.data
  · have hsplit := tree_split tree heq
    simp only [heq, if_true] at h
    by_cases hdir : tree_kind tree = "dir"
    · rw [hdir] at hsplit
      simp only [tree_kind] at hdir
      simp only [hdir, if_true] at h
      obtain ⟨vs, hvs⟩ := stage_call_next _ _ _ _ _ _ _ h
      refine ⟨_, hvs, ?_⟩
      rw [hsplit]
      exact TreeStaged.dir _ vs
    · by_cases htar : tree_kind tree = "tar"
      · rw [htar] at hsplit
        simp only [tree_kind] at htar
        simp only [htar, if_true] at h
        rw [if_neg (by decide)] at h
        obtain ⟨vs, hvs⟩ := stage_call_next _ _ _ _ _ _ _ h
        refine ⟨_, hvs, ?_⟩
        rw [hsplit]
        exact TreeStaged.tar _ vs
      · by_cases href : tree_kind tree = "ref"
        · rw [href] at hsplit
          simp only [tree_kind] at href
          simp only [href, if_true] at h
          rw [if_neg (by decide), if_neg (by decide)] at h
          split at h
          · cases h
          · rename_i root w hrc
            obtain ⟨vs, hvs⟩ := stage_call_next _ _ _ _ _ _ _ h
            refine ⟨_, (Staged.record _ _ _ _).trans hvs, ?_⟩
            rw [hsplit]
            exact TreeStaged.ref _ root vs
        · simp only [tree_kind] at hdir htar href
          rw [if_neg hdir, if_neg htar, if_neg href] at h
          cases h
  · rw [if_neg heq] at h
    cases h

theorem stage_tree_out {σ : Type} (E : Env σ) (cl : Cmdline) (ctx : Ctx) (tree : String)
    (st st1 : St σ) (e : GError) (h : stage_tree E cl ctx tree st = .goto_out e st1) :
    ∃ evs, Staged st evs st1 ∧ TreeFailed cl ctx tree e evs := by
  unfold stage_tree at h
  by_cases heq : '=' ∈ tree.data
  · have hsplit := tree_split tree heq
    simp only [heq, if_true] at h
    by_cases hdir : tree_kind tree = "dir"
    · rw [hdir] at hsplit
      simp only [tree_kind] at hdir
      simp only [hdir, if_true] at h
      obtain ⟨vs, hvs⟩ := stage_call_out _ _ _ _ _ _ _ h
      refine ⟨_, hvs, ?_⟩
      rw [hsplit]
      exact TreeFailed.dir _ vs e
    · by_cases htar : tree_kind tree = "tar"
      · rw [htar] at hsplit
        simp only [tree_kind] at htar
        simp only [htar, if_true] at h
        rw [if_neg (by decide)] at h
        obtain ⟨vs, hvs⟩ := stage_call_out _ _ _ _ _ _ _ h
        refine ⟨_, hvs, ?_⟩
        rw [hsplit]
        exact TreeFailed.tar _ vs e
      · by_cases href : tree_kind tree = "ref"
        · rw [href] at hsplit
          simp only [tree_kind] at href
          simp only [href, if_true] at h
          rw [if_neg (by decide), if_neg (by decide)] at h
          split at h
          · rename_i e1 w hrc
            simp only [Flow.goto_out.injEq] at h
            obtain ⟨rfl, rfl⟩ := h
            refine ⟨_, Staged.record _ _ _ _, ?_⟩
            rw [hsplit]
            exact TreeFailed.read_commit _ _
          · rename_i root w hrc
            obtain ⟨vs, hvs⟩ := stage_call_out _ _ _ _ _ _ _ h
            refine ⟨_, (Staged.record _ _ _ _).trans hvs, ?_⟩
            rw [hsplit]
            exact TreeFailed.ref _ root vs e
        · have hk : tree_kind tree ∉ ["dir", "tar", "ref"] := by
            simp [hdir, htar, href]
          simp only [tree_kind] at hdir htar href
          simp only [hdir, htar, href, if_false] at h
          obtain ⟨rfl, hs⟩ := fail_with_staged _ _ _ _ h
          exact ⟨_, hs, TreeFailed.invalid_type tree heq hk⟩
  · simp only [heq, if_false] at h
    obtain ⟨rfl, hs⟩ := fail_with_staged _ _ _ _ h
    exact ⟨_, hs, TreeFailed.missing_type tree heq⟩

theorem stage_tree_not_null {σ : Type} (E : Env σ) (cl : Cmdline) (ctx : Ctx)
    (tree : String) (st st1 : St σ) : stage_tree E cl ctx tree st ≠ .null_deref st1 := by
  intro h
  unfold stage_tree at h
  by_cases heq : '=' ∈ tree.data
  · rw [if_pos heq] at h
    by_cases hdir : tree_kind tree = "dir"
    · simp only [tree_kind] at hdir
      rw [if_pos hdir] at h
      exact stage_call_not_null _ _ _ _ _ _ h
    · by_cases htar : tree_kind tree = "tar"
      · simp only [tree_kind] at hdir htar
        rw [if_neg hdir, if_pos htar] at h
        exact stage_call_not_null _ _ _ _ _ _ h
      · by_cases href : tree_kind tree = "ref"
        · simp only [tree_kind] at hdir htar href
          rw [if_neg hdir, if_neg htar, if_pos href] at h
          split at h
          · cases h
          · exact stage_call_not_null _ _ _ _ _ _ h
        · simp only [tree_kind] at hdir htar href
          rw [if_neg hdir, if_neg htar, if_neg href] at h
          cases h
  · rw [if_neg heq] at h
    cases h

theorem stage_trees_next {σ : Type} (E : Env σ) (cl : Cmdline) (ctx : Ctx)
    (trees : List String) (st st1 : St σ) (u : Unit)
    (h : stage_trees E cl ctx trees st = .next u st1) :
    ∃ blocks, List.Forall₂ (TreeStaged cl ctx) trees blocks ∧ Staged st blocks.flatten st1 := by
  induction trees generalizing st with
  | nil =>
    simp only [stage_trees, Flow.next.injEq] at h
    obtain ⟨_, rfl⟩ := h
    exact ⟨[], List.Forall₂.nil, Staged.refl st⟩
  | cons tree rest ih =>
    simp only [stage_trees] at h
    cases h1 : stage_tree E cl ctx tree st with
    | next u1 st2 =>
      rw [h1] at h
      simp only [Flow.bind] at h
      obtain ⟨evs, hs, ht⟩ := stage_tree_next _ _ _ _ _ _ _ h1
      obtain ⟨blocks, hb, hs1⟩ := ih st2 h
      exact ⟨evs :: blocks, List.Forall₂.cons ht hb, by
        rw [List.flatten_cons]
        exact hs.trans hs1⟩
    | goto_out e st2 =>
      rw [h1] at h
      simp [Flow.bind] at h
    | null_deref st2 =>
      rw [h1] at h
      simp [Flow.bind] at h

theorem stage_trees_out {σ : Type} (E : Env σ) (cl : Cmdline) (ctx : Ctx)
    (trees : List String) (st st1 : St σ) (e : GError)
    (h : stage_trees E cl ctx trees st = .goto_out e st1) :
    ∃ pre tree post blocks fblock, trees = pre ++ tree :: post
      ∧ List.Forall₂ (TreeStaged cl ctx) pre blocks
      ∧ TreeFailed cl ctx tree e fblock
      ∧ Staged st (blocks.flatten ++ fblock) st1 := by
  induction trees generalizing st with
  | nil => simp [stage_trees] at h
  | cons tree rest ih =>
    simp only [stage_trees] at h
    cases h1 : stage_tree E cl ctx tree st with
    | next u1 st2 =>
      rw [h1] at h
      simp only [Flow.bind] at h
      obtain ⟨evs, hs, ht⟩ := stage_tree_next _ _ _ _ _ _ _ h1
      obtain ⟨pre, t, post, blocks, fblock, hsplit, hb, hf, hs1⟩ := ih st2 h
      refine ⟨tree :: pre, t, post, evs :: blocks, fblock, by rw [hsplit]; rfl,
        List.Forall₂.cons ht hb, hf, ?_⟩
      rw [List.flatten_cons, List.append_assoc]
      exact hs.trans hs1
    | goto_out e1 st2 =>
      rw [h1] at h
      simp only [Flow.bind, Flow.goto_out.injEq] at h
      obtain ⟨rfl, rfl⟩ := h
      obtain ⟨evs, hs, ht⟩ := stage_tree_out _ _ _ _ _ _ _ h1
      exact ⟨[], tree, rest, [], evs, rfl, List.Forall₂.nil, ht, by simpa using hs⟩
    | null_deref st2 =>
      rw [h1] at h
      simp [Flow.bind] at h

theorem stage_trees_not_null {σ : Type} (E : Env σ) (cl : Cmdline) (ctx : Ctx)
    (trees : List String) (st st1 : St σ) :
    stage_trees E cl ctx trees st ≠ .null_deref st1 := by
  induction trees generalizing st with
  | nil => simp [stage_trees]
  | cons tree rest ih =>
    intro h
    simp only [stage_trees] at h
    cases h1 : stage_tree E cl ctx tree st with
    | next u1 st2 =>
      rw [h1] at h
      exact ih st2 h
    | goto_out e1 st2 =>
      rw [h1] at h
      simp [Flow.bind] at h
    | null_deref st2 => exact stage_tree_not_null _ _ _ _ _ _ h1

theorem StagingOk.staging_append {evs evs1 : List Event} (h : StagingOk evs) (h1 : StagingOk evs1) :
    StagingOk (evs ++ evs1) := by
  intro ev hev
  rcases List.mem_append.1 hev with h2 | h2
  · exact h ev h2
  · exact h1 ev h2

theorem StagingOk.staging_single (c : Call) (v : Option String) (hc : c.is_staging = true) :
    StagingOk [⟨c, .ok v⟩] := by
  intro ev hev
  simp only [List.mem_singleton] at hev
  subst hev
  exact ⟨rfl, hc⟩

theorem StagingOk.step (init : List Event) (c : Call) (v : Option String)
    (h : StagingOk init) (hc : c.is_staging = true) : StagingOk (init ++ [⟨c, .ok v⟩]) :=
  h.staging_append (StagingOk.staging_single c v hc)

theorem StagingFail.prepend {e : GError} {evs evs1 : List Event} (h : StagingOk evs)
    (h1 : StagingFail e evs1) : StagingFail e (evs ++ evs1) := by
  obtain ⟨init, c, rfl, hi, hc⟩ := h1
  exact ⟨evs ++ init, c, by rw [List.append_assoc], h.staging_append hi, hc⟩

theorem TreeStaged.staging_ok {cl : Cmdline} {ctx : Ctx} {tree : String}
    {evs : List Event} (h : TreeStaged cl ctx tree evs) : StagingOk evs := by
  cases h with
  | dir value vs => exact StagingOk.step _ _ _ (filter_events_ok vs) rfl
  | tar value vs => exact StagingOk.step _ _ _ (filter_events_ok vs) rfl
  | ref value root vs =>
    exact (StagingOk.staging_single (.ostree_repo_read_commit value) (some root) rfl).staging_append
      (StagingOk.step _ _ _ (filter_events_ok vs) rfl)

theorem TreeFailed.staging_fail {cl : Cmdline} {ctx : Ctx} {tree : String} {e : GError}
    {evs : List Event} (h : TreeFailed cl ctx tree e evs) : StagingFail e evs := by
  cases h with
  | dir value vs => exact ⟨_, _, rfl, filter_events_ok vs, Or.inl rfl⟩
  | tar value vs => exact ⟨_, _, rfl, filter_events_ok vs, Or.inl rfl⟩
  | read_commit value => exact ⟨[], _, rfl, by intro ev hev; simp at hev, Or.inl rfl⟩
  | ref value root vs =>
    have h1 : StagingFail e (filter_events vs ++
        [⟨.ostree_repo_stage_directory_to_mtree (.commit_root root) ctx.modifier,
          .err e⟩]) := ⟨_, _, rfl, filter_events_ok vs, Or.inl rfl⟩
    have h2 := StagingFail.prepend
      (StagingOk.staging_single (.ostree_repo_read_commit value) (some root) rfl) h1
    exact h2
  | missing_type h => exact ⟨[], _, rfl, by intro ev hev; simp at hev, Or.inr rfl⟩
  | invalid_type h hk => exact ⟨[], _, rfl, by intro ev hev; simp at hev, Or.inr rfl⟩

theorem blocks_staging_ok {cl : Cmdline} {ctx : Ctx} {trees : List String}
    {blocks : List (List Event)} (h : List.Forall₂ (TreeStaged cl ctx) trees blocks) :
    StagingOk blocks.flatten := by
  induction h with
  | nil => intro ev hev; simp at hev
  | cons ht _ ih =>
    rw [List.flatten_cons]
    exact ht.staging_ok.staging_append ih

theorem stage_inputs_next {σ : Type} (E : Env σ) (cl : Cmdline) (ctx : Ctx)
    (st st1 : St σ) (u : Unit) (h : stage_inputs E cl ctx st = .next u st1) :
    ∃ evs, Staged st evs st1 ∧ StagingOk evs := by
  unfold stage_inputs at h
  split at h
  · obtain ⟨vs, hvs⟩ := stage_call_next _ _ _ _ _ _ _ h
    exact ⟨_, hvs, StagingOk.step _ _ _ (filter_events_ok vs) rfl⟩
  · split at h
    · cases h
    · obtain ⟨blocks, hb, hs⟩ := stage_trees_next _ _ _ _ _ _ _ h
      exact ⟨_, hs, blocks_staging_ok hb⟩

theorem stage_inputs_out {σ : Type} (E : Env σ) (cl : Cmdline) (ctx : Ctx)
    (st st1 : St σ) (e : GError) (h : stage_inputs E cl ctx st = .goto_out e st1) :
    ∃ evs, Staged st evs st1 ∧ StagingFail e evs := by
  unfold stage_inputs at h
  split at h
  · obtain ⟨vs, hvs⟩ := stage_call_out _ _ _ _ _ _ _ h
    exact ⟨_, hvs, _, _, rfl, filter_events_ok vs, Or.inl rfl⟩
  · split at h
    · cases h
    · obtain ⟨pre, t, post, blocks, fblock, _, hb, hf, hs⟩ :=
        stage_trees_out _ _ _ _ _ _ _ h
      exact ⟨_, hs, StagingFail.prepend (blocks_staging_ok hb) hf.staging_fail⟩

theorem stage_inputs_null {σ : Type} (E : Env σ) (cl : Cmdline) (ctx : Ctx)
    (st st1 : St σ) (h : stage_inputs E cl ctx st = .null_deref st1) :
    st1 = st ∧ cl.opt_trees = none ∧ cl.argc ≠ 1 := by
  unfold stage_inputs at h
  split at h
  · exact absurd h (stage_call_not_null _ _ _ _ _ _)
  · rename_i hc
    split at h
    · rename_i hn
      simp only [Flow.null_deref.injEq] at h
      refine ⟨h.symm, hn, ?_⟩
      intro h1
      exact hc ⟨h1, Or.inl hn⟩
    · exact absurd h (stage_trees_not_null _ _ _ _ _ _)

theorem SetupOk.nil : SetupOk [] := by
  intro ev hev
  simp at hev

theorem SetupOk.setup_append {evs evs1 : List Event} (h : SetupOk evs) (h1 : SetupOk evs1) :
    SetupOk (evs ++ evs1) := by
  intro ev hev
  rcases List.mem_append.1 hev with h2 | h2
  · exact h ev h2
  · exact h1 ev h2

theorem SetupOk.setup_single (c : Call) (v : Option String) (hc : c.is_setup = true) :
    SetupOk [⟨c, .ok v⟩] := by
  intro ev hev
  simp only [List.mem_singleton] at hev
  subst hev
  exact ⟨rfl, hc⟩

theorem load_statoverride_next {σ : Type} (E : Env σ) (cl : Cmdline) (st st1 : St σ)
    (u : Unit)
    (hd : distinct_keys st.mode_adds)
    (h : load_statoverride E cl st = .next u st1) :
    ∃ evs, st1.trace = st.trace ++ evs ∧ SetupOk evs
      ∧ st1.in_transaction = st.in_transaction ∧ distinct_keys st1.mode_adds := by
  unfold load_statoverride at h
  split at h
  · simp only [Flow.next.injEq] at h
    obtain ⟨_, rfl⟩ := h
    exact ⟨[], by simp, SetupOk.nil, rfl, hd⟩
  · rename_i file hf
    split at h
    · cases h
    · split at h
      · cases h
      · rename_i table hparse
        simp only [Flow.next.injEq] at h
        obtain ⟨_, rfl⟩ := h
        refine ⟨_, rfl, SetupOk.setup_single _ _ rfl, rfl, ?_⟩
        intro t ht
        simp only [Option.some.injEq] at ht
        subst ht
        exact parse_lines_nodup _ _ _ _ hparse (by simp [Table.keys])

theorem load_statoverride_out {σ : Type} (E : Env σ) (cl : Cmdline) (st st1 : St σ)
    (e : GError) (h : load_statoverride E cl st = .goto_out e st1) :
    ∃ evs c, st1.trace = st.trace ++ (evs ++ [⟨c, .err e⟩]) ∧ SetupOk evs
      ∧ (c.is_setup = true ∨ c = .g_set_error e)
      ∧ st1.in_transaction = st.in_transaction := by
  unfold load_statoverride at h
  split at h
  · cases h
  · rename_i file hf
    split at h
    · simp only [Flow.goto_out.injEq] at h
      obtain ⟨rfl, rfl⟩ := h
      exact ⟨[], _, rfl, SetupOk.nil, Or.inl rfl, rfl⟩
    · split at h
      · simp only [fail_with, Flow.goto_out.injEq] at h
        obtain ⟨rfl, rfl⟩ := h
        exact ⟨[⟨.g_file_load_contents file, .ok none⟩], _, by simp [St.record],
          SetupOk.setup_single _ _ rfl, Or.inr rfl, rfl⟩
      · cases h

theorem load_statoverride_not_null {σ : Type} (E : Env σ) (cl : Cmdline) (st st1 : St σ) :
    load_statoverride E cl st ≠ .null_deref st1 := by
  unfold load_statoverride
  split
  · simp
  · split
    · simp
    · split <;> simp [fail_with]

theorem resolve_parent_next {σ : Type} (E : Env σ) (cl : Cmdline) (branch : String)
    (st st1 : St σ) (pp : Option String × Option CommitVariant)
    (h : resolve_parent E cl branch st = .next pp st1) :
    (∃ evs, st1.trace = st.trace ++ evs ∧ SetupOk evs)
      ∧ st1.in_transaction = st.in_transaction
      ∧ st1.mode_adds = st.mode_adds
      ∧ (∀ pc, pp.2 = some pc → cl.opt_skip_if_unchanged = true ∧ ∃ p, pp.1 = some p)
      ∧ (∀ p, pp.1 = some p → cl.opt_skip_if_unchanged = true → ∃ pc, pp.2 = some pc) := by
  unfold resolve_parent at h
  split at h
  · cases h
  · rename_i parent w hr
    split at h
    · simp only [Flow.next.injEq] at h
      obtain ⟨rfl, rfl⟩ := h
      exact ⟨⟨_, rfl, SetupOk.setup_single _ _ rfl⟩, rfl, rfl, by simp, by simp⟩
    · rename_i p
      split at h
      · rename_i hskip
        dsimp only at h
        split at h
        · cases h
        · simp only [Flow.next.injEq] at h
          obtain ⟨rfl, rfl⟩ := h
          refine ⟨⟨[⟨.ostree_repo_resolve_rev branch, .ok (some p)⟩,
            ⟨.ostree_repo_load_variant p, .ok none⟩], by simp [St.record], ?_⟩, rfl, rfl,
            by simp [hskip], by simp⟩
          exact SetupOk.setup_append
            (SetupOk.setup_single (.ostree_repo_resolve_rev branch) (some p) rfl)
            (SetupOk.setup_single (.ostree_repo_load_variant p) none rfl)
      · rename_i hskip
        simp only [Flow.next.injEq] at h
        obtain ⟨rfl, rfl⟩ := h
        exact ⟨⟨_, rfl, SetupOk.setup_single _ _ rfl⟩, rfl, rfl, by simp, by simp [hskip]⟩

theorem resolve_parent_out {σ : Type} (E : Env σ) (cl : Cmdline) (branch : String)
    (st st1 : St σ) (e : GError)
    (h : resolve_parent E cl branch st = .goto_out e st1) :
    ∃ evs c, st1.trace = st.trace ++ (evs ++ [⟨c, .err e⟩]) ∧ SetupOk evs
      ∧ c.is_setup = true ∧ st1.in_transaction = st.in_transaction := by
  unfold resolve_parent at h
  split at h
  · simp only [Flow.goto_out.injEq] at h
    obtain ⟨rfl, rfl⟩ := h
    exact ⟨[], _, rfl, SetupOk.nil, rfl, rfl⟩
  · split at h
    · cases h
    · rename_i p _
      split at h
      · dsimp only at h
        split at h
        · simp only [Flow.goto_out.injEq] at h
          obtain ⟨rfl, rfl⟩ := h
          exact ⟨[⟨.ostree_repo_resolve_rev branch, .ok (some p)⟩],
            .ostree_repo_load_variant p, by simp [St.record],
            SetupOk.setup_single (.ostree_repo_resolve_rev branch) (some p) rfl, rfl, rfl⟩
        · cases h
      · cases h

theorem resolve_parent_not_null {σ : Type} (E : Env σ) (cl : Cmdline) (branch : String)
    (st st1 : St σ) : resolve_parent E cl branch st ≠ .null_deref st1 := by
  unfold resolve_parent
  split
  · simp
  · split
    · simp
    · split
      · dsimp only
        split <;> simp
      · simp

theorem preamble_cases {σ : Type} (E : Env σ) (cl : Cmdline) (s : σ) :
    (∃ ctx st, preamble E cl s = .next ctx st
      ∧ st.in_transaction = true
      ∧ (∃ pre, st.trace = pre ++
          [⟨.ostree_repo_prepare_transaction cl.opt_link_checkout_speedup, .ok none⟩]
          ∧ SetupOk pre)
      ∧ distinct_keys st.mode_adds
      ∧ cl.opt_branch = some ctx.branch ∧ cl.opt_subject = some ctx.subject
      ∧ ctx.modifier = make_modifier cl
      ∧ (∀ pc, ctx.parent_commit = some pc →
          cl.opt_skip_if_unchanged = true ∧ ∃ p, ctx.parent = some p)
      ∧ (∀ p, ctx.parent = some p → cl.opt_skip_if_unchanged = true →
          ∃ pc, ctx.parent_commit = some pc))
    ∨ (∃ e st, preamble E cl s = .goto_out e st
      ∧ st.in_transaction = false
      ∧ ∃ pre c, st.trace = pre ++ [⟨c, .err e⟩] ∧ SetupOk pre
        ∧ (c.is_setup = true ∨ c = .g_set_error e
          ∨ c = .ostree_repo_prepare_transaction cl.opt_link_checkout_speedup)) := by
  unfold preamble
  cases hpe : cl.parse_error with
  | some e =>
    right
    exact ⟨e, _, rfl, rfl, [], .g_option_context_parse, rfl, SetupOk.nil, Or.inl rfl⟩
  | none =>
    dsimp only
    have h0 : SetupOk [(⟨.g_option_context_parse, .ok none⟩ : Event)] :=
      SetupOk.setup_single _ _ rfl
    cases h1 : load_statoverride E cl
        (St.record ⟨s, [], none, false⟩ .g_option_context_parse (.ok none) s) with
    | null_deref st1 => exact absurd h1 (load_statoverride_not_null _ _ _ _)
    | goto_out e st1 =>
      right
      obtain ⟨evs, c, ht, hok, hc, hin⟩ := load_statoverride_out _ _ _ _ _ h1
      refine ⟨e, st1, rfl, by rw [hin]; rfl, _ ++ evs, c, ?_, h0.setup_append hok, ?_⟩
      · rw [ht]
        simp [St.record]
      · rcases hc with hc | hc
        · exact Or.inl hc
        · exact Or.inr (Or.inl hc)
    | next u1 st1 =>
      obtain ⟨evs1, ht1, hok1, hin1, hd1⟩ := load_statoverride_next _ _ _ _ _
        (by intro t ht; cases ht) h1
      have hin1 : st1.in_transaction = false := by rw [hin1]; rfl
      have ht1 : st1.trace = [⟨.g_option_context_parse, .ok none⟩] ++ evs1 := by
        rw [ht1]; rfl
      have hok1 := h0.setup_append hok1
      simp only [Flow.bind]
      cases h2 : call_unit .ostree_repo_check (E.ostree_repo_check st1.world) st1 with
      | null_deref st2 => exact absurd h2 (call_unit_not_null _ _ _ _)
      | goto_out e st2 =>
        right
        obtain ⟨rfl, _⟩ := call_unit_out _ _ _ _ _ h2
        exact ⟨e, _, rfl, hin1, _, .ostree_repo_check, by simp only [St.record, ht1], hok1,
          Or.inl rfl⟩
      | next u2 st2 =>
        obtain ⟨rfl, _⟩ := call_unit_next _ _ _ _ _ h2
        have hok2 := hok1.setup_append (SetupOk.setup_single .ostree_repo_check none rfl)
        simp only []
        cases hb : cl.opt_branch with
        | none =>
          right
          exact ⟨_, _, rfl, hin1, _,
            .g_set_error "A branch must be specified with --branch",
            by simp only [St.record, ht1], hok2, Or.inr (Or.inl rfl)⟩
        | some branch =>
          cases hs : cl.opt_subject with
          | none =>
            right
            exact ⟨_, _, rfl, hin1, _,
              .g_set_error "A subject must be specified with --subject",
              by simp only [St.record, ht1], hok2, Or.inr (Or.inl rfl)⟩
          | some subject =>
            simp only []
            cases h3 : resolve_parent E cl branch
                (St.record st1 .ostree_repo_check (.ok none)
                  (E.ostree_repo_check st1.world).2) with
            | null_deref st3 => exact absurd h3 (resolve_parent_not_null _ _ _ _ _)
            | goto_out e st3 =>
              right
              obtain ⟨evs, c, ht, hok, hc, hin⟩ := resolve_parent_out _ _ _ _ _ _ h3
              refine ⟨e, st3, rfl, by rw [hin]; exact hin1, _ ++ evs, c, ?_,
                hok2.setup_append hok, Or.inl hc⟩
              rw [ht]
              simp only [St.record, ht1, List.append_assoc]
            | next pp st3 =>
              obtain ⟨⟨evs, ht, hok⟩, hin, hma, hpc, hp⟩ :=
                resolve_parent_next _ _ _ _ _ _ h3
              have hin3 : st3.in_transaction = false := by rw [hin]; exact hin1
              have hok3 := hok2.setup_append hok
              simp only []
              cases h4 : call_unit
                  (.ostree_repo_prepare_transaction cl.opt_link_checkout_speedup)
                  (E.ostree_repo_prepare_transaction cl.opt_link_checkout_speedup
                    st3.world) st3 with
              | null_deref st4 => exact absurd h4 (call_unit_not_null _ _ _ _)
              | goto_out e st4 =>
                right
                obtain ⟨rfl, _⟩ := call_unit_out _ _ _ _ _ h4
                refine ⟨e, _, rfl, hin3, _,
                  .ostree_repo_prepare_transaction cl.opt_link_checkout_speedup, ?_, hok3,
                  Or.inr (Or.inr rfl)⟩
                simp only [St.record, ht, ht1, List.append_assoc]
              | next u4 st4 =>
                left
                obtain ⟨rfl, _⟩ := call_unit_next _ _ _ _ _ h4
                refine ⟨_, _, rfl, rfl, ⟨_, ?_, hok3⟩, ?_, rfl, rfl, rfl, hpc, hp⟩
                · simp only [St.record, St.set_in_transaction, ht, ht1, List.append_assoc]
                · simp only [St.record, St.set_in_transaction, hma]
                  exact hd1

theorem printerr_unmatched_spec {σ : Type} (keys : List String) (st : St σ) :
    (printerr_unmatched keys st).trace = st.trace ++ unmatched_events keys
    ∧ (printerr_unmatched keys st).world = st.world
    ∧ (printerr_unmatched keys st).in_transaction = st.in_transaction := by
  induction keys generalizing st with
  | nil => simp [printerr_unmatched, unmatched_events]
  | cons key rest ih =>
    simp only [printerr_unmatched]
    obtain ⟨h1, h2, h3⟩ := ih
      (st.record (.g_printerr ("Unmatched statoverride path: " ++ key ++ "\n"))
        (.ok none) st.world)
    refine ⟨?_, h2, h3⟩
    rw [h1]
    simp [St.record, unmatched_events]

/-- The abort of the label `out` on an open transaction. -/
theorem out_label_open {σ : Type} (E : Env σ) (o : Outcome) (st : St σ)
    (h : st.in_transaction = true) :
    ∃ r, (out_label E o st).outcome = o
      ∧ (out_label E o st).trace = st.trace ++ [⟨.ostree_repo_abort_transaction, r⟩] := by
  unfold out_label
  rw [if_pos h]
  split
  · exact ⟨_, rfl, rfl⟩
  · exact ⟨_, rfl, rfl⟩

theorem out_label_closed {σ : Type} (E : Env σ) (o : Outcome) (st : St σ)
    (h : st.in_transaction = false) :
    (out_label E o st).outcome = o ∧ (out_label E o st).trace = st.trace := by
  unfold out_label
  simp [h]

theorem check_statoverride_cases {σ : Type} (st : St σ) :
    (check_statoverride st = .next () st
      ∧ (st.mode_adds = none ∨ st.mode_adds = some []))
    ∨ (∃ table st1, st.mode_adds = some table ∧ table ≠ []
      ∧ check_statoverride st = .goto_out "Unmatched statoverride paths" st1
      ∧ st1.in_transaction = st.in_transaction
      ∧ st1.trace = st.trace ++ (unmatched_events table.keys ++
          [⟨.g_set_error "Unmatched statoverride paths",
            .err "Unmatched statoverride paths"⟩])) := by
  unfold check_statoverride
  cases hm : st.mode_adds with
  | none => exact Or.inl ⟨rfl, Or.inl rfl⟩
  | some table =>
    cases table with
    | nil => exact Or.inl ⟨by simp, Or.inr rfl⟩
    | cons entry rest =>
      right
      obtain ⟨h1, _, h3⟩ := printerr_unmatched_spec (Table.keys (entry :: rest)) st
      refine ⟨entry :: rest,
        (printerr_unmatched (Table.keys (entry :: rest)) st).record
          (.g_set_error "Unmatched statoverride paths")
          (.err "Unmatched statoverride paths")
          (printerr_unmatched (Table.keys (entry :: rest)) st).world,
        rfl, by simp, by simp [fail_with], ?_, ?_⟩
      · simpa [St.record] using h3
      · simp [St.record, h1]

theorem skip_check_cases {σ : Type} (E : Env σ) (cl : Cmdline) (ctx : Ctx) (c : String)
    (st : St σ) :
    (skip_check E cl ctx c st = .next true st
      ∧ skip_condition cl ctx c (E.ostree_mutable_tree_get_metadata_checksum st.world))
    ∨ (skip_check E cl ctx c st = .next false st
      ∧ ¬ skip_condition cl ctx c (E.ostree_mutable_tree_get_metadata_checksum st.world)
      ∧ (E.ostree_mutable_tree_get_metadata_checksum st.world = none →
          ¬ metadata_compared cl ctx c))
    ∨ (skip_check E cl ctx c st = .null_deref st
      ∧ metadata_compared cl ctx c
      ∧ E.ostree_mutable_tree_get_metadata_checksum st.world = none) := by
  unfold skip_check skip_condition metadata_compared
  by_cases hflag : cl.opt_skip_if_unchanged = true
  · simp only [hflag, if_true, true_and]
    cases hpc : ctx.parent_commit with
    | none => right; left; simp
    | some pc =>
      by_cases hc : c = pc.content_checksum
      · simp only [hc, if_true]
        cases hroot : E.ostree_mutable_tree_get_metadata_checksum st.world with
        | none => right; right; simp
        | some root =>
          by_cases hr : root = pc.metadata_checksum
          · left; simp [hr]
          · right; left; simp [hr]
      · right; left
        simp [hc]
  · right; left
    simp [hflag]

/-- The run that ends in `st` through `goto out` or through `ret = TRUE`,
when the transaction is still open. -/
theorem finish_run_open {σ : Type} (E : Env σ) (st : St σ)
    (hin : st.in_transaction = true) :
    (∀ e, ∃ r, (finish_run E (.goto_out e st)).outcome = .failure e
      ∧ (finish_run E (.goto_out e st)).trace
          = st.trace ++ [⟨.ostree_repo_abort_transaction, r⟩])
    ∧ (∀ u, ∃ r, (finish_run E (.next u st)).outcome = .success
      ∧ (finish_run E (.next u st)).trace
          = st.trace ++ [⟨.ostree_repo_abort_transaction, r⟩]) :=
  ⟨fun e => out_label_open E (.failure e) st hin, fun _ => out_label_open E .success st hin⟩

theorem finish_run_closed {σ : Type} (E : Env σ) (st : St σ)
    (hin : st.in_transaction = false) :
    (∀ e, (finish_run E (.goto_out e st)).outcome = .failure e
      ∧ (finish_run E (.goto_out e st)).trace = st.trace)
    ∧ (∀ u, (finish_run E (.next u st)).outcome = .success
      ∧ (finish_run E (.next u st)).trace = st.trace) :=
  ⟨fun e => out_label_closed E (.failure e) st hin,
    fun _ => out_label_closed E .success st hin⟩

theorem record_commit_tail {σ : Type} (E : Env σ) (cl : Cmdline) (ctx : Ctx) (st0 st : St σ)
    (c : String) (w : σ) (hin : st.in_transaction = true)
    (ht : st0.mode_adds = none ∨ st0.mode_adds = some [])
    (hm : E.ostree_repo_stage_mtree st0.world = (.ok c, w))
    (hw : st.world = w)
    (hskip : ¬ skip_condition cl ctx c (E.ostree_mutable_tree_get_metadata_checksum w))
    (hcmp : E.ostree_mutable_tree_get_metadata_checksum w = none →
      ¬ metadata_compared cl ctx c)
    (htr : st.trace = st0.trace ++ [⟨.ostree_repo_stage_mtree, .ok (some c)⟩]) :
    ∃ tail, RunTail E cl ctx st0
        (finish_run E (record_commit E cl ctx c st)).outcome tail
      ∧ (finish_run E (record_commit E cl ctx c st)).trace = st0.trace ++ tail := by
  unfold record_commit
  rw [hw]
  cases hroot : E.ostree_mutable_tree_get_metadata_checksum w with
  | none =>
    simp only [fail_with]
    obtain ⟨r, ho, htr1⟩ := (finish_run_open E
      (st.record (.g_set_error "Can\x27t commit an empty tree")
        (.err "Can\x27t commit an empty tree") st.world) hin).1
        "Can\x27t commit an empty tree"
    rw [ho, htr1]
    refine ⟨_, RunTail.empty_tree c w r ht hm (hcmp hroot) hroot, ?_⟩
    simp [St.record, htr]
  | some root =>
    rw [hroot] at hskip
    simp only []
    rw [← hw]
    cases h1 : call_string
        (.ostree_repo_stage_commit ctx.branch ctx.parent ctx.subject cl.opt_body c root)
        (E.ostree_repo_stage_commit ctx.branch ctx.parent ctx.subject cl.opt_body c root
          st.world) st with
    | null_deref st1 => exact absurd h1 (call_string_not_null _ _ _ _)
    | goto_out e st1 =>
      obtain ⟨htr1, hin1, _⟩ := call_string_out_fields _ _ _ _ _ h1
      simp only [Flow.bind]
      obtain ⟨r, ho, htr2⟩ := (finish_run_open E st1 (hin1.trans hin)).1 e
      rw [ho, htr2]
      refine ⟨_, RunTail.stage_commit_failed c root w e r ht hm hroot hskip, ?_⟩
      simp [htr1, htr]
    | next k st1 =>
      obtain ⟨htr1, hin1, _⟩ := call_string_next_fields _ _ _ _ _ h1
      simp only [Flow.bind]
      cases h2 : call_unit .ostree_repo_commit_transaction
          (E.ostree_repo_commit_transaction st1.world) st1 with
      | null_deref st2 => exact absurd h2 (call_unit_not_null _ _ _ _)
      | goto_out e st2 =>
        obtain ⟨htr2, hin2, _⟩ := call_unit_out_fields _ _ _ _ _ h2
        simp only []
        obtain ⟨r, ho, htr3⟩ := (finish_run_open E st2 (hin2.trans (hin1.trans hin))).1 e
        rw [ho, htr3]
        refine ⟨_, RunTail.commit_transaction_failed c root k w e r ht hm hroot hskip, ?_⟩
        simp [htr2, htr1, htr]
      | next u2 st2 =>
        obtain ⟨htr2, hin2, _⟩ := call_unit_next_fields _ _ _ _ _ h2
        simp only []
        cases h3 : call_unit (.ostree_repo_write_ref ctx.branch k)
            (E.ostree_repo_write_ref ctx.branch k st2.world)
            (st2.set_in_transaction false) with
        | null_deref st4 => exact absurd h3 (call_unit_not_null _ _ _ _)
        | goto_out e st4 =>
          obtain ⟨htr4, hin4, _⟩ := call_unit_out_fields _ _ _ _ _ h3
          simp only []
          obtain ⟨ho, htr5⟩ := (finish_run_closed E st4 hin4).1 e
          rw [ho, htr5]
          refine ⟨_, RunTail.write_ref_failed c root k w e ht hm hroot hskip, ?_⟩
          simp [htr4, St.set_in_transaction, htr2, htr1, htr]
        | next u3 st4 =>
          obtain ⟨htr4, hin4, _⟩ := call_unit_next_fields _ _ _ _ _ h3
          simp only []
          obtain ⟨ho, htr5⟩ := (finish_run_closed E
            (st4.record (.g_print (k ++ "\n")) (.ok none) st4.world) hin4).2 ()
          rw [ho, htr5]
          refine ⟨_, RunTail.committed c root k w ht hm hroot hskip, ?_⟩
          simp [St.record, htr4, St.set_in_transaction, htr2, htr1, htr]

theorem skip_commit_path_tail {σ : Type} (E : Env σ) (cl : Cmdline) (ctx : Ctx)
    (st0 st : St σ) (c : String) (w : σ) (hin : st.in_transaction = true)
    (ht : st0.mode_adds = none ∨ st0.mode_adds = some [])
    (hm : E.ostree_repo_stage_mtree st0.world = (.ok c, w))
    (hskip : skip_condition cl ctx c (E.ostree_mutable_tree_get_metadata_checksum w))
    (htr : st.trace = st0.trace ++ [⟨.ostree_repo_stage_mtree, .ok (some c)⟩]) :
    ∃ tail, RunTail E cl ctx st0
        (finish_run E (skip_commit_path E ctx st)).outcome tail
      ∧ (finish_run E (skip_commit_path E ctx st)).trace = st0.trace ++ tail := by
  unfold skip_commit_path
  cases h1 : call_unit .ostree_repo_abort_transaction
      (E.ostree_repo_abort_transaction st.world) st with
  | null_deref st1 => exact absurd h1 (call_unit_not_null _ _ _ _)
  | goto_out e st1 =>
    obtain ⟨htr1, hin1, _⟩ := call_unit_out_fields _ _ _ _ _ h1
    simp only [Flow.bind]
    obtain ⟨r, ho, htr2⟩ := (finish_run_open E st1 (hin1.trans hin)).1 e
    rw [ho, htr2]
    refine ⟨_, RunTail.skip_abort_failed c w e r ht hm hskip, ?_⟩
    simp [htr1, htr]
  | next u st1 =>
    obtain ⟨htr1, hin1, _⟩ := call_unit_next_fields _ _ _ _ _ h1
    simp only [Flow.bind]
    obtain ⟨ho, htr2⟩ := (finish_run_closed E
      ((st1.set_in_transaction false).record
        (.g_print (ctx.parent.getD "(null)" ++ "\n")) (.ok none) st1.world) rfl).2 ()
    rw [ho, htr2]
    refine ⟨_, RunTail.skipped c w ht hm hskip, ?_⟩
    simp [St.record, St.set_in_transaction, htr1, htr]

/-- Every run that reaches line 277 with the transaction open goes one of
the ten ways of `RunTail`. -/
theorem finish_tail {σ : Type} (E : Env σ) (cl : Cmdline) (ctx : Ctx) (st : St σ)
    (hin : st.in_transaction = true) :
    ∃ tail, RunTail E cl ctx st (finish_run E (finish E cl ctx st)).outcome tail
      ∧ (finish_run E (finish E cl ctx st)).trace = st.trace ++ tail := by
  unfold finish
  rcases check_statoverride_cases st with ⟨h0, ht⟩ | ⟨table, st1, hta, hne, h0, hin1, htr1⟩
  · rw [h0]
    simp only [Flow.bind]
    cases h1 : call_string .ostree_repo_stage_mtree (E.ostree_repo_stage_mtree st.world)
        st with
    | null_deref st1 => exact absurd h1 (call_string_not_null _ _ _ _)
    | goto_out e st1 =>
      obtain ⟨htr1, hin1, _, _, hr1⟩ := call_string_out_fields _ _ _ _ _ h1
      simp only []
      obtain ⟨r, ho, htr2⟩ := (finish_run_open E st1 (hin1.trans hin)).1 e
      rw [ho, htr2]
      refine ⟨_, RunTail.stage_mtree_failed e r ht hr1, ?_⟩
      simp [htr1]
    | next c st1 =>
      obtain ⟨htr1, hin1, hw1, _, hr1⟩ := call_string_next_fields _ _ _ _ _ h1
      have hm : E.ostree_repo_stage_mtree st.world = (.ok c, st1.world) := by
        rw [hw1, ← hr1]
      simp only []
      rcases skip_check_cases E cl ctx c st1 with ⟨h2, hs⟩ | ⟨h2, hs, hc⟩ | ⟨h2, hc, hroot⟩
      · rw [h2]
        simp only [if_true]
        exact skip_commit_path_tail E cl ctx st st1 c st1.world (hin1.trans hin) ht hm hs
          htr1
      · rw [h2]
        simp only [Bool.false_eq_true, if_false]
        exact record_commit_tail E cl ctx st st1 c st1.world (hin1.trans hin) ht hm rfl hs
          hc htr1
      · rw [h2]
        simp only [finish_run]
        exact ⟨_, RunTail.null_metadata_compared c st1.world ht hm hc hroot, htr1⟩
  · rw [h0]
    simp only [Flow.bind]
    obtain ⟨r, ho, htr2⟩ := (finish_run_open E st1 (hin1.trans hin)).1
      "Unmatched statoverride paths"
    rw [ho, htr2]
    refine ⟨_, RunTail.unmatched table r hta hne, ?_⟩
    simp [htr1]

/-- The shape of every run of the driver, phase by phase. -/
theorem run_cases {σ : Type} (E : Env σ) (cl : Cmdline) (s : σ) :
    (∃ e pre c, (∃ st, preamble E cl s = .goto_out e st)
      ∧ (ostree_builtin_commit E cl s).outcome = .failure e
      ∧ (ostree_builtin_commit E cl s).trace = pre ++ [⟨c, .err e⟩] ∧ SetupOk pre
      ∧ (c.is_setup = true ∨ c = .g_set_error e
          ∨ c = .ostree_repo_prepare_transaction cl.opt_link_checkout_speedup))
    ∨ (∃ ctx st pre, preamble E cl s = .next ctx st
      ∧ st.trace = pre ++ [prepare_ok cl] ∧ SetupOk pre
      ∧ st.in_transaction = true ∧ distinct_keys st.mode_adds ∧ CtxOk cl ctx
      ∧ ((∃ e st1 evs r, stage_inputs E cl ctx st = .goto_out e st1
            ∧ Staged st evs st1 ∧ StagingFail e evs
            ∧ (ostree_builtin_commit E cl s).outcome = .failure e
            ∧ (ostree_builtin_commit E cl s).trace
                = st1.trace ++ [⟨.ostree_repo_abort_transaction, r⟩])
        ∨ (stage_inputs E cl ctx st = .null_deref st
            ∧ cl.opt_trees = none ∧ cl.argc ≠ 1
            ∧ (ostree_builtin_commit E cl s).outcome = .null_deref
            ∧ (ostree_builtin_commit E cl s).trace = st.trace)
        ∨ (∃ st1 evs o tail, stage_inputs E cl ctx st = .next () st1
            ∧ Staged st evs st1 ∧ StagingOk evs
            ∧ RunTail E cl ctx st1 o tail
            ∧ (ostree_builtin_commit E cl s).outcome = o
            ∧ (ostree_builtin_commit E cl s).trace = st1.trace ++ tail))) := by
  unfold ostree_builtin_commit driver_body
  rcases preamble_cases E cl s with
    ⟨ctx, st, hp, hin, ⟨pre, htr, hok⟩, hdk, hb, hs, hm, hpc, hcp⟩ |
    ⟨e, st, hp, hin, pre, c, htr, hok, hc⟩
  · right
    rw [hp]
    simp only [Flow.bind]
    refine ⟨ctx, st, pre, rfl, htr, hok, hin, hdk, ⟨hb, hs, hm, hpc, hcp⟩, ?_⟩
    cases h1 : stage_inputs E cl ctx st with
    | goto_out e st1 =>
      left
      obtain ⟨evs, hst, hf⟩ := stage_inputs_out _ _ _ _ _ _ h1
      obtain ⟨r, ho, htr1⟩ := (finish_run_open E st1 (hst.in_transaction.trans hin)).1 e
      exact ⟨e, st1, evs, r, rfl, hst, hf, ho, htr1⟩
    | null_deref st1 =>
      right; left
      obtain ⟨rfl, hn, ha⟩ := stage_inputs_null _ _ _ _ _ h1
      exact ⟨rfl, hn, ha, rfl, rfl⟩
    | next u st1 =>
      right; right
      obtain ⟨evs, hst, hsok⟩ := stage_inputs_next _ _ _ _ _ _ h1
      obtain ⟨tail, ht, htr1⟩ := finish_tail E cl ctx st1 (hst.in_transaction.trans hin)
      exact ⟨st1, evs, _, tail, rfl, hst, hsok, ht, rfl, htr1⟩
  · left
    rw [hp]
    simp only [Flow.bind]
    obtain ⟨ho, htr1⟩ := (finish_run_closed E st hin).1 e
    exact ⟨e, pre, c, ⟨st, rfl⟩, ho, htr1.trans htr, hok, hc⟩

theorem SetupOk.setup_event {evs : List Event} (h : SetupOk evs) (ev : Event) (hev : ev ∈ evs) :
    ev.is_ok = true ∧ ev.call.is_setup = true ∧ ev.call.is_staging = false
      ∧ ev.call ≠ .ostree_repo_abort_transaction
      ∧ (∀ b k, ev.call ≠ .ostree_repo_write_ref b k)
      ∧ (∀ b, ev.call ≠ .ostree_repo_prepare_transaction b)
      ∧ (∀ line, ev.call ≠ .g_print line) := by
  obtain ⟨h1, h2⟩ := h ev hev
  obtain ⟨c, r⟩ := ev
  cases c <;> simp_all [Call.is_setup, Call.is_staging]

theorem StagingOk.staging_event {evs : List Event} (h : StagingOk evs) (ev : Event)
    (hev : ev ∈ evs) :
    ev.is_ok = true ∧ ev.call.is_staging = true
      ∧ ev.call ≠ .ostree_repo_abort_transaction
      ∧ (∀ b k, ev.call ≠ .ostree_repo_write_ref b k)
      ∧ (∀ line, ev.call ≠ .g_print line) := by
  obtain ⟨h1, h2⟩ := h ev hev
  obtain ⟨c, r⟩ := ev
  cases c <;> simp_all [Call.is_staging]

/-- The events before line 277 of a run that gets there: all of them are
successful calls, none is an abort, a ref update or a print. -/
theorem before_finish_event {σ : Type} {cl : Cmdline} {st st1 : St σ}
    {pre evs : List Event} (htr : st.trace = pre ++ [prepare_ok cl]) (hok : SetupOk pre)
    (hst : Staged st evs st1) (hsok : StagingOk evs) (ev : Event) (hev : ev ∈ st1.trace) :
    ev.is_ok = true ∧ ev.call ≠ .ostree_repo_abort_transaction
      ∧ (∀ b k, ev.call ≠ .ostree_repo_write_ref b k)
      ∧ (∀ line, ev.call ≠ .g_print line) := by
  rw [hst.trace, htr] at hev
  simp only [List.mem_append, List.mem_singleton] at hev
  rcases hev with (hev | hev) | hev
  · obtain ⟨h1, _, _, h3, h4, _, h5⟩ := hok.setup_event ev hev
    exact ⟨h1, h3, h4, h5⟩
  · subst hev
    simp [prepare_ok, Event.is_ok]
  · obtain ⟨h1, _, h3, h4, h5⟩ := hsok.staging_event ev hev
    exact ⟨h1, h3, h4, h5⟩

theorem before_finish_kind {σ : Type} {cl : Cmdline} {st st1 : St σ}
    {pre evs : List Event} (htr : st.trace = pre ++ [prepare_ok cl]) (hok : SetupOk pre)
    (hst : Staged st evs st1) (hsok : StagingOk evs) (ev : Event) (hev : ev ∈ st1.trace) :
    ev.is_ok = true ∧ ev.call.is_wrapup = false := by
  rw [hst.trace, htr] at hev
  simp only [List.mem_append, List.mem_singleton] at hev
  rcases hev with (hev | hev) | hev
  · obtain ⟨h1, h2⟩ := hok ev hev
    refine ⟨h1, ?_⟩
    obtain ⟨c, r⟩ := ev
    cases c <;> simp_all [Call.is_setup, Call.is_wrapup]
  · subst hev
    simp [prepare_ok, Event.is_ok, Call.is_wrapup]
  · obtain ⟨h1, h2⟩ := hsok ev hev
    refine ⟨h1, ?_⟩
    obtain ⟨c, r⟩ := ev
    cases c <;> simp_all [Call.is_staging, Call.is_wrapup]

theorem stdout_lines_append (l l1 : List Event) :
    stdout_lines (l ++ l1) = stdout_lines l ++ stdout_lines l1 := by
  induction l with
  | nil => rfl
  | cons ev rest ih =>
    obtain ⟨c, r⟩ := ev
    cases c <;> simp [stdout_lines, ih]

theorem stdout_lines_nil_of_not_wrapup (l : List Event)
    (h : ∀ ev ∈ l, ev.call.is_wrapup = false) : stdout_lines l = [] := by
  induction l with
  | nil => rfl
  | cons ev rest ih =>
    have h1 := h ev (List.mem_cons_self _ _)
    have h2 := ih (fun ev hev => h ev (List.mem_cons_of_mem _ hev))
    obtain ⟨c, r⟩ := ev
    cases c <;> simp_all [stdout_lines, Call.is_wrapup]

theorem records_commit_wrapup (c : Call) (h : c.is_wrapup = false) :
    c.records_commit = false := by
  cases c <;> simp_all [Call.is_wrapup, Call.records_commit]

theorem tree_kind_of_kind (kind value : String) (hk : '=' ∉ kind.data) :
    '=' ∈ (kind ++ "=" ++ value).data ∧ tree_kind (kind ++ "=" ++ value) = kind := by
  have hd : (kind ++ "=" ++ value).data = kind.data ++ '=' :: value.data := by
    simp [String.data_append]
  refine ⟨by rw [hd]; simp, ?_⟩
  unfold tree_kind
  rw [hd]
  have h1 : ∀ c ∈ kind.data, (fun c => decide (c ≠ '=')) c = true := by
    intro c hc
    simp only [ne_eq, decide_not, Bool.not_eq_eq_eq_not, Bool.not_true,
      decide_eq_false_iff_not]
    intro h
    subst h
    exact hk hc
  rw [List.takeWhile_append_of_pos h1]
  simp [List.takeWhile]

theorem well_formed_tree_kind (tree : String) (h : well_formed_tree tree) :
    '=' ∈ tree.data ∧ tree_kind tree ∈ ["dir", "tar", "ref"] := by
  obtain ⟨value, h | h | h⟩ := h
  · have := tree_kind_of_kind "dir" value (by decide)
    have he : tree = "dir" ++ "=" ++ value := by rw [h]; rfl
    rw [he]
    exact ⟨this.1, by rw [this.2]; simp⟩
  · have := tree_kind_of_kind "tar" value (by decide)
    have he : tree = "tar" ++ "=" ++ value := by rw [h]; rfl
    rw [he]
    exact ⟨this.1, by rw [this.2]; simp⟩
  · have := tree_kind_of_kind "ref" value (by decide)
    have he : tree = "ref" ++ "=" ++ value := by rw [h]; rfl
    rw [he]
    exact ⟨this.1, by rw [this.2]; simp⟩

theorem bad_tree_not_well_formed (tree : String) (h : bad_tree tree) :
    ¬ well_formed_tree tree := by
  intro hw
  obtain ⟨h1, h2⟩ := well_formed_tree_kind tree hw
  rcases h with h | h
  · exact h h1
  · exact h h2

theorem TreeStaged.well_formed {cl : Cmdline} {ctx : Ctx} {tree : String}
    {evs : List Event} (h : TreeStaged cl ctx tree evs) : well_formed_tree tree := by
  cases h with
  | dir value vs => exact ⟨value, Or.inl rfl⟩
  | tar value vs => exact ⟨value, Or.inr (Or.inl rfl)⟩
  | ref value root vs => exact ⟨value, Or.inr (Or.inr rfl)⟩

theorem blocks_well_formed {cl : Cmdline} {ctx : Ctx} {trees : List String}
    {blocks : List (List Event)} (h : List.Forall₂ (TreeStaged cl ctx) trees blocks) :
    ∀ t ∈ trees, well_formed_tree t := by
  induction h with
  | nil => intro t ht; simp at ht
  | cons ht _ ih =>
    intro t hmem
    rcases List.mem_cons.1 hmem with rfl | hmem
    · exact ht.well_formed
    · exact ih t hmem

/-- For a well-formed value the failing pass ends with a failed call of
the repository, never with an error of the driver. -/
theorem TreeFailed.staging_only {cl : Cmdline} {ctx : Ctx} {tree : String} {e : GError}
    {evs : List Event} (h : TreeFailed cl ctx tree e evs) (hw : well_formed_tree tree) :
    ∀ ev ∈ evs, ev.call.is_staging = true := by
  obtain ⟨h1, h2⟩ := well_formed_tree_kind tree hw
  cases h with
  | dir value vs =>
    intro ev hev
    rcases List.mem_append.1 hev with hev | hev
    · exact (filter_events_ok vs ev hev).2
    · simp only [List.mem_singleton] at hev
      subst hev
      rfl
  | tar value vs =>
    intro ev hev
    rcases List.mem_append.1 hev with hev | hev
    · exact (filter_events_ok vs ev hev).2
    · simp only [List.mem_singleton] at hev
      subst hev
      rfl
  | read_commit value =>
    intro ev hev
    simp only [List.mem_singleton] at hev
    subst hev
    rfl
  | ref value root vs =>
    intro ev hev
    rcases List.mem_cons.1 hev with hev | hev
    · subst hev
      rfl
    · rcases List.mem_append.1 hev with hev | hev
      · exact (filter_events_ok vs ev hev).2
      · simp only [List.mem_singleton] at hev
        subst hev
        rfl
  | missing_type _ hm => exact absurd h1 hm
  | invalid_type _ hm hk => exact absurd h2 hk

theorem stage_tree_bad {σ : Type} (E : Env σ) (cl : Cmdline) (ctx : Ctx) (tree : String)
    (st : St σ) (h : bad_tree tree) :
    stage_tree E cl ctx tree st = fail_with (invalid_tree_error tree) st := by
  unfold stage_tree invalid_tree_error
  by_cases heq : '=' ∈ tree.data
  · rcases h with h | h
    · exact absurd heq h
    · simp only [List.mem_cons, List.mem_singleton, List.not_mem_nil, or_false,
        not_or] at h
      obtain ⟨hd, ht, hr⟩ := h
      simp only [tree_kind] at hd ht hr ⊢
      rw [if_pos heq, if_neg hd, if_neg ht, if_neg hr, if_pos heq]
  · rw [if_neg heq, if_neg heq]

theorem stage_trees_append {σ : Type} (E : Env σ) (cl : Cmdline) (ctx : Ctx)
    (pre rest : List String) (st : St σ) :
    stage_trees E cl ctx (pre ++ rest) st
      = (stage_trees E cl ctx pre st).bind fun _ st1 => stage_trees E cl ctx rest st1 := by
  induction pre generalizing st with
  | nil => rfl
  | cons t ts ih =>
    simp only [List.cons_append, stage_trees]
    cases stage_tree E cl ctx t st with
    | next u st1 => simp only [Flow.bind]; exact ih st1
    | goto_out e st1 => rfl
    | null_deref st1 => rfl

theorem stage_inputs_trees {σ : Type} (E : Env σ) (cl : Cmdline) (ctx : Ctx) (st : St σ)
    (trees : List String) (hopt : cl.opt_trees = some trees) (hne : trees ≠ []) :
    stage_inputs E cl ctx st = stage_trees E cl ctx trees st := by
  unfold stage_inputs
  rw [if_neg]
  · rw [hopt]
  · rw [hopt]
    rintro ⟨_, h | h⟩
    · cases h
    · simp only [Option.some.injEq] at h
      exact hne h

theorem RunTail.wrapup {σ : Type} {E : Env σ} {cl : Cmdline} {ctx : Ctx} {st : St σ}
    {o : Outcome} {tail : List Event} (h : RunTail E cl ctx st o tail) :
    ∀ ev ∈ tail, ev.call.is_wrapup = true := by
  cases h <;> intro ev hev <;>
    simp only [unmatched_events, List.mem_append, List.mem_map, List.mem_cons,
      List.mem_singleton, List.not_mem_nil, or_false] at hev
  · rcases hev with ⟨key, _, rfl⟩ | rfl | rfl <;> rfl
  all_goals (rcases hev with rfl | hev <;> try rfl)
  all_goals (rcases hev with rfl | hev <;> try rfl)
  all_goals (rcases hev with rfl | hev <;> try rfl)
  all_goals (rcases hev with rfl | hev <;> try rfl)
  all_goals (subst hev; rfl)

theorem not_write_ref_of_bool (ev : Event) (h : ev.call.is_write_ref = false) (b k : String) :
    ev.call ≠ .ostree_repo_write_ref b k := by
  intro hc
  rw [hc] at h
  simp [Call.is_write_ref] at h

theorem not_filtered_of_paths (tr : List Event) (p : String) (h : p ∉ filtered_paths tr) :
    ∀ ev ∈ tr, ∀ info, ev.call ≠ .commit_filter p info := by
  induction tr with
  | nil => intro ev hev; simp at hev
  | cons e rest ih =>
    intro ev hev info hc
    rcases List.mem_cons.1 hev with rfl | hev
    · obtain ⟨c, r⟩ := ev
      simp only at hc
      subst hc
      simp [filtered_paths] at h
    · refine ih ?_ ev hev info hc
      intro hp
      apply h
      obtain ⟨c, r⟩ := e
      cases c <;> simp [filtered_paths, hp]

theorem check_statoverride_pass {σ : Type} (st : St σ)
    (h : st.mode_adds = none ∨ st.mode_adds = some []) :
    check_statoverride st = .next () st := by
  unfold check_statoverride
  rcases h with h | h <;> simp [h]

theorem finish_after_mtree {σ : Type} (E : Env σ) (cl : Cmdline) (ctx : Ctx) (st : St σ)
    (c : String) (w : σ) (hcheck : st.mode_adds = none ∨ st.mode_adds = some [])
    (hm : E.ostree_repo_stage_mtree st.world = (.ok c, w)) :
    finish E cl ctx st
      = (skip_check E cl ctx c
          (st.record .ostree_repo_stage_mtree (.ok (some c)) w)).bind fun skip st3 =>
        if skip = true then skip_commit_path E ctx st3
        else record_commit E cl ctx c st3 := by
  unfold finish
  rw [check_statoverride_pass st hcheck]
  simp only [Flow.bind, call_string, hm]

theorem skip_check_true {σ : Type} (E : Env σ) (cl : Cmdline) (ctx : Ctx) (c : String)
    (st : St σ)
    (h : skip_condition cl ctx c (E.ostree_mutable_tree_get_metadata_checksum st.world)) :
    skip_check E cl ctx c st = .next true st := by
  rcases skip_check_cases E cl ctx c st with ⟨h1, _⟩ | ⟨_, h2, _⟩ | ⟨_, _, h3⟩
  · exact h1
  · exact absurd h h2
  · exfalso
    rw [h3] at h
    obtain ⟨_, pc, _, _, h4⟩ := h
    cases h4

theorem skip_check_false {σ : Type} (E : Env σ) (cl : Cmdline) (ctx : Ctx) (c : String)
    (st : St σ) (root : String)
    (hroot : E.ostree_mutable_tree_get_metadata_checksum st.world = some root)
    (h : ¬ skip_condition cl ctx c (E.ostree_mutable_tree_get_metadata_checksum st.world)) :
    skip_check E cl ctx c st = .next false st := by
  rcases skip_check_cases E cl ctx c st with ⟨_, h1⟩ | ⟨h2, _⟩ | ⟨_, _, h3⟩
  · exact absurd h1 h
  · exact h2
  · rw [hroot] at h3
    cases h3

/-- The skip path when the abort succeeds. -/
theorem skip_path_abort_ok {σ : Type} (E : Env σ) (ctx : Ctx) (st : St σ) (w1 : σ)
    (h : E.ostree_repo_abort_transaction st.world = (.ok (), w1)) :
    (finish_run E (skip_commit_path E ctx st)).outcome = .success
    ∧ (finish_run E (skip_commit_path E ctx st)).trace
        = st.trace ++ [⟨.ostree_repo_abort_transaction, .ok none⟩,
            ⟨.g_print (ctx.parent.getD "(null)" ++ "\n"), .ok none⟩] := by
  simp [skip_commit_path, call_unit, h, Flow.bind, finish_run, out_label, St.record,
    St.set_in_transaction]

/-- The skip path when the abort fails: the driver jumps to `out` with the
transaction still open, aborts once more and returns the first error. -/
theorem skip_path_abort_err {σ : Type} (E : Env σ) (ctx : Ctx) (st : St σ) (e : GError)
    (w1 : σ) (hin : st.in_transaction = true)
    (h : E.ostree_repo_abort_transaction st.world = (.error e, w1)) :
    (finish_run E (skip_commit_path E ctx st)).outcome = .failure e
    ∧ ∃ r, (finish_run E (skip_commit_path E ctx st)).trace
        = st.trace ++ [⟨.ostree_repo_abort_transaction, .err e⟩,
            ⟨.ostree_repo_abort_transaction, r⟩] := by
  simp only [skip_commit_path, call_unit, h, Flow.bind, finish_run]
  obtain ⟨r, h1, h2⟩ := out_label_open E (.failure e)
    (st.record .ostree_repo_abort_transaction (.err e) w1) hin
  exact ⟨h1, r, by rw [h2]; simp [St.record]⟩

theorem record_commit_stage_err {σ : Type} (E : Env σ) (cl : Cmdline) (ctx : Ctx)
    (st : St σ) (c root : String) (e : GError) (w2 : σ) (hin : st.in_transaction = true)
    (hroot : E.ostree_mutable_tree_get_metadata_checksum st.world = some root)
    (h : E.ostree_repo_stage_commit ctx.branch ctx.parent ctx.subject cl.opt_body c root
      st.world = (.error e, w2)) :
    (finish_run E (record_commit E cl ctx c st)).outcome = .failure e
    ∧ ∃ r, (finish_run E (record_commit E cl ctx c st)).trace
        = st.trace ++
          [⟨.ostree_repo_stage_commit ctx.branch ctx.parent ctx.subject cl.opt_body c root,
              .err e⟩,
            ⟨.ostree_repo_abort_transaction, r⟩] := by
  simp only [record_commit, hroot, call_string, h, Flow.bind, finish_run]
  obtain ⟨r, h1, h2⟩ := out_label_open E (.failure e)
    (st.record
      (.ostree_repo_stage_commit ctx.branch ctx.parent ctx.subject cl.opt_body c root)
      (.err e) w2) hin
  exact ⟨h1, r, by rw [h2]; simp [St.record]⟩

theorem record_commit_transaction_err {σ : Type} (E : Env σ) (cl : Cmdline) (ctx : Ctx)
    (st : St σ) (c root k : String) (e : GError) (w2 w3 : σ)
    (hin : st.in_transaction = true)
    (hroot : E.ostree_mutable_tree_get_metadata_checksum st.world = some root)
    (h : E.ostree_repo_stage_commit ctx.branch ctx.parent ctx.subject cl.opt_body c root
      st.world = (.ok k, w2))
    (h1 : E.ostree_repo_commit_transaction w2 = (.error e, w3)) :
    (finish_run E (record_commit E cl ctx c st)).outcome = .failure e
    ∧ ∃ r, (finish_run E (record_commit E cl ctx c st)).trace
        = st.trace ++
          [⟨.ostree_repo_stage_commit ctx.branch ctx.parent ctx.subject cl.opt_body c root,
              .ok (some k)⟩,
            ⟨.ostree_repo_commit_transaction, .err e⟩,
            ⟨.ostree_repo_abort_transaction, r⟩] := by
  simp only [record_commit, hroot, call_string, h, Flow.bind, St.record, call_unit, h1,
    finish_run]
  obtain ⟨r, h2, h3⟩ := out_label_open E (.failure e)
    ⟨w3, st.trace ++
      [⟨.ostree_repo_stage_commit ctx.branch ctx.parent ctx.subject cl.opt_body c root,
        .ok (some k)⟩] ++ [⟨.ostree_repo_commit_transaction, .err e⟩],
      st.mode_adds, st.in_transaction⟩ hin
  exact ⟨h2, r, by rw [h3]; simp⟩

theorem record_commit_write_ref {σ : Type} (E : Env σ) (cl : Cmdline) (ctx : Ctx)
    (st : St σ) (c root k : String) (w2 w3 : σ)
    (hroot : E.ostree_mutable_tree_get_metadata_checksum st.world = some root)
    (h : E.ostree_repo_stage_commit ctx.branch ctx.parent ctx.subject cl.opt_body c root
      st.world = (.ok k, w2))
    (h1 : E.ostree_repo_commit_transaction w2 = (.ok (), w3)) :
    (∀ w4, E.ostree_repo_write_ref ctx.branch k w3 = (.ok (), w4) →
      (finish_run E (record_commit E cl ctx c st)).outcome = .success
      ∧ (finish_run E (record_commit E cl ctx c st)).trace
          = st.trace ++
            [⟨.ostree_repo_stage_commit ctx.branch ctx.parent ctx.subject cl.opt_body c
                root, .ok (some k)⟩,
              ⟨.ostree_repo_commit_transaction, .ok none⟩,
              ⟨.ostree_repo_write_ref ctx.branch k, .ok none⟩,
              ⟨.g_print (k ++ "\n"), .ok none⟩])
    ∧ (∀ e w4, E.ostree_repo_write_ref ctx.branch k w3 = (.error e, w4) →
      (finish_run E (record_commit E cl ctx c st)).outcome = .failure e
      ∧ (finish_run E (record_commit E cl ctx c st)).trace
          = st.trace ++
            [⟨.ostree_repo_stage_commit ctx.branch ctx.parent ctx.subject cl.opt_body c
                root, .ok (some k)⟩,
              ⟨.ostree_repo_commit_transaction, .ok none⟩,
              ⟨.ostree_repo_write_ref ctx.branch k, .err e⟩]) := by
  refine ⟨?_, ?_⟩
  · intro w4 h2
    simp [record_commit, hroot, call_string, h, Flow.bind, St.record, call_unit, h1, h2,
      St.set_in_transaction, finish_run, out_label]
  · intro e w4 h2
    simp [record_commit, hroot, call_string, h, Flow.bind, St.record, call_unit, h1, h2,
      St.set_in_transaction, finish_run, out_label]

/-- A run whose preamble and staging succeed goes on at line 277 with the
transaction open, after nothing but successful calls of the first two
phases. -/
theorem reaches_finish {σ : Type} (E : Env σ) (cl : Cmdline) (s : σ) (ctx : Ctx)
    (st st1 : St σ) (hpre : preamble E cl s = .next ctx st)
    (hstage : stage_inputs E cl ctx st = .next () st1) :
    ostree_builtin_commit E cl s = finish_run E (finish E cl ctx st1)
    ∧ st1.in_transaction = true
    ∧ (∀ ev ∈ st1.trace, ev.is_ok = true ∧ ev.call.is_wrapup = false)
    ∧ CtxOk cl ctx := by
  refine ⟨by simp [ostree_builtin_commit, driver_body, hpre, hstage, Flow.bind], ?_⟩
  rcases preamble_cases E cl s with
    ⟨ctx1, st0, hp, hin, ⟨pre, htr, hok⟩, hdk, hb, hs, hmod, hpc, hcp⟩ | ⟨e, st0, hp, _⟩
  · rw [hpre] at hp
    simp only [Flow.next.injEq] at hp
    obtain ⟨rfl, rfl⟩ := hp
    obtain ⟨evs, hst, hsok⟩ := stage_inputs_next _ _ _ _ _ _ hstage
    exact ⟨hst.in_transaction.trans hin,
      fun ev hev => before_finish_kind htr hok hst hsok ev hev, ⟨hb, hs, hmod, hpc, hcp⟩⟩
  · rw [hpre] at hp
    cases hp

theorem split_newline_mem (s : List Char) :
    ∀ line ∈ split_newline s, ∀ c ∈ line, c ∈ s := by
  induction s with
  | nil => simp [split_newline]
  | cons a cs ih =>
    intro line hl c hc
    simp only [split_newline] at hl
    by_cases ha : a = '\n'
    · simp only [ha, if_true, List.mem_cons] at hl
      rcases hl with rfl | hl
      · simp at hc
      · exact List.mem_cons_of_mem _ (ih line hl c hc)
    · simp only [ha, if_false] at hl
      cases hs : split_newline cs with
      | nil =>
        rw [hs] at hl
        simp only [List.mem_singleton] at hl
        subst hl
        simp only [List.mem_singleton] at hc
        subst hc
        exact List.mem_cons_self _ _
      | cons l ls =>
        rw [hs] at hl ih
        rcases List.mem_cons.1 hl with rfl | hl
        · rcases List.mem_cons.1 hc with rfl | hc
          · exact List.mem_cons_self _ _
          · exact List.mem_cons_of_mem _ (ih l (List.mem_cons_self _ _) c hc)
        · exact List.mem_cons_of_mem _ (ih line (List.mem_cons_of_mem _ hl) c hc)

/-- No line of the split holds a NUL or a newline: the lines are cut out of
the C string. -/
theorem g_strsplit_newline_lines (contents : List Char) :
    ∀ line ∈ g_strsplit_newline contents, Char.ofNat 0 ∉ line ∧ '\n' ∉ line := by
  intro line hl
  unfold g_strsplit_newline at hl
  split at hl
  · simp at hl
  · refine ⟨?_, (split_newline_spec _).2 line hl⟩
    intro h0
    have h1 := split_newline_mem _ line hl _ h0
    have h2 := List.mem_takeWhile_imp h1
    simp at h2

theorem after_first_space_mem (s : List Char) : ∀ c ∈ after_first_space s, c ∈ s := by
  intro c hc
  unfold after_first_space at hc
  exact (List.dropWhile_sublist _).subset (List.mem_of_mem_tail hc)

/-! ## The claims -/

/-- C5. For every path, file info and table, with the two overrides in the
range of `gint`, `commit_filter` returns Allow; the uid is the override when
it is set (`≥ 0`) and the old uid otherwise, and the same for the gid; when
the table holds the path with mask `m`, the mode becomes the old mode or-ed
with `m` and the new table is the old one without the entry of that path,
every other entry being kept; when the table does not hold the path, or
there is no table, mode and table are unchanged; and every attribute other
than `unix::uid`, `unix::gid` and `unix::mode` reads as before. -/
theorem commit_filter_result (uid gid : Int) (path : String) (info : GFileInfo)
    (mode_adds : Option Table) (huid : uid < 2147483648) (hgid : gid < 2147483648) :
    (commit_filter uid gid path info mode_adds).verdict
        = .OSTREE_REPO_COMMIT_FILTER_ALLOW
    ∧ (commit_filter uid gid path info mode_adds).file_info.get_attribute_uint32 "unix::uid"
        = (if uid ≥ 0 then uid.toNat else info.get_attribute_uint32 "unix::uid")
    ∧ (commit_filter uid gid path info mode_adds).file_info.get_attribute_uint32 "unix::gid"
        = (if gid ≥ 0 then gid.toNat else info.get_attribute_uint32 "unix::gid")
    ∧ (∀ table m, mode_adds = some table → table.lookup path = some m →
        (commit_filter uid gid path info mode_adds).file_info.get_attribute_uint32
            "unix::mode" = info.get_attribute_uint32 "unix::mode" ||| m
        ∧ ∃ table1, (commit_filter uid gid path info mode_adds).mode_adds = some table1
          ∧ table1.lookup path = none
          ∧ (∀ q, q ≠ path → table1.lookup q = table.lookup q)
          ∧ (∀ e, e ∈ table1 ↔ e ∈ table ∧ e.1 ≠ path))
    ∧ ((∀ table, mode_adds = some table → table.lookup path = none) →
        (commit_filter uid gid path info mode_adds).file_info.get_attribute_uint32
            "unix::mode" = info.get_attribute_uint32 "unix::mode"
        ∧ (commit_filter uid gid path info mode_adds).mode_adds = mode_adds)
    ∧ (∀ attr, attr ≠ "unix::uid" → attr ≠ "unix::gid" → attr ≠ "unix::mode" →
        (commit_filter uid gid path info mode_adds).file_info.get_attribute_uint32 attr
          = info.get_attribute_uint32 attr) := by
  have hu : ∀ h : 0 ≤ uid, guint32_of_gint uid = uid.toNat :=
    fun h => guint32_of_gint_eq uid h huid
  have hg : ∀ h : 0 ≤ gid, guint32_of_gint gid = gid.toNat :=
    fun h => guint32_of_gint_eq gid h hgid
  refine ⟨?_, ?_, ?_, ?_, ?_, ?_⟩
  · unfold commit_filter
    cases mode_adds with
    | none => rfl
    | some t => cases h : t.lookup path <;> simp [h]
  · unfold commit_filter
    cases mode_adds with
    | none =>
      by_cases h1 : 0 ≤ uid <;> by_cases h2 : 0 ≤ gid <;>
        simp [h1, h2, GFileInfo.get_set, hu, hg]
    | some t =>
      cases h : t.lookup path <;> by_cases h1 : 0 ≤ uid <;> by_cases h2 : 0 ≤ gid <;>
        simp [h, h1, h2, GFileInfo.get_set, hu, hg]
  · unfold commit_filter
    cases mode_adds with
    | none =>
      by_cases h1 : 0 ≤ uid <;> by_cases h2 : 0 ≤ gid <;>
        simp [h1, h2, GFileInfo.get_set, hu, hg]
    | some t =>
      cases h : t.lookup path <;> by_cases h1 : 0 ≤ uid <;> by_cases h2 : 0 ≤ gid <;>
        simp [h, h1, h2, GFileInfo.get_set, hu, hg]
  · intro table m hm hl
    subst hm
    unfold commit_filter
    simp only [hl]
    refine ⟨?_, Table.remove table path, rfl, ?_, ?_, ?_⟩
    · by_cases h1 : 0 ≤ uid <;> by_cases h2 : 0 ≤ gid <;>
        simp [h1, h2, GFileInfo.get_set]
    · simp [Table.lookup_remove]
    · intro q hq
      simp [Table.lookup_remove, hq]
    · intro e
      simp [Table.remove]
  · intro hno
    unfold commit_filter
    cases mode_adds with
    | none =>
      by_cases h1 : 0 ≤ uid <;> by_cases h2 : 0 ≤ gid <;>
        simp [h1, h2, GFileInfo.get_set]
    | some t =>
      have h := hno t rfl
      by_cases h1 : 0 ≤ uid <;> by_cases h2 : 0 ≤ gid <;>
        simp [h, h1, h2, GFileInfo.get_set]
  · intro attr ha hb hc
    unfold commit_filter
    cases mode_adds with
    | none =>
      by_cases h1 : 0 ≤ uid <;> by_cases h2 : 0 ≤ gid <;>
        simp [h1, h2, GFileInfo.get_set, Ne.symm ha, Ne.symm hb]
    | some t =>
      cases h : t.lookup path <;> by_cases h1 : 0 ≤ uid <;> by_cases h2 : 0 ≤ gid <;>
        simp [h, h1, h2, GFileInfo.get_set, Ne.symm ha, Ne.symm hb, Ne.symm hc]

/-- C2. A run either never calls `ostree_repo_write_ref`, or its trace is
`pre`, then a successful `ostree_repo_stage_commit` returning `k`, a
successful `ostree_repo_commit_transaction`, the one call of
`ostree_repo_write_ref` with that `k`, and at most the final print: every
event of `pre` is a success and none is an abort or a ref update.  So the
ref is written at most once, only right after those two successes, and
never in a run that failed earlier or that aborted on the skip path. -/
theorem write_ref_after_commit {σ : Type} (E : Env σ) (cl : Cmdline) (s : σ) :
    (∀ ev ∈ (ostree_builtin_commit E cl s).trace, ∀ b k,
      ev.call ≠ .ostree_repo_write_ref b k)
    ∨ (∃ pre post b p subject body c root k r,
        (ostree_builtin_commit E cl s).trace
          = pre ++ [⟨.ostree_repo_stage_commit b p subject body c root, .ok (some k)⟩,
              ⟨.ostree_repo_commit_transaction, .ok none⟩,
              ⟨.ostree_repo_write_ref b k, r⟩] ++ post
        ∧ (∀ ev ∈ pre, ev.is_ok = true ∧ ev.call ≠ .ostree_repo_abort_transaction
            ∧ ∀ b1 k1, ev.call ≠ .ostree_repo_write_ref b1 k1)
        ∧ (post = [] ∨ post = [⟨.g_print (k ++ "\n"), .ok none⟩])) := by
  rcases run_cases E cl s with
    ⟨e1, pre, c, _, _, htr, hok, hc⟩ |
    ⟨ctx, st, pre, _, htr, hok, hin, _, _, hcases⟩
  · left
    intro ev hev b k hcall
    rw [htr] at hev
    simp only [List.mem_append, List.mem_singleton] at hev
    rcases hev with hev | hev
    · exact (hok.setup_event _ hev).2.2.2.2.1 b k hcall
    · subst hev
      simp only at hcall
      subst hcall
      simp [Call.is_setup] at hc
  · have hpre : ∀ ev ∈ st.trace, ∀ b k, ev.call ≠ .ostree_repo_write_ref b k := by
      intro ev hev
      exact (before_finish_event htr hok (Staged.refl st)
        (by intro ev hev; simp at hev) ev hev).2.2.1
    rcases hcases with
      ⟨e1, st1, evs, r, _, hst, ⟨init, c, rfl, hinit, hc⟩, ho, htr1⟩ |
      ⟨_, _, _, ho, htr1⟩ |
      ⟨st1, evs, o, tail, _, hst, hsok, htail, ho, htr1⟩
    · left
      intro ev hev b k hcall
      rw [htr1, hst.trace] at hev
      simp only [List.mem_append, List.mem_singleton] at hev
      rcases hev with (hev | hev | hev) | hev
      · exact hpre ev hev b k hcall
      · exact (hinit.staging_event _ hev).2.2.2.1 b k hcall
      · subst hev
        simp only at hcall
        subst hcall
        simp [Call.is_staging] at hc
      · subst hev
        simp at hcall
    · left
      rw [htr1]
      exact hpre
    · have hbefore := fun ev hev => before_finish_event htr hok hst hsok ev hev
      have hnone : (∀ ev ∈ tail, ∀ b k, ev.call ≠ .ostree_repo_write_ref b k) →
          ∀ ev ∈ (ostree_builtin_commit E cl s).trace, ∀ b k,
            ev.call ≠ .ostree_repo_write_ref b k := by
        intro h ev hev
        rw [htr1] at hev
        rcases List.mem_append.1 hev with hev | hev
        · exact (hbefore ev hev).2.2.1
        · exact h ev hev
      have hfront : ∀ c : String,
          ∀ ev ∈ st1.trace ++ [⟨.ostree_repo_stage_mtree, .ok (some c)⟩],
          ev.is_ok = true ∧ ev.call ≠ .ostree_repo_abort_transaction
            ∧ ∀ b1 k1, ev.call ≠ .ostree_repo_write_ref b1 k1 := by
        intro c ev hev
        rcases List.mem_append.1 hev with hev | hev
        · exact ⟨(hbefore ev hev).1, (hbefore ev hev).2.1, (hbefore ev hev).2.2.1⟩
        · simp only [List.mem_singleton] at hev
          subst hev
          simp [Event.is_ok]
      cases htail with
      | unmatched table r ht hne =>
        left
        apply hnone
        intro ev hev
        simp only [unmatched_events, List.mem_append, List.mem_map, List.mem_cons,
          List.mem_singleton, List.not_mem_nil, or_false] at hev
        rcases hev with ⟨key, _, rfl⟩ | rfl | rfl <;> simp
      | stage_mtree_failed _ r ht hm => left; apply hnone; simp
      | null_metadata_compared c w ht hm hcmp hroot => left; apply hnone; simp
      | skip_abort_failed c w _ r ht hm hskip => left; apply hnone; simp
      | skipped c w ht hm hskip => left; apply hnone; simp
      | empty_tree c w r ht hm hcmp hroot => left; apply hnone; simp
      | stage_commit_failed c root w _ r ht hm hroot hskip => left; apply hnone; simp
      | commit_transaction_failed c root k w _ r ht hm hroot hskip =>
        left; apply hnone; simp
      | write_ref_failed c root k w e ht hm hroot hskip =>
        right
        refine ⟨st1.trace ++ [⟨.ostree_repo_stage_mtree, .ok (some c)⟩], [], ctx.branch,
          ctx.parent, ctx.subject, cl.opt_body, c, root, k, .err e, ?_, ?_, Or.inl rfl⟩
        · rw [htr1]; simp
        · exact hfront c
      | committed c root k w ht hm hroot hskip =>
        right
        refine ⟨st1.trace ++ [⟨.ostree_repo_stage_mtree, .ok (some c)⟩],
          [⟨.g_print (k ++ "\n"), .ok none⟩], ctx.branch,
          ctx.parent, ctx.subject, cl.opt_body, c, root, k, .ok none, ?_, ?_, Or.inr rfl⟩
        · rw [htr1]; simp
        · exact hfront c

/-- The two ways on from the finalisation, told apart by the trace: the
skip path is taken exactly under `skip_condition`, it calls nothing that
records a commit, and off the skip path a root with a metadata checksum is
followed by `ostree_repo_stage_commit`. -/
theorem skip_path_shape {σ : Type} (E : Env σ) (cl : Cmdline) (s : σ) (ctx : Ctx)
    (st st1 : St σ) (c : String) (w : σ)
    (hpre : preamble E cl s = .next ctx st)
    (hstage : stage_inputs E cl ctx st = .next () st1)
    (hcheck : st1.mode_adds = none ∨ st1.mode_adds = some [])
    (hm : E.ostree_repo_stage_mtree st1.world = (.ok c, w)) :
    (skip_condition cl ctx c (E.ostree_mutable_tree_get_metadata_checksum w) ↔
      ∃ r rest, (ostree_builtin_commit E cl s).trace
        = st1.trace ++ ⟨.ostree_repo_stage_mtree, .ok (some c)⟩ ::
            ⟨.ostree_repo_abort_transaction, r⟩ :: rest)
    ∧ (skip_condition cl ctx c (E.ostree_mutable_tree_get_metadata_checksum w) →
        ∃ p, ctx.parent = some p
          ∧ (∀ ev ∈ (ostree_builtin_commit E cl s).trace, ev.call.records_commit = false)
          ∧ (((ostree_builtin_commit E cl s).outcome = .success
              ∧ stdout_lines (ostree_builtin_commit E cl s).trace = [p ++ "\n"])
            ∨ (∃ e, (ostree_builtin_commit E cl s).outcome = .failure e
              ∧ ⟨.ostree_repo_abort_transaction, .err e⟩
                  ∈ (ostree_builtin_commit E cl s).trace
              ∧ stdout_lines (ostree_builtin_commit E cl s).trace = [])))
    ∧ (¬ skip_condition cl ctx c (E.ostree_mutable_tree_get_metadata_checksum w) →
        ∀ root, E.ostree_mutable_tree_get_metadata_checksum w = some root →
        ∃ r rest, (ostree_builtin_commit E cl s).trace
          = st1.trace ++ ⟨.ostree_repo_stage_mtree, .ok (some c)⟩ ::
              ⟨.ostree_repo_stage_commit ctx.branch ctx.parent ctx.subject cl.opt_body
                c root, r⟩ :: rest) := by
  rcases run_cases E cl s with
    ⟨e1, pre, c1, ⟨st0, hpre1⟩, _⟩ |
    ⟨ctx1, st0, pre, hpre1, htr, hok, hin, hdk, hctx, hcases⟩
  · rw [hpre] at hpre1
    cases hpre1
  · rw [hpre] at hpre1
    simp only [Flow.next.injEq] at hpre1
    obtain ⟨rfl, rfl⟩ := hpre1
    rcases hcases with
      ⟨e1, st2, evs, r, hs, _⟩ |
      ⟨hs, _⟩ |
      ⟨st2, evs, o, tail, hs, hst, hsok, htail, ho, htr1⟩
    · rw [hstage] at hs
      cases hs
    · rw [hstage] at hs
      cases hs
    · rw [hstage] at hs
      simp only [Flow.next.injEq, true_and] at hs
      subst hs
      have hbefore := fun ev hev => before_finish_kind htr hok hst hsok ev hev
      have hnolines : stdout_lines st1.trace = [] :=
        stdout_lines_nil_of_not_wrapup _ (fun ev hev => (hbefore ev hev).2)
      have hnorec : ∀ evs : List Event, (∀ ev ∈ evs, ev.call.records_commit = false) →
          ∀ ev ∈ st1.trace ++ evs, ev.call.records_commit = false := by
        intro evs h ev hev
        rcases List.mem_append.1 hev with hev | hev
        · exact records_commit_wrapup _ (hbefore ev hev).2
        · exact h ev hev
      have hparent : ∀ root, skip_condition cl ctx c root → ∃ p, ctx.parent = some p := by
        rintro root ⟨_, pc, hpc, _⟩
        exact (hctx.parent_of_commit pc hpc).2
      rw [ho, htr1]
      cases htail with
      | unmatched table r ht hne =>
        exfalso
        rcases hcheck with h | h <;> rw [h] at ht <;> simp_all
      | stage_mtree_failed e r ht hm1 =>
        exfalso
        rw [hm] at hm1
        cases hm1
      | null_metadata_compared c1 w1 ht hm1 hcmp hroot1 =>
        rw [hm] at hm1
        simp only [Prod.mk.injEq, Except.ok.injEq] at hm1
        obtain ⟨rfl, rfl⟩ := hm1
        have hskip : ¬ skip_condition cl ctx c
            (E.ostree_mutable_tree_get_metadata_checksum w) := by
          rw [hroot1]
          rintro ⟨_, pc, _, _, h⟩
          cases h
        refine ⟨⟨fun h => absurd h hskip, ?_⟩, fun h => absurd h hskip, ?_⟩
        · rintro ⟨r1, rest, h⟩
          simp at h
        · intro _ root hroot
          rw [hroot1] at hroot
          cases hroot
      | skip_abort_failed c1 w1 e r ht hm1 hskip =>
        rw [hm] at hm1
        simp only [Prod.mk.injEq, Except.ok.injEq] at hm1
        obtain ⟨rfl, rfl⟩ := hm1
        refine ⟨⟨fun _ => ⟨_, _, rfl⟩, fun _ => hskip⟩, fun _ => ?_, fun h => absurd hskip h⟩
        obtain ⟨p, hp⟩ := hparent _ hskip
        refine ⟨p, hp, hnorec _ (by simp [Call.records_commit]), Or.inr ⟨e, rfl, by simp, ?_⟩⟩
        simp [stdout_lines_append, hnolines, stdout_lines]
      | skipped c1 w1 ht hm1 hskip =>
        rw [hm] at hm1
        simp only [Prod.mk.injEq, Except.ok.injEq] at hm1
        obtain ⟨rfl, rfl⟩ := hm1
        refine ⟨⟨fun _ => ⟨_, _, rfl⟩, fun _ => hskip⟩, fun _ => ?_, fun h => absurd hskip h⟩
        obtain ⟨p, hp⟩ := hparent _ hskip
        refine ⟨p, hp, hnorec _ (by simp [Call.records_commit]), Or.inl ⟨rfl, ?_⟩⟩
        simp [stdout_lines_append, hnolines, stdout_lines, hp]
      | empty_tree c1 w1 r ht hm1 hcmp hroot1 =>
        rw [hm] at hm1
        simp only [Prod.mk.injEq, Except.ok.injEq] at hm1
        obtain ⟨rfl, rfl⟩ := hm1
        have hskip : ¬ skip_condition cl ctx c
            (E.ostree_mutable_tree_get_metadata_checksum w) := by
          rw [hroot1]
          rintro ⟨_, pc, _, _, h⟩
          cases h
        refine ⟨⟨fun h => absurd h hskip, ?_⟩, fun h => absurd h hskip, ?_⟩
        · rintro ⟨r1, rest, h⟩
          simp at h
        · intro _ root hroot
          rw [hroot1] at hroot
          cases hroot
      | stage_commit_failed c1 root1 w1 e r ht hm1 hroot1 hskip =>
        rw [hm] at hm1
        simp only [Prod.mk.injEq, Except.ok.injEq] at hm1
        obtain ⟨rfl, rfl⟩ := hm1
        rw [hroot1]
        refine ⟨⟨fun h => absurd h hskip, ?_⟩, fun h => absurd h hskip, ?_⟩
        · rintro ⟨r1, rest, h⟩
          simp at h
        · intro _ root hroot
          cases hroot
          exact ⟨_, _, rfl⟩
      | commit_transaction_failed c1 root1 k w1 e r ht hm1 hroot1 hskip =>
        rw [hm] at hm1
        simp only [Prod.mk.injEq, Except.ok.injEq] at hm1
        obtain ⟨rfl, rfl⟩ := hm1
        rw [hroot1]
        refine ⟨⟨fun h => absurd h hskip, ?_⟩, fun h => absurd h hskip, ?_⟩
        · rintro ⟨r1, rest, h⟩
          simp at h
        · intro _ root hroot
          cases hroot
          exact ⟨_, _, rfl⟩
      | write_ref_failed c1 root1 k w1 e ht hm1 hroot1 hskip =>
        rw [hm] at hm1
        simp only [Prod.mk.injEq, Except.ok.injEq] at hm1
        obtain ⟨rfl, rfl⟩ := hm1
        rw [hroot1]
        refine ⟨⟨fun h => absurd h hskip, ?_⟩, fun h => absurd h hskip, ?_⟩
        · rintro ⟨r1, rest, h⟩
          simp at h
        · intro _ root hroot
          cases hroot
          exact ⟨_, _, rfl⟩
      | committed c1 root1 k w1 ht hm1 hroot1 hskip =>
        rw [hm] at hm1
        simp only [Prod.mk.injEq, Except.ok.injEq] at hm1
        obtain ⟨rfl, rfl⟩ := hm1
        rw [hroot1]
        refine ⟨⟨fun h => absurd h hskip, ?_⟩, fun h => absurd h hskip, ?_⟩
        · rintro ⟨r1, rest, h⟩
          simp at h
        · intro _ root hroot
          cases hroot
          exact ⟨_, _, rfl⟩

/-- C3 (amended). Take a run in which the preamble and the staging of the
inputs succeed, no stat-override entry is left and
`ostree_repo_stage_mtree` returns the contents checksum `c`, leaving the
world `w`.  The driver takes the skip path (the finalisation is followed at
once by `ostree_repo_abort_transaction`) if and only if
`--skip-if-unchanged` is set, a parent commit was loaded, and the pair of
`c` and the root metadata checksum is the pair recorded in it.  On the skip
path none of `ostree_repo_stage_commit`, `ostree_repo_commit_transaction`
and `ostree_repo_write_ref` is called and the branch has a parent `p`; when
the abort succeeds the driver succeeds and stdout is the one line `p`; when
the abort fails with `e` the driver fails with `e`, aborts once more and
prints nothing.  Off the skip path, when the root has a metadata checksum
`root`, `ostree_repo_stage_commit` is called with the parent, `c` and
`root`; the commit is recorded when that call (returning `k`),
`ostree_repo_commit_transaction` and `ostree_repo_write_ref` of `k`
succeed, and then the driver succeeds and prints `k`; when one of the three
fails the driver stops there and fails with its error, aborting the
transaction if it is still open. -/
theorem skip_if_unchanged_path {σ : Type} (E : Env σ) (cl : Cmdline) (s : σ) (ctx : Ctx)
    (st st1 : St σ) (c : String) (w : σ)
    (hpre : preamble E cl s = .next ctx st)
    (hstage : stage_inputs E cl ctx st = .next () st1)
    (hcheck : st1.mode_adds = none ∨ st1.mode_adds = some [])
    (hm : E.ostree_repo_stage_mtree st1.world = (.ok c, w)) :
    (skip_condition cl ctx c (E.ostree_mutable_tree_get_metadata_checksum w) ↔
      ∃ r rest, (ostree_builtin_commit E cl s).trace
        = st1.trace ++ ⟨.ostree_repo_stage_mtree, .ok (some c)⟩ ::
            ⟨.ostree_repo_abort_transaction, r⟩ :: rest)
    ∧ (skip_condition cl ctx c (E.ostree_mutable_tree_get_metadata_checksum w) →
        ∃ p, ctx.parent = some p
          ∧ (∀ ev ∈ (ostree_builtin_commit E cl s).trace, ev.call.records_commit = false)
          ∧ (∀ w1, E.ostree_repo_abort_transaction w = (.ok (), w1) →
              (ostree_builtin_commit E cl s).outcome = .success
              ∧ (ostree_builtin_commit E cl s).trace
                  = st1.trace ++ [⟨.ostree_repo_stage_mtree, .ok (some c)⟩,
                      ⟨.ostree_repo_abort_transaction, .ok none⟩,
                      ⟨.g_print (p ++ "\n"), .ok none⟩]
              ∧ stdout_lines (ostree_builtin_commit E cl s).trace = [p ++ "\n"])
          ∧ (∀ e w1, E.ostree_repo_abort_transaction w = (.error e, w1) →
              (ostree_builtin_commit E cl s).outcome = .failure e
              ∧ (∃ r, (ostree_builtin_commit E cl s).trace
                  = st1.trace ++ [⟨.ostree_repo_stage_mtree, .ok (some c)⟩,
                      ⟨.ostree_repo_abort_transaction, .err e⟩,
                      ⟨.ostree_repo_abort_transaction, r⟩])
              ∧ stdout_lines (ostree_builtin_commit E cl s).trace = []))
    ∧ (¬ skip_condition cl ctx c (E.ostree_mutable_tree_get_metadata_checksum w) →
        ∀ root, E.ostree_mutable_tree_get_metadata_checksum w = some root →
        (∀ e w2, E.ostree_repo_stage_commit ctx.branch ctx.parent ctx.subject cl.opt_body
            c root w = (.error e, w2) →
          (ostree_builtin_commit E cl s).outcome = .failure e
          ∧ ∃ r, (ostree_builtin_commit E cl s).trace
              = st1.trace ++ [⟨.ostree_repo_stage_mtree, .ok (some c)⟩,
                  ⟨.ostree_repo_stage_commit ctx.branch ctx.parent ctx.subject cl.opt_body
                    c root, .err e⟩,
                  ⟨.ostree_repo_abort_transaction, r⟩])
        ∧ (∀ k w2, E.ostree_repo_stage_commit ctx.branch ctx.parent ctx.subject cl.opt_body
            c root w = (.ok k, w2) →
          (∀ e w3, E.ostree_repo_commit_transaction w2 = (.error e, w3) →
            (ostree_builtin_commit E cl s).outcome = .failure e
            ∧ ∃ r, (ostree_builtin_commit E cl s).trace
                = st1.trace ++ [⟨.ostree_repo_stage_mtree, .ok (some c)⟩,
                    ⟨.ostree_repo_stage_commit ctx.branch ctx.parent ctx.subject
                      cl.opt_body c root, .ok (some k)⟩,
                    ⟨.ostree_repo_commit_transaction, .err e⟩,
                    ⟨.ostree_repo_abort_transaction, r⟩])
          ∧ (∀ w3, E.ostree_repo_commit_transaction w2 = (.ok (), w3) →
            (∀ w4, E.ostree_repo_write_ref ctx.branch k w3 = (.ok (), w4) →
              (ostree_builtin_commit E cl s).outcome = .success
              ∧ (ostree_builtin_commit E cl s).trace
                  = st1.trace ++ [⟨.ostree_repo_stage_mtree, .ok (some c)⟩,
                      ⟨.ostree_repo_stage_commit ctx.branch ctx.parent ctx.subject
                        cl.opt_body c root, .ok (some k)⟩,
                      ⟨.ostree_repo_commit_transaction, .ok none⟩,
                      ⟨.ostree_repo_write_ref ctx.branch k, .ok none⟩,
                      ⟨.g_print (k ++ "\n"), .ok none⟩])
            ∧ (∀ e w4, E.ostree_repo_write_ref ctx.branch k w3 = (.error e, w4) →
              (ostree_builtin_commit E cl s).outcome = .failure e
              ∧ (ostree_builtin_commit E cl s).trace
                  = st1.trace ++ [⟨.ostree_repo_stage_mtree, .ok (some c)⟩,
                      ⟨.ostree_repo_stage_commit ctx.branch ctx.parent ctx.subject
                        cl.opt_body c root, .ok (some k)⟩,
                      ⟨.ostree_repo_commit_transaction, .ok none⟩,
                      ⟨.ostree_repo_write_ref ctx.branch k, .err e⟩])))) := by
  obtain ⟨hiff, hskip_shape, _⟩ := skip_path_shape E cl s ctx st st1 c w hpre hstage hcheck hm
  obtain ⟨hrun, hin, hbefore, _⟩ := reaches_finish E cl s ctx st st1 hpre hstage
  have hnolines : stdout_lines st1.trace = [] :=
    stdout_lines_nil_of_not_wrapup _ (fun ev hev => (hbefore ev hev).2)
  have hfin := finish_after_mtree E cl ctx st1 c w hcheck hm
  refine ⟨hiff, ?_, ?_⟩
  · intro hskip
    obtain ⟨p, hp, hnorec, _⟩ := hskip_shape hskip
    have hsc := skip_check_true E cl ctx c
      (st1.record .ostree_repo_stage_mtree (.ok (some c)) w) hskip
    have hrun1 : ostree_builtin_commit E cl s
        = finish_run E (skip_commit_path E ctx
            (st1.record .ostree_repo_stage_mtree (.ok (some c)) w)) := by
      rw [hrun, hfin, hsc]
      simp [Flow.bind]
    refine ⟨p, hp, hnorec, ?_, ?_⟩
    · intro w1 ha
      obtain ⟨h1, h2⟩ := skip_path_abort_ok E ctx
        (st1.record .ostree_repo_stage_mtree (.ok (some c)) w) w1 ha
      rw [hrun1, h1, h2]
      refine ⟨rfl, by simp [St.record, hp], ?_⟩
      simp [St.record, stdout_lines_append, hnolines, stdout_lines, hp]
    · intro e w1 ha
      obtain ⟨h1, r, h2⟩ := skip_path_abort_err E ctx
        (st1.record .ostree_repo_stage_mtree (.ok (some c)) w) e w1 hin ha
      rw [hrun1, h1, h2]
      refine ⟨rfl, ⟨r, by simp [St.record]⟩, ?_⟩
      simp [St.record, stdout_lines_append, hnolines, stdout_lines]
  · intro hskip root hroot
    have hsc := skip_check_false E cl ctx c
      (st1.record .ostree_repo_stage_mtree (.ok (some c)) w) root hroot hskip
    have hrun1 : ostree_builtin_commit E cl s
        = finish_run E (record_commit E cl ctx c
            (st1.record .ostree_repo_stage_mtree (.ok (some c)) w)) := by
      rw [hrun, hfin, hsc]
      simp [Flow.bind]
    refine ⟨?_, ?_⟩
    · intro e w2 h
      obtain ⟨h1, r, h2⟩ := record_commit_stage_err E cl ctx
        (st1.record .ostree_repo_stage_mtree (.ok (some c)) w) c root e w2 hin hroot h
      rw [hrun1, h1, h2]
      exact ⟨rfl, r, by simp [St.record]⟩
    · intro k w2 h
      refine ⟨?_, ?_⟩
      · intro e w3 h3
        obtain ⟨h1, r, h2⟩ := record_commit_transaction_err E cl ctx
          (st1.record .ostree_repo_stage_mtree (.ok (some c)) w) c root k e w2 w3 hin
          hroot h h3
        rw [hrun1, h1, h2]
        exact ⟨rfl, r, by simp [St.record]⟩
      · intro w3 h3
        obtain ⟨hok, herr⟩ := record_commit_write_ref E cl ctx
          (st1.record .ostree_repo_stage_mtree (.ok (some c)) w) c root k w2 w3 hroot h h3
        refine ⟨?_, ?_⟩
        · intro w4 h4
          obtain ⟨h1, h2⟩ := hok w4 h4
          rw [hrun1, h1, h2]
          exact ⟨rfl, by simp [St.record]⟩
        · intro e w4 h4
          obtain ⟨h1, h2⟩ := herr e w4 h4
          rw [hrun1, h1, h2]
          exact ⟨rfl, by simp [St.record]⟩

/-- C4. Take a run whose preamble succeeds with the loaded table `table`
and whose staging of the inputs succeeds.  If `table` lists the path `p`
and no `commit_filter` call of the run was made with `p`, then `p` is still
in the table after staging; the keys left in the table are pairwise
distinct and the driver prints one diagnostic line for each of them, sets
the error "Unmatched statoverride paths", aborts the transaction and
returns that failure; and the run calls none of `ostree_repo_stage_mtree`,
`ostree_repo_stage_commit`, `ostree_repo_commit_transaction` and
`ostree_repo_write_ref`. -/
theorem unmatched_statoverride_fails {σ : Type} (E : Env σ) (cl : Cmdline) (s : σ)
    (ctx : Ctx) (st st1 : St σ) (table : Table) (p : String)
    (hpre : preamble E cl s = .next ctx st)
    (htable : st.mode_adds = some table) (hp : p ∈ table.keys)
    (hstage : stage_inputs E cl ctx st = .next () st1)
    (hno : p ∉ filtered_paths (ostree_builtin_commit E cl s).trace) :
    ∃ table1 r, st1.mode_adds = some table1 ∧ p ∈ table1.keys ∧ table1.keys.Nodup
      ∧ (ostree_builtin_commit E cl s).outcome = .failure "Unmatched statoverride paths"
      ∧ (ostree_builtin_commit E cl s).trace
          = st1.trace ++ unmatched_events table1.keys ++
            [⟨.g_set_error "Unmatched statoverride paths",
                .err "Unmatched statoverride paths"⟩,
              ⟨.ostree_repo_abort_transaction, r⟩]
      ∧ ∀ ev ∈ (ostree_builtin_commit E cl s).trace,
          ev.call ≠ .ostree_repo_stage_mtree ∧ ev.call.records_commit = false := by
  have hno := not_filtered_of_paths _ p hno
  rcases run_cases E cl s with
    ⟨e1, pre, c1, ⟨st0, hpre1⟩, _⟩ |
    ⟨ctx1, st0, pre, hpre1, htr, hok, hin, hdk, hctx, hcases⟩
  · rw [hpre] at hpre1
    cases hpre1
  · rw [hpre] at hpre1
    simp only [Flow.next.injEq] at hpre1
    obtain ⟨rfl, rfl⟩ := hpre1
    rcases hcases with
      ⟨e1, st2, evs, r, hs, _⟩ |
      ⟨hs, _⟩ |
      ⟨st2, evs, o, tail, hs, hst, hsok, htail, ho, htr1⟩
    · rw [hstage] at hs
      cases hs
    · rw [hstage] at hs
      cases hs
    · rw [hstage] at hs
      simp only [Flow.next.injEq, true_and] at hs
      subst hs
      have hkey : has_key st1.mode_adds p := by
        apply hst.keys p ⟨table, htable, hp⟩
        intro ev hev info
        apply hno ev
        rw [htr1, hst.trace]
        simp [hev]
      obtain ⟨table1, ht1, hp1⟩ := hkey
      have hcontra : ¬ (st1.mode_adds = none ∨ st1.mode_adds = some []) := by
        rintro (h | h)
        · rw [h] at ht1
          cases ht1
        · rw [h] at ht1
          simp only [Option.some.injEq] at ht1
          subst ht1
          simp [Table.keys] at hp1
      have hbefore := fun ev hev => before_finish_kind htr hok hst hsok ev hev
      cases htail with
      | unmatched table2 r ht hne =>
        have ht2 : table2 = table1 := by
          rw [ht1] at ht
          exact (Option.some.inj ht).symm
        subst ht2
        refine ⟨table2, r, ht1, hp1, hst.distinct hdk _ ht1, ho, by rw [htr1]; simp, ?_⟩
        intro ev hev
        rw [htr1] at hev
        simp only [unmatched_events, List.mem_append, List.mem_map, List.mem_cons,
          List.mem_singleton, List.not_mem_nil, or_false] at hev
        rcases hev with hev | ⟨key, _, rfl⟩ | rfl | rfl
        · have h1 := (hbefore ev hev).2
          obtain ⟨c, r1⟩ := ev
          cases c <;> simp_all [Call.is_wrapup, Call.records_commit]
        · simp [Call.records_commit]
        · simp [Call.records_commit]
        · simp [Call.records_commit]
      | stage_mtree_failed e r ht hm1 => exact absurd ht hcontra
      | null_metadata_compared c1 w1 ht hm1 hcmp hroot1 => exact absurd ht hcontra
      | skip_abort_failed c1 w1 e r ht hm1 hskip => exact absurd ht hcontra
      | skipped c1 w1 ht hm1 hskip => exact absurd ht hcontra
      | empty_tree c1 w1 r ht hm1 hcmp hroot1 => exact absurd ht hcontra
      | stage_commit_failed c1 root1 w1 e r ht hm1 hroot1 hskip => exact absurd ht hcontra
      | commit_transaction_failed c1 root1 k w1 e r ht hm1 hroot1 hskip =>
        exact absurd ht hcontra
      | write_ref_failed c1 root1 k w1 e ht hm1 hroot1 hskip => exact absurd ht hcontra
      | committed c1 root1 k w1 ht hm1 hroot1 hskip => exact absurd ht hcontra

theorem filter_staging_nil (l : List Event) (h : ∀ ev ∈ l, ev.call.is_staging = false) :
    l.filter (fun ev => ev.call.is_staging) = [] := by
  rw [List.filter_eq_nil_iff]
  intro ev hev
  simp [h ev hev]

theorem filter_staging_self (l : List Event) (h : ∀ ev ∈ l, ev.call.is_staging = true) :
    l.filter (fun ev => ev.call.is_staging) = l := by
  rw [List.filter_eq_self]
  exact h

theorem not_staging_of_wrapup (c : Call) (h : c.is_wrapup = true) :
    c.is_staging = false := by
  cases c <;> simp_all [Call.is_wrapup, Call.is_staging]

theorem filter_staging_before {σ : Type} {cl : Cmdline} {st : St σ} {pre : List Event}
    (htr : st.trace = pre ++ [prepare_ok cl]) (hok : SetupOk pre) :
    st.trace.filter (fun ev => ev.call.is_staging) = [] := by
  apply filter_staging_nil
  intro ev hev
  rw [htr] at hev
  rcases List.mem_append.1 hev with hev | hev
  · exact (hok.setup_event ev hev).2.2.1
  · simp only [List.mem_singleton] at hev
    subst hev
    rfl

/-- C7. Take a non-empty list of well-formed `--tree` values and a run
whose preamble succeeds.  If the staging phase succeeds, the staging events
of the whole run are, in argument order, one block for each value: for
`dir=P` the filter calls and the staging of directory `P`, for `tar=P` the
filter calls and the staging of archive `P` with the value of
`--tar-autocreate-parents`, for `ref=R` the reading of commit `R`, the
filter calls and the staging of the root that was read; each with the
modifier of the run.  If the staging phase fails with `e`, the values
split as `pre`, `t`, `post`: the staging events of the run are the blocks
of `pre`, then the failing block of `t` that ends with the failed call,
and nothing for `post`; the driver returns the failure `e`. -/
theorem trees_staged_in_order {σ : Type} (E : Env σ) (cl : Cmdline) (s : σ) (ctx : Ctx)
    (st : St σ) (trees : List String)
    (hopt : cl.opt_trees = some trees) (hne : trees ≠ [])
    (hwf : ∀ t ∈ trees, well_formed_tree t)
    (hpre : preamble E cl s = .next ctx st) :
    (∀ st1, stage_inputs E cl ctx st = .next () st1 →
      ∃ blocks, List.Forall₂ (TreeStaged cl ctx) trees blocks
        ∧ st1.trace = st.trace ++ blocks.flatten
        ∧ (ostree_builtin_commit E cl s).trace.filter (fun ev => ev.call.is_staging)
            = blocks.flatten)
    ∧ (∀ e st1, stage_inputs E cl ctx st = .goto_out e st1 →
      ∃ pre t post blocks fblock, trees = pre ++ t :: post
        ∧ List.Forall₂ (TreeStaged cl ctx) pre blocks
        ∧ TreeFailed cl ctx t e fblock
        ∧ (∀ ev ∈ fblock, ev.call.is_staging = true)
        ∧ (ostree_builtin_commit E cl s).trace.filter (fun ev => ev.call.is_staging)
            = blocks.flatten ++ fblock
        ∧ (ostree_builtin_commit E cl s).outcome = .failure e)
    ∧ (∀ st1, stage_inputs E cl ctx st ≠ .null_deref st1) := by
  have hsi := stage_inputs_trees E cl ctx st trees hopt hne
  rcases run_cases E cl s with
    ⟨e1, pre, c1, ⟨st0, hpre1⟩, _⟩ |
    ⟨ctx1, st0, pre, hpre1, htr, hok, hin, hdk, hctx, hcases⟩
  · rw [hpre] at hpre1
    cases hpre1
  · rw [hpre] at hpre1
    simp only [Flow.next.injEq] at hpre1
    obtain ⟨rfl, rfl⟩ := hpre1
    have hbefore := filter_staging_before htr hok
    refine ⟨?_, ?_, ?_⟩
    · intro st1 h
      obtain ⟨blocks, hb, hs⟩ := stage_trees_next E cl ctx trees st st1 () (hsi ▸ h)
      refine ⟨blocks, hb, hs.trace, ?_⟩
      rcases hcases with
        ⟨e1, st2, evs, r, hs2, _⟩ |
        ⟨hs2, _⟩ |
        ⟨st2, evs, o, tail, hs2, hst, hsok, htail, ho, htr1⟩
      · rw [h] at hs2
        cases hs2
      · rw [h] at hs2
        cases hs2
      · rw [h] at hs2
        simp only [Flow.next.injEq, true_and] at hs2
        subst hs2
        rw [htr1, hs.trace, List.filter_append, List.filter_append, hbefore,
          filter_staging_self _ (fun ev hev => ((blocks_staging_ok hb) ev hev).2),
          filter_staging_nil _ (fun ev hev => not_staging_of_wrapup _ (htail.wrapup ev hev))]
        simp
    · intro e st1 h
      obtain ⟨pre1, t, post, blocks, fblock, hsplit, hb, hf, hs⟩ :=
        stage_trees_out E cl ctx trees st st1 e (hsi ▸ h)
      have hstag := hf.staging_only (hwf t (by rw [hsplit]; simp))
      refine ⟨pre1, t, post, blocks, fblock, hsplit, hb, hf, hstag, ?_⟩
      rcases hcases with
        ⟨e1, st2, evs, r, hs2, hst, _, ho, htr1⟩ |
        ⟨hs2, _⟩ |
        ⟨st2, evs, o, tail, hs2, _⟩
      · rw [h] at hs2
        simp only [Flow.goto_out.injEq] at hs2
        obtain ⟨rfl, rfl⟩ := hs2
        refine ⟨?_, ho⟩
        rw [htr1, hs.trace, List.filter_append, List.filter_append, List.filter_append,
          hbefore,
          filter_staging_self _ (fun ev hev => ((blocks_staging_ok hb) ev hev).2),
          filter_staging_self _ hstag]
        simp [Call.is_staging]
      · rw [h] at hs2
        cases hs2
      · rw [h] at hs2
        cases hs2
    · intro st1 h
      rw [hsi] at h
      exact stage_trees_not_null _ _ _ _ _ _ h

/-- C9 (amended). When some `--tree` value is bad (no `=`, or a kind other
than `dir`, `tar` and `ref`), the driver never succeeds.  The value is only
looked at inside the staging loop: in a run whose preamble succeeds and in
which the values `pre` that come before the first bad value `bad` are
staged with success, `ostree_repo_prepare_transaction` has been called, the
values of `pre` have been staged in order, one block each, then the driver
sets the invalid-tree error for `bad`, stages nothing of `post`, aborts the
transaction and returns that failure. -/
theorem invalid_tree_spec_fails {σ : Type} (E : Env σ) (cl : Cmdline) (s : σ)
    (pre : List String) (bad : String) (post : List String)
    (hopt : cl.opt_trees = some (pre ++ bad :: post)) (hbad : bad_tree bad) :
    (ostree_builtin_commit E cl s).outcome ≠ .success
    ∧ ∀ ctx st st1, preamble E cl s = .next ctx st →
        stage_trees E cl ctx pre st = .next () st1 →
        ∃ blocks r, List.Forall₂ (TreeStaged cl ctx) pre blocks
          ∧ prepare_ok cl ∈ st.trace
          ∧ (ostree_builtin_commit E cl s).outcome = .failure (invalid_tree_error bad)
          ∧ (ostree_builtin_commit E cl s).trace
              = st.trace ++ blocks.flatten ++
                [⟨.g_set_error (invalid_tree_error bad), .err (invalid_tree_error bad)⟩,
                  ⟨.ostree_repo_abort_transaction, r⟩] := by
  have hne : pre ++ bad :: post ≠ [] := by simp
  have hsi := fun ctx st => stage_inputs_trees E cl ctx st _ hopt hne
  rcases run_cases E cl s with
    ⟨e1, pre0, c1, ⟨st0, hpre1⟩, ho, _⟩ |
    ⟨ctx1, st0, pre0, hpre1, htr, hok, hin, hdk, hctx, hcases⟩
  · refine ⟨by rw [ho]; simp, ?_⟩
    intro ctx st st1 hpre
    rw [hpre] at hpre1
    cases hpre1
  · refine ⟨?_, ?_⟩
    · rcases hcases with
        ⟨e1, st2, evs, r, hs2, hst, _, ho, htr1⟩ |
        ⟨hs2, _, _, ho, _⟩ |
        ⟨st2, evs, o, tail, hs2, _⟩
      · rw [ho]; simp
      · rw [ho]; simp
      · exfalso
        rw [hsi] at hs2
        obtain ⟨blocks, hb, _⟩ := stage_trees_next _ _ _ _ _ _ _ hs2
        exact bad_tree_not_well_formed bad hbad (blocks_well_formed hb bad (by simp))
    · intro ctx st st1 hpre hstage
      rw [hpre] at hpre1
      simp only [Flow.next.injEq] at hpre1
      obtain ⟨rfl, rfl⟩ := hpre1
      obtain ⟨blocks, hb, hs⟩ := stage_trees_next _ _ _ _ _ _ _ hstage
      have hfail : stage_inputs E cl ctx st
          = fail_with (invalid_tree_error bad) st1 := by
        rw [hsi, stage_trees_append, hstage]
        simp only [Flow.bind, stage_trees]
        rw [stage_tree_bad _ _ _ _ _ hbad]
        rfl
      rcases hcases with
        ⟨e1, st2, evs, r, hs2, hst, _, ho, htr1⟩ |
        ⟨hs2, _⟩ |
        ⟨st2, evs, o, tail, hs2, _⟩
      · rw [hfail] at hs2
        simp only [fail_with, Flow.goto_out.injEq] at hs2
        obtain ⟨rfl, rfl⟩ := hs2
        refine ⟨blocks, r, hb, by rw [htr]; simp, ho, ?_⟩
        rw [htr1]
        simp [St.record, hs.trace]
      · rw [hfail] at hs2
        cases hs2
      · rw [hfail] at hs2
        cases hs2

/-- C8. Take any buffer loaded from the stat-override file; its lines are
those of the C string it starts (up to the first NUL), as `g_strsplit`
cuts them.  If each line that begins with `+` has a space,
`parse_statoverride_file` succeeds with a table such that: for a line
`+D P`, with `D` a non-empty run of ASCII decimal digits of value below
2^31 and `P` everything after the first space, when no later `+` line has
the path `P`, the table maps `P` to the base-ten value of `D` (a leading
zero does not make it octal); and every key of the table is the path of
some `+` line of the C string, without NUL or newline, so that the other
lines and whatever follows a NUL add no entry. -/
theorem parse_statoverride_file_decimal (fp : List Char → Nat) (contents : List Char)
    (hsp : ∀ line ∈ g_strsplit_newline contents, ∀ rest, line = '+' :: rest → ' ' ∈ rest) :
    ∃ table, parse_statoverride_file fp (.ok contents) = .ok table
      ∧ (∀ pre D P post,
          g_strsplit_newline contents = pre ++ ('+' :: (D ++ ' ' :: P)) :: post →
          D ≠ [] → (∀ c ∈ D, c.isDigit = true) → decimal_value D < 2147483648 →
          (∀ line ∈ post, ∀ rest, line = '+' :: rest → after_first_space rest ≠ P) →
          table.lookup (String.mk P) = some (decimal_value D))
      ∧ (∀ key ∈ table.keys, ∃ rest, ('+' :: rest) ∈ g_strsplit_newline contents
          ∧ key = String.mk (after_first_space rest)
          ∧ Char.ofNat 0 ∉ key.data ∧ '\n' ∉ key.data)
      ∧ List.intercalate ['\n'] (g_strsplit_newline contents) = c_string contents := by
  obtain ⟨table, ht⟩ := parse_lines_ok fp (g_strsplit_newline contents) [] hsp
  refine ⟨table, ht, ?_, ?_, ?_⟩
  · intro pre D P post hsplit hne hd hv hlater
    rw [hsplit, parse_lines_append] at ht
    cases h1 : parse_statoverride_lines fp pre [] with
    | error e =>
      rw [h1] at ht
      cases ht
    | ok t1 =>
      rw [h1] at ht
      simp only at ht
      rw [parse_lines_cons_plus, if_pos (by simp)] at ht
      rw [parse_lines_lookup fp post _ table P ht hlater, Table.lookup_insert,
        after_first_space_digits D P hd, strtod_guint32_decimal fp D P hne hd hv]
      simp
  · intro key hkey
    rcases parse_lines_keys fp _ [] table ht key hkey with h | ⟨rest, hrest, hk⟩
    · simp [Table.keys] at h
    · obtain ⟨h0, hn⟩ := g_strsplit_newline_lines contents _ hrest
      refine ⟨rest, hrest, hk, ?_, ?_⟩
      · rw [hk]
        intro hc
        exact h0 (List.mem_cons_of_mem _ (after_first_space_mem rest _ hc))
      · rw [hk]
        intro hc
        exact hn (List.mem_cons_of_mem _ (after_first_space_mem rest _ hc))
  · unfold g_strsplit_newline
    split
    · rename_i h
      rw [h]
      rfl
    · exact (split_newline_spec _).1

/-! ## The claims on concrete runs -/

/-- Counterexample to C3 as stated, on three runs in which staging and
finalisation succeed.  In `empty_tree_env`, off the skip path, the root has
no metadata checksum and no commit is recorded: the driver fails with the
empty-tree error.  In `stage_commit_fails_env`, off the skip path,
`ostree_repo_stage_commit` fails and no commit is recorded.  In
`abort_fails_env` the skip path is taken but the abort fails, and nothing
is printed. -/
theorem skip_or_commit_counterexample :
    (⟨.ostree_repo_stage_mtree, .ok (some "c1")⟩
        ∈ (ostree_builtin_commit empty_tree_env demo_cmdline ()).trace
      ∧ demo_cmdline.opt_skip_if_unchanged = false
      ∧ (∀ ev ∈ (ostree_builtin_commit empty_tree_env demo_cmdline ()).trace,
          ev.call.records_commit = false)
      ∧ (ostree_builtin_commit empty_tree_env demo_cmdline ()).outcome
          = .failure "Can\x27t commit an empty tree")
    ∧ ((ostree_builtin_commit stage_commit_fails_env demo_cmdline ()).trace
          = demo_setup_trace ++
            [⟨.ostree_repo_stage_directory_to_mtree (.for_path "/cwd") none, .ok none⟩,
              ⟨.ostree_repo_stage_mtree, .ok (some "c1")⟩,
              ⟨.ostree_repo_stage_commit "main" (some "p0") "first" none "c1" "m1",
                .err "stage failed"⟩,
              ⟨.ostree_repo_abort_transaction, .ok none⟩]
      ∧ (ostree_builtin_commit stage_commit_fails_env demo_cmdline ()).outcome
          = .failure "stage failed")
    ∧ ((ostree_builtin_commit abort_fails_env skip_cmdline ()).trace
          = skip_st1.trace ++
            [⟨.ostree_repo_stage_mtree, .ok (some "c0")⟩,
              ⟨.ostree_repo_abort_transaction, .err "abort failed"⟩,
              ⟨.ostree_repo_abort_transaction, .err "abort failed"⟩]
      ∧ stdout_lines (ostree_builtin_commit abort_fails_env skip_cmdline ()).trace = []
      ∧ (ostree_builtin_commit abort_fails_env skip_cmdline ()).outcome
          = .failure "abort failed") := by
  decide

/-- Witness of C3 (amended): in `unchanged_env` with `--skip-if-unchanged`
the staged pair is the pair of the parent commit, the skip path is taken,
the abort succeeds and the one line printed is the parent `p0`; in
`abort_fails_env` the driver fails with the error of the abort. -/
theorem skip_if_unchanged_path_witness :
    skip_condition skip_cmdline skip_ctx "c0" (some "m0")
    ∧ (∃ p, skip_ctx.parent = some p
        ∧ (ostree_builtin_commit unchanged_env skip_cmdline ()).outcome = .success
        ∧ stdout_lines (ostree_builtin_commit unchanged_env skip_cmdline ()).trace
            = [p ++ "\n"])
    ∧ (ostree_builtin_commit abort_fails_env skip_cmdline ()).outcome
        = .failure "abort failed" := by
  have hskip : skip_condition skip_cmdline skip_ctx "c0" (some "m0") :=
    ⟨rfl, ⟨"c0", "m0"⟩, rfl, rfl, rfl⟩
  obtain ⟨p, hp, _, hok, _⟩ :=
    (skip_if_unchanged_path unchanged_env skip_cmdline () skip_ctx skip_st skip_st1 "c0"
      () rfl rfl (Or.inl rfl) rfl).2.1 hskip
  obtain ⟨_, _, _, _, herr⟩ :=
    (skip_if_unchanged_path abort_fails_env skip_cmdline () skip_ctx skip_st skip_st1 "c0"
      () rfl rfl (Or.inl rfl) rfl).2.1 hskip
  exact ⟨hskip, ⟨p, hp, (hok () rfl).1, (hok () rfl).2.2⟩, (herr "abort failed" () rfl).1⟩

/-- Witness of C4: with the two-line stat-override file, `/nope` is never
visited and the run fails with the unmatched-path error. -/
theorem unmatched_statoverride_fails_witness :
    "/nope" ∉ filtered_paths (ostree_builtin_commit demo_env statoverride_cmdline ()).trace
    ∧ ∃ table1 r, statoverride_st1.mode_adds = some table1 ∧ "/nope" ∈ table1.keys
      ∧ table1.keys.Nodup
      ∧ (ostree_builtin_commit demo_env statoverride_cmdline ()).outcome
          = .failure "Unmatched statoverride paths"
      ∧ (ostree_builtin_commit demo_env statoverride_cmdline ()).trace
          = statoverride_st1.trace ++ unmatched_events table1.keys ++
            [⟨.g_set_error "Unmatched statoverride paths",
                .err "Unmatched statoverride paths"⟩,
              ⟨.ostree_repo_abort_transaction, r⟩]
      ∧ ∀ ev ∈ (ostree_builtin_commit demo_env statoverride_cmdline ()).trace,
          ev.call ≠ .ostree_repo_stage_mtree ∧ ev.call.records_commit = false :=
  ⟨by decide,
    unmatched_statoverride_fails demo_env statoverride_cmdline () statoverride_ctx
      statoverride_st statoverride_st1 [("/bin/sh", 111), ("/nope", 700)] "/nope" rfl rfl
      (by decide) rfl (by decide)⟩

/-- Witness of C5: uid 5 is imposed, the gid is left alone, and the mask 73
of `/x` is or-ed into the mode 420. -/
theorem commit_filter_result_witness :
    (commit_filter 5 (-1) "/x" [("unix::mode", 420), ("unix::gid", 7)]
        (some [("/x", 73), ("/y", 1)])).verdict = .OSTREE_REPO_COMMIT_FILTER_ALLOW
    ∧ (commit_filter 5 (-1) "/x" [("unix::mode", 420), ("unix::gid", 7)]
        (some [("/x", 73), ("/y", 1)])).file_info.get_attribute_uint32 "unix::uid"
        = (if (5 : Int) ≥ 0 then (5 : Int).toNat
            else GFileInfo.get_attribute_uint32 [("unix::mode", 420), ("unix::gid", 7)]
              "unix::uid") :=
  ⟨(commit_filter_result 5 (-1) "/x" [("unix::mode", 420), ("unix::gid", 7)]
      (some [("/x", 73), ("/y", 1)]) (by decide) (by decide)).1,
    (commit_filter_result 5 (-1) "/x" [("unix::mode", 420), ("unix::gid", 7)]
      (some [("/x", 73), ("/y", 1)]) (by decide) (by decide)).2.1⟩

/-- C6, the failing input.  With `--skip-if-unchanged`, a parent commit
whose contents checksum is the one of the finalised root, and a root
without metadata checksum, the comparison of line 305 reads the absent
checksum: the run does not return, no empty-tree error is set and the
transaction is not aborted.  When the contents checksums differ
(`empty_tree_env`) the same options give the empty-tree error and the
abort. -/
theorem empty_tree_compared_before_check :
    (ostree_builtin_commit empty_unchanged_env skip_cmdline ()).outcome = .null_deref
    ∧ (ostree_builtin_commit empty_unchanged_env skip_cmdline ()).trace
        = skip_st1.trace ++ [⟨.ostree_repo_stage_mtree, .ok (some "c0")⟩]
    ∧ (ostree_builtin_commit empty_tree_env skip_cmdline ()).outcome
        = .failure "Can\x27t commit an empty tree"
    ∧ (ostree_builtin_commit empty_tree_env skip_cmdline ()).trace
        = skip_st1.trace ++ [⟨.ostree_repo_stage_mtree, .ok (some "c1")⟩,
            ⟨.g_set_error "Can\x27t commit an empty tree",
              .err "Can\x27t commit an empty tree"⟩,
            ⟨.ostree_repo_abort_transaction, .ok none⟩] := by
  decide

/-- Witness of C7: the three values of `trees_cmdline` are staged in
argument order, one block each. -/
theorem trees_staged_in_order_witness :
    ∃ blocks, List.Forall₂ (TreeStaged trees_cmdline demo_ctx)
        ["dir=/a", "tar=b.tar", "ref=main"] blocks
      ∧ trees_st1.trace = demo_st.trace ++ blocks.flatten
      ∧ (ostree_builtin_commit demo_env trees_cmdline ()).trace.filter
          (fun ev => ev.call.is_staging) = blocks.flatten := by
  have hwf : ∀ t ∈ ["dir=/a", "tar=b.tar", "ref=main"], well_formed_tree t := by
    intro t ht
    simp only [List.mem_cons, List.mem_singleton, List.not_mem_nil, or_false] at ht
    rcases ht with rfl | rfl | rfl
    · exact ⟨"/a", Or.inl rfl⟩
    · exact ⟨"b.tar", Or.inr (Or.inl rfl)⟩
    · exact ⟨"main", Or.inr (Or.inr rfl)⟩
  exact (trees_staged_in_order demo_env trees_cmdline () demo_ctx demo_st
    ["dir=/a", "tar=b.tar", "ref=main"] rfl (by simp) hwf rfl).1 trees_st1 rfl

/-- Witness of C8: the line `+0644 /x` maps `/x` to 644, and in the buffer
`+1 /a`, NUL, newline, `+2 /b` only the line before the NUL is read. -/
theorem parse_statoverride_file_decimal_witness :
    (∃ table, parse_statoverride_file (fun _ => 0) (.ok "+0644 /x\n# note".toList)
        = .ok table
      ∧ table.lookup "/x" = some 644 ∧ table.lookup "/x" ≠ some 420)
    ∧ parse_statoverride_file (fun _ => 0)
        (.ok ("+1 /a".toList ++ Char.ofNat 0 :: "\n+2 /b\n".toList)) = .ok [("/a", 1)] := by
  have hsp : ∀ line ∈ g_strsplit_newline "+0644 /x\n# note".toList, ∀ rest,
      line = '+' :: rest → ' ' ∈ rest := by
    intro line hl rest hr
    have hlines : g_strsplit_newline "+0644 /x\n# note".toList
        = ["+0644 /x".toList, "# note".toList] := by decide
    rw [hlines] at hl
    simp only [List.mem_cons, List.mem_singleton, List.not_mem_nil, or_false] at hl
    rcases hl with rfl | rfl
    · cases hr
      decide
    · cases hr
  obtain ⟨table, h1, h2, _⟩ :=
    parse_statoverride_file_decimal (fun _ => 0) "+0644 /x\n# note".toList hsp
  have h3 := h2 [] "0644".toList "/x".toList ["# note".toList] (by decide) (by decide)
    (by decide) (by decide) (by
      intro line hl rest hr
      simp only [List.mem_singleton] at hl
      subst hl
      cases hr)
  have h4 : decimal_value "0644".toList = 644 := by decide
  rw [h4] at h3
  have h5 : table.lookup "/x" = some 644 := h3
  exact ⟨⟨table, h1, h5, by rw [h5]; decide⟩, by decide⟩

/-- Counterexample to C9 as stated: with `--tree=dir=/a --tree=bogus` the
transaction is opened and `/a` is staged before the bad value is seen. -/
theorem invalid_tree_counterexample :
    prepare_ok bogus_cmdline ∈ (ostree_builtin_commit demo_env bogus_cmdline ()).trace
    ∧ ⟨.ostree_repo_stage_directory_to_mtree (.for_path "/a") none, .ok none⟩
        ∈ (ostree_builtin_commit demo_env bogus_cmdline ()).trace
    ∧ (ostree_builtin_commit demo_env bogus_cmdline ()).outcome
        = .failure "Missing type in tree specification \x27bogus\x27" := by
  decide

/-- Witness of C9 (amended): the run with `--tree=dir=/a --tree=bogus`
does not succeed. -/
theorem invalid_tree_spec_fails_witness :
    bad_tree "bogus"
    ∧ (ostree_builtin_commit demo_env bogus_cmdline ()).outcome ≠ .success :=
  ⟨Or.inl (by decide),
    (invalid_tree_spec_fails demo_env bogus_cmdline () ["dir=/a"] "bogus" [] rfl
      (Or.inl (by decide))).1⟩

/-- C10, the failing input.  With one positional argument and no `--tree`
the second branch of line 212 is taken and the loop reads `*tree_iter` with
`opt_trees` being `NULL`: the run does not return and nothing is staged.
Without positional argument the current directory is staged. -/
theorem positional_argument_null_deref :
    positional_cmdline.argc = 2 ∧ positional_cmdline.opt_trees = none
    ∧ (ostree_builtin_commit demo_env positional_cmdline ()).outcome = .null_deref
    ∧ (ostree_builtin_commit demo_env positional_cmdline ()).trace = demo_setup_trace
    ∧ (ostree_builtin_commit demo_env demo_cmdline ()).trace.filter
        (fun ev => ev.call.is_staging)
        = [⟨.ostree_repo_stage_directory_to_mtree (.for_path "/cwd") none, .ok none⟩] := by
  decide

end OstreeCommit
